import Mathlib

/-!
# Hybrid A* search core (`src/algorithm.cpp`)

A shallow embedding of `aStar`, `updateH`, `dubinsShot` and
`Algorithm::hybridAStar`, the configuration block at the head of the latter
included (`loadConfig`).

Conventions of the embedding.

* `float` values are elements of an ordered field `K` with a floor function
  (exact arithmetic; `ℚ` for evaluation, `ℝ` for the metric statements).  The
  square root of `<cmath>` is the field `Env.sqrt`.
* Pointers are values of `Ptr`; the canonical grids `nodes2D`, `nodes3D` are
  total maps from indices to nodes, and a grid is only ever read or written at
  the indices at which the source reads or writes it.
* The boost binomial heap `O` is the list of the pointers it holds, in insertion
  order.  `O.top()` is the entry at the position chosen by `Env.top2D`
  (`Env.top3D`) from the list of the current `getC()` values; `O.pop()` removes
  that entry.  Theorems that need the heap to return a cheapest entry say so by
  the hypothesis `MinTop`.
* Loops that the source runs until a condition fails take a `fuel : Nat`; a run
  that exhausts the fuel yields `none`.
* In `dubinsShot` the rounding of two float operations decides how many passes
  the sampling loop makes and how many elements the array has: the addition of
  `x += Constants::dubinsStepSize` and the division of
  `length / Constants::dubinsStepSize`.  They are the parameter `FloatOps` of
  `dubinsShot`; `exactOps` are the operations of the field, `float32Ops` those of
  IEEE binary32.  `hybridAStar` calls `dubinsShot` with the exact operations.
-/

namespace HybridAStar

/-- Addresses held by node pointers: `nullptr`, the address of the `start`
object passed by reference, the address of a canonical slot `&nodes[i]`, and the
address of an element `&dubinsNodes[k]` of a shot sequence. -/
inductive Ptr where
  | null : Ptr
  | start : Ptr
  | slot (i : Int) : Ptr
  | shot (k : Int) : Ptr
deriving DecidableEq, Repr

/-- Result of one pass through a loop body: continue with a new state, or
return from the enclosing function. -/
inductive Step (σ ρ : Type) where
  | next (s : σ) : Step σ ρ
  | done (r : ρ) : Step σ ρ

/-- The C conversion `(int)v` / `(long)v` of a float: truncation toward zero. -/
def toInt {K : Type} [LinearOrderedField K] [FloorRing K] (v : K) : Int :=
  if 0 ≤ v then ⌊v⌋ else ⌈v⌉

/-- Modelled from the spec: the class `Node2D` (its header and `node2d.cpp` are
not part of the sources).  A 2D search node: integer cell, cost-so-far `g`,
cost-to-go `h`, the cached index, the flags open / closed / discovered and the
predecessor pointer. -/
structure Node2D (K : Type) where
  x : Int
  y : Int
  g : K
  h : K
  idx : Int
  o : Bool
  c : Bool
  d : Bool
  pred : Ptr

/-- Modelled from the spec: the class `Node3D` (its header and `node3d.cpp` are
not part of the sources).  A 3D search node: continuous pose, costs, cached
index, the flags open / closed, the primitive that produced it and the
predecessor pointer. -/
structure Node3D (K : Type) where
  x : K
  y : K
  t : K
  g : K
  h : K
  idx : Int
  o : Bool
  c : Bool
  prim : Int
  pred : Ptr

/-- Everything `algorithm.cpp` takes from outside the file: the collision and
distance oracles, the curve library, the heap, `Constants::*`, and the static
members of `Node3D` after configuration loading. -/
structure Env (K : Type) where
  /-- The function `sqrt` of cmath. -/
  sqrt : K → K
  /-- Position, in insertion order, of the entry `O.top()` of the 2D heap, given
  the current `getC()` of every entry. -/
  top2D : List K → Nat
  /-- Position of `O.top()` of the 3D heap. -/
  top3D : List K → Nat
  /-- Oracle `configurationSpace.isTraversable` on a 2D cell. -/
  isTraversable2D : Int → Int → Bool
  /-- Oracle `configurationSpace.isTraversable` on a 3D pose. -/
  isTraversable3D : K → K → K → Bool
  /-- Whether `Node2D::updateG` also sets the discovered flag of the node it
  updates (the method is not part of the sources). -/
  updateGDiscovers : Bool
  /-- Flag `Constants::dubins`. -/
  dubins : Bool
  /-- Flag `Constants::reverse`. -/
  reverse : Bool
  /-- Flag `Constants::twoD`. -/
  twoD : Bool
  /-- Flag `Constants::dubinsShot`. -/
  dubinsShot : Bool
  /-- Budget `Constants::iterations`. -/
  iterations : Int
  /-- Tolerance `Constants::tieBreaker`. -/
  tieBreaker : K
  /-- Sampling step `Constants::dubinsStepSize`. -/
  dubinsStepSize : K
  /-- Heading resolution `Constants::deltaHeadingRad`. -/
  deltaHeadingRad : K
  /-- Number of heading buckets `Constants::headings`. -/
  headings : Int
  /-- Length `dubinsPath.distance` of the forward-only curve between two poses. -/
  dubinsDistance : K × K × K → K × K × K → K
  /-- Length `reedsSheppPath.distance` of the reversal-permitting curve. -/
  reedsSheppDistance : K × K × K → K × K × K → K
  /-- Length `dubins_path_length` of the curve built by `dubins_init`. -/
  dubins_path_length : K × K × K → K × K × K → K
  /-- Sample `dubins_path_sample` of that curve at an arc length. -/
  dubins_path_sample : K × K × K → K × K × K → K → K × K × K
  /-- Function `Helper::normalizeHeadingRad`. -/
  normalizeHeadingRad : K → K
  /-- Oracle `voronoi.getDistance`. -/
  getDistance : K → K → K
  /-- Static `Node3D::succ_size_`. -/
  succ_size_ : Int
  /-- Static `Node3D::forward_size_`. -/
  forward_size_ : Int
  /-- Static `Node3D::use_dist_mode_`. -/
  use_dist_mode_ : Bool
  /-- Static `Node3D::use_new_mode_`. -/
  use_new_mode_ : Bool
  /-- Static `Node3D::distance_`. -/
  distance_ : List K
  /-- Static `Node3D::value_`. -/
  value_ : List K
  /-- Static `Node3D::delta_x_`. -/
  delta_x_ : List K
  /-- Element `Node3D::dx[0]` of the legacy table. -/
  dx0 : K
  /-- Pose of `createSuccessor(i)` from a pose (legacy mode). -/
  createSuccessor : K × K × K → Int → K × K × K
  /-- Pose of `new_createSuccessor(i)` from a pose (fixed-table mode). -/
  new_createSuccessor : K × K × K → Int → K × K × K
  /-- Pose of `dist_createSuccessor(i, step_size)` (distance-adaptive mode). -/
  dist_createSuccessor : K × K × K → Int → K → K × K × K
  /-- Test `Node3D::operator==` on two poses. -/
  equals3D : K × K × K → K × K × K → Bool
  /-- Test `getDist(goal) < 8 && isInRange(goal)` of the shot gate; the first
  argument is the iteration counter, since `isInRange` may draw a random
  number. -/
  shotRange : Int → K × K × K → K × K × K → Bool

set_option linter.unusedSectionVars false

variable {K : Type} [LinearOrderedField K] [FloorRing K]

/-! ## Node2D -/

namespace Node2D

/-- Method `getC`: total estimated cost. -/
def getC (n : Node2D K) : K := n.g + n.h

/-- Method `setIdx(width)`: stores and returns `y * width + x`. -/
def setIdx (n : Node2D K) (width : Int) : Node2D K :=
  { n with idx := n.y * width + n.x }

/-- Method `open`. -/
def markOpen (n : Node2D K) : Node2D K := { n with o := true, c := false }

/-- Method `close`. -/
def close (n : Node2D K) : Node2D K := { n with c := true, o := false }

/-- Method `reset`: clears the open and closed flags, keeps `discovered`. -/
def reset (n : Node2D K) : Node2D K := { n with c := false, o := false }

/-- Method `discover`. -/
def discover (n : Node2D K) : Node2D K := { n with d := true }

/-- Method `setG`. -/
def setG (n : Node2D K) (g : K) : Node2D K := { n with g := g }

/-- Method `isOnGrid(width, height)`. -/
def isOnGrid (n : Node2D K) (width height : Int) : Bool :=
  decide (0 ≤ n.x) && decide (n.x < width) && decide (0 ≤ n.y) && decide (n.y < height)

/-- Table `Node2D::dx` of the 8 grid moves. -/
def dx (i : Nat) : Int := [-1, -1, 0, 1, 1, 1, 0, -1].getD i 0

/-- Table `Node2D::dy` of the 8 grid moves. -/
def dy (i : Nat) : Int := [0, 1, 1, 1, 0, -1, -1, -1].getD i 0

/-- Constant `Node2D::dir`. -/
def dir : Nat := 8

/-- Method `createSuccessor(i)` called on the node at address `self`. -/
def createSuccessor (n : Node2D K) (self : Ptr) (i : Nat) : Node2D K :=
  { x := n.x + dx i, y := n.y + dy i, g := n.g, h := 0, idx := -1,
    o := false, c := false, d := false, pred := self }

/-- Method `movementCost`: Euclidean distance between two cells. -/
def movementCost (sqrt : K → K) (a b : Node2D K) : K :=
  sqrt ((((a.x - b.x) * (a.x - b.x) + (a.y - b.y) * (a.y - b.y) : Int)) : K)

/-- Method `updateG`, with `pred` the node the predecessor pointer designates. -/
def updateG (sqrt : K → K) (discovers : Bool) (n pred : Node2D K) : Node2D K :=
  { n with g := n.g + movementCost sqrt n pred, d := n.d || discovers }

/-- Method `updateH(goal)`. -/
def updateH (sqrt : K → K) (n goal : Node2D K) : Node2D K :=
  { n with h := movementCost sqrt n goal }

/-- Operator `==` on 2D nodes: same cell. -/
def equals (a b : Node2D K) : Bool := decide (a.x = b.x) && decide (a.y = b.y)

end Node2D

/-! ## 2D A* -/

/-- Which `return` statement of `aStar` produced the value. -/
inductive Exit2D where
  | goal : Exit2D
  | sentinel : Exit2D
deriving DecidableEq, Repr

/-- Value returned by `aStar` together with the 2D grid it leaves behind. -/
structure Result2D (K : Type) where
  exit : Exit2D
  value : K
  nodes2D : Int → Node2D K

/-- Memory `aStar` works on: the `start` object, the canonical grid, the heap. -/
structure Search2D (K : Type) where
  start : Node2D K
  nodes2D : Int → Node2D K
  O : List Ptr

namespace Search2D

/-- The node a heap pointer designates. -/
def deref (s : Search2D K) : Ptr → Node2D K
  | Ptr.slot i => s.nodes2D i
  | _ => s.start

/-- The call `p->setIdx(width)`: writes the index into the designated node. -/
def setIdx (s : Search2D K) (p : Ptr) (width : Int) : Search2D K :=
  match p with
  | Ptr.slot i => { s with nodes2D := Function.update s.nodes2D i ((s.nodes2D i).setIdx width) }
  | _ => { s with start := s.start.setIdx width }

/-- The `getC()` of every heap entry, in insertion order. -/
def keys (s : Search2D K) : List K := s.O.map (fun p => (s.deref p).getC)

end Search2D

/-- Position of the entry returned by `top()` in a heap with the given keys. -/
def topPos (top : List K → Nat) (keys : List K) : Nat :=
  if top keys < keys.length then top keys else 0

/-- The candidate `nSucc` of lines 486-488 for direction `i`, index set. -/
def candidate2D (width : Int) (p : Ptr) (s : Search2D K) (i : Nat) : Node2D K :=
  ((s.deref p).createSuccessor p i).setIdx width

/-- One pass of the successor loop of `aStar` (lines 483-520) for direction `i`,
expanding the node at address `p`. -/
def aStarSucc (E : Env K) (width height : Int) (goal : Node2D K) (p : Ptr)
    (s : Search2D K) (i : Nat) : Search2D K :=
  let nSucc := candidate2D width p s i
  let iSucc := nSucc.idx
  if nSucc.isOnGrid width height && E.isTraversable2D nSucc.x nSucc.y
      && !(s.nodes2D iSucc).c then
    let nSucc := nSucc.updateG E.sqrt E.updateGDiscovers (s.deref nSucc.pred)
    let newG := nSucc.g
    if !(s.nodes2D iSucc).o || decide (newG < (s.nodes2D iSucc).g) then
      let nSucc := (nSucc.updateH E.sqrt goal).markOpen
      { s with nodes2D := Function.update s.nodes2D iSucc nSucc,
               O := s.O ++ [Ptr.slot iSucc] }
    else s
  else s

/-- Position in the heap of the entry `O.top()`. -/
def Search2D.topIdx (E : Env K) (s : Search2D K) : Nat := topPos E.top2D s.keys

/-- Pointer `nPred = O.top()` (line 439). -/
def Search2D.top (E : Env K) (s : Search2D K) : Ptr := s.O.getD (s.topIdx E) Ptr.start

/-- Memory after `iPred = nPred->setIdx(width)` (line 441). -/
def aStarEnter (E : Env K) (width : Int) (s : Search2D K) : Search2D K :=
  s.setIdx (s.top E) width

/-- Index `iPred` of the popped node (line 441). -/
def aStarIPred (E : Env K) (width : Int) (s : Search2D K) : Int :=
  ((aStarEnter E width s).deref (s.top E)).idx

/-- Memory after `close()`, `discover()` and `O.pop()` (lines 457-469). -/
def aStarClose (E : Env K) (width : Int) (s : Search2D K) : Search2D K :=
  let s1 := aStarEnter E width s
  let iPred := aStarIPred E width s
  { s1 with nodes2D := Function.update s1.nodes2D iPred ((s1.nodes2D iPred).close.discover),
            O := s1.O.eraseIdx (s.topIdx E) }

/-- The successor loop of `aStar` (lines 483-520), cut after `n` directions. -/
def aStarExpand (E : Env K) (width height : Int) (goal : Node2D K) (p : Ptr) (n : Nat)
    (s : Search2D K) : Search2D K :=
  (List.range n).foldl (aStarSucc E width height goal p) s

/-- One pass of the `while (!O.empty())` body of `aStar` (lines 438-522), for a
non-empty heap. -/
def aStarIter (E : Env K) (width height : Int) (goal : Node2D K) (s : Search2D K) :
    Step (Search2D K) (Result2D K) :=
  let p := s.top E
  let s1 := aStarEnter E width s
  let iPred := aStarIPred E width s
  if (s1.nodes2D iPred).c then
    Step.next { s1 with O := s1.O.eraseIdx (s.topIdx E) }
  else if (s1.nodes2D iPred).o then
    let s2 := aStarClose E width s
    if (s2.deref p).equals goal then
      Step.done { exit := Exit2D.goal, value := (s2.deref p).g, nodes2D := s2.nodes2D }
    else
      Step.next (aStarExpand E width height goal p Node2D.dir s2)
  else
    Step.next s1

/-- The `while (!O.empty())` loop of `aStar` followed by `return 1000`. -/
def aStarLoop (E : Env K) (width height : Int) (goal : Node2D K) :
    Nat → Search2D K → Option (Result2D K)
  | 0, _ => none
  | fuel + 1, s =>
    if s.O.isEmpty then
      some { exit := Exit2D.sentinel, value := 1000, nodes2D := s.nodes2D }
    else
      match aStarIter E width height goal s with
      | Step.next s1 => aStarLoop E width height goal fuel s1
      | Step.done r => some r

/-- State of `aStar` when it enters its loop (lines 412-429). -/
def aStarInit (E : Env K) (start goal : Node2D K) (nodes2D : Int → Node2D K)
    (width height : Int) : Search2D K :=
  let nodes2D := fun i =>
    if 0 ≤ i ∧ i < width * height then (nodes2D i).reset else nodes2D i
  let start := ((start.updateH E.sqrt goal).markOpen).setIdx width
  { start := start, nodes2D := Function.update nodes2D start.idx start, O := [Ptr.start] }

/-- Function `aStar` (lines 405-527). -/
def aStar (E : Env K) (fuel : Nat) (start goal : Node2D K) (nodes2D : Int → Node2D K)
    (width height : Int) : Option (Result2D K) :=
  aStarLoop E width height goal fuel (aStarInit E start goal nodes2D width height)

/-! ## Node3D -/

namespace Node3D

/-- The pose `(getX(), getY(), getT())` of a node. -/
def pose (n : Node3D K) : K × K × K := (n.x, n.y, n.t)

/-- Method `getC`: total estimated cost. -/
def getC (n : Node3D K) : K := n.g + n.h

/-- Modelled from the spec: `Node3D::setIdx(width, height)`, the linearised
index of the cell and heading bucket of the pose (the method is not part of the
sources). -/
def setIdx (E : Env K) (n : Node3D K) (width height : Int) : Node3D K :=
  { n with idx := toInt (n.t / E.deltaHeadingRad) * width * height
                    + toInt n.y * width + toInt n.x }

/-- Modelled from the spec: `Node3D::isOnGrid(width, height)`: the position lies
in the grid and the heading bucket among the `Constants::headings` buckets. -/
def isOnGrid (E : Env K) (n : Node3D K) (width height : Int) : Bool :=
  decide (0 ≤ n.x) && decide (n.x < (width : K)) && decide (0 ≤ n.y)
    && decide (n.y < (height : K)) && decide (0 ≤ toInt (n.t / E.deltaHeadingRad))
    && decide (toInt (n.t / E.deltaHeadingRad) < E.headings)

/-- Method `open`. -/
def markOpen (n : Node3D K) : Node3D K := { n with o := true, c := false }

/-- Method `close`. -/
def close (n : Node3D K) : Node3D K := { n with c := true, o := false }

/-- Method `setH`. -/
def setH (n : Node3D K) (h : K) : Node3D K := { n with h := h }

/-- Method `setPred`. -/
def setPred (n : Node3D K) (p : Ptr) : Node3D K := { n with pred := p }

/-- Modelled from the spec: `Node3D::updateG(step)` adds the step length it is
given to the cost-so-far inherited from the predecessor. -/
def updateG (n : Node3D K) (step : K) : Node3D K := { n with g := n.g + step }

/-- Modelled from the spec: the node allocated by the three `createSuccessor`
variants, called with primitive `i` on the node `n` at address `self`: the new
pose, the cost-so-far of `n`, no heuristic yet, predecessor `self`. -/
def successor (n : Node3D K) (self : Ptr) (q : K × K × K) (i : Int) : Node3D K :=
  { x := q.1, y := q.2.1, t := q.2.2, g := n.g, h := 0, idx := -1,
    o := false, c := false, prim := i, pred := self }

/-- The default-constructed node `Node3D()`. -/
def blank : Node3D K :=
  { x := 0, y := 0, t := 0, g := 0, h := 0, idx := -1,
    o := false, c := false, prim := 0, pred := Ptr.null }

end Node3D

/-! ## Cost to go -/

/-- The constructor call `Node2D(x, y, 0, 0, nullptr)` on float coordinates. -/
def node2DAt (x y : K) : Node2D K :=
  { x := toInt x, y := toInt y, g := 0, h := 0, idx := -1,
    o := false, c := false, d := false, pred := Ptr.null }

/-- Index `(int)start.getY() * width + (int)start.getX()` of the 2D cell of a
3D node. -/
def cellIdx (n : Node3D K) (width : Int) : Int := toInt n.y * width + toInt n.x

/-- Local `dubinsCost` of `updateH` (lines 535, 542-599). -/
def dubinsCost (E : Env K) (start goal : Node3D K) : K :=
  if E.dubins then E.dubinsDistance start.pose goal.pose else 0

/-- Local `reedsSheppCost` of `updateH` (lines 536, 602-616). -/
def reedsSheppCost (E : Env K) (start goal : Node3D K) : K :=
  if E.reverse && !E.dubins then E.reedsSheppDistance start.pose goal.pose else 0

/-- Local `twoDoffset` of `updateH` (lines 638-641). -/
def twoDoffset (E : Env K) (start goal : Node3D K) : K :=
  E.sqrt (((start.x - (toInt start.x : K)) - (goal.x - (toInt goal.x : K)))
            * ((start.x - (toInt start.x : K)) - (goal.x - (toInt goal.x : K)))
          + ((start.y - (toInt start.y : K)) - (goal.y - (toInt goal.y : K)))
            * ((start.y - (toInt start.y : K)) - (goal.y - (toInt goal.y : K))))

/-- Condition of line 620: the 2D search is run for this query. -/
def runs2D (E : Env K) (start : Node3D K) (nodes2D : Int → Node2D K) (width : Int) : Bool :=
  E.twoD && !(nodes2D (cellIdx start width)).d

/-- The 2D grid after lines 620-633 of `updateH`. -/
def updateH2D (E : Env K) (fuel : Nat) (start goal : Node3D K) (nodes2D : Int → Node2D K)
    (width height : Int) : Option (Int → Node2D K) :=
  if runs2D E start nodes2D width then
    let start2d : Node2D K := node2DAt start.x start.y
    let goal2d : Node2D K := node2DAt goal.x goal.y
    match aStar E fuel goal2d start2d nodes2D width height with
    | none => none
    | some r =>
      some (Function.update r.nodes2D (cellIdx start width)
        ((r.nodes2D (cellIdx start width)).setG r.value))
  else some nodes2D

/-- Local `twoDCost` of `updateH` (lines 537, 635-643), read from the grid that
lines 620-633 leave. -/
def twoDCost (E : Env K) (start goal : Node3D K) (nodes2D : Int → Node2D K) (width : Int) : K :=
  if E.twoD then (nodes2D (cellIdx start width)).g - twoDoffset E start goal else 0

/-- Function `updateH` (lines 532-647): the updated query node and 2D grid. -/
def updateH (E : Env K) (fuel : Nat) (start goal : Node3D K) (nodes2D : Int → Node2D K)
    (width height : Int) : Option (Node3D K × (Int → Node2D K)) :=
  match updateH2D E fuel start goal nodes2D width height with
  | none => none
  | some nodes2D =>
    some (start.setH (max (reedsSheppCost E start goal)
            (max (dubinsCost E start goal) (twoDCost E start goal nodes2D width))),
          nodes2D)

/-! ## Dubins shot -/

/-- The array `dubinsNodes` of `dubinsShot` and the pointer it returns. -/
structure Shot (K : Type) where
  /-- Number of elements allocated by `new Node3D[...]`. -/
  size : Int
  /-- Contents of `dubinsNodes`, by index. -/
  nodes : Int → Node3D K
  /-- Index `i - 1` of the element whose address is returned. -/
  ret : Int

/-- The float operations of `dubinsShot` whose rounding shows in its control
flow and in the size of its array: the addition of line 695 and the division
of line 667. -/
structure FloatOps (K : Type) where
  /-- The sum `x + Constants::dubinsStepSize` as `x += ...` stores it in the
  `float x`. -/
  add : K → K → K
  /-- The quotient `length / Constants::dubinsStepSize` of line 667. -/
  div : K → K → K

/-- The operations of exact arithmetic. -/
def exactOps : FloatOps K := { add := fun a b => a + b, div := fun a b => a / b }

/-- The `while (x < length)` loop of `dubinsShot` (lines 669-705), from counter
`i` and arc length `x`; `some none` is the `return nullptr` of line 703. -/
def dubinsShotLoop (E : Env K) (ops : FloatOps K) (startPtr : Ptr) (q0 q1 : K × K × K)
    (length : K) :
    Nat → Int → K → (Int → Node3D K) → Option (Option (Int × (Int → Node3D K)))
  | 0, _, _, _ => none
  | fuel + 1, i, x, nodes =>
    if x < length then
      let q := E.dubins_path_sample q0 q1 x
      let n : Node3D K :=
        { nodes i with x := q.1, y := q.2.1, t := E.normalizeHeadingRad q.2.2 }
      if E.isTraversable3D n.x n.y n.t then
        let n := n.setPred (if 0 < i then Ptr.shot (i - 1) else startPtr)
        dubinsShotLoop E ops startPtr q0 q1 length fuel (i + 1) (ops.add x E.dubinsStepSize)
          (Function.update nodes i n)
      else some none
    else some (some (i, nodes))

/-- Function `dubinsShot` (lines 652-709), called on the node `start` at address
`startPtr`. -/
def dubinsShot (E : Env K) (ops : FloatOps K) (fuel : Nat) (start : Node3D K) (startPtr : Ptr)
    (goal : Node3D K) : Option (Option (Shot K)) :=
  let length := E.dubins_path_length start.pose goal.pose
  match dubinsShotLoop E ops startPtr start.pose goal.pose length fuel 0 0
      (fun _ => Node3D.blank) with
  | none => none
  | some none => some none
  | some (some (i, nodes)) =>
    some (some { size := toInt (ops.div length E.dubinsStepSize) + 1, nodes := nodes,
                 ret := i - 1 })

/-! ## 3D hybrid A* -/

/-- What `hybridAStar` returns: `nullptr`, the popped node `nPred`, or the last
node of a shot. -/
inductive Return3D (K : Type) where
  | null : Return3D K
  | node (p : Ptr) : Return3D K
  | shot (sh : Shot K) : Return3D K

/-- Memory `hybridAStar` works on: the `start` object, both canonical grids, the
heap and the counter `iterations`. -/
structure Search3D (K : Type) where
  start : Node3D K
  nodes3D : Int → Node3D K
  nodes2D : Int → Node2D K
  O : List Ptr
  iterations : Int

/-- Returned pointer of `hybridAStar` together with the memory at the return. -/
structure Result3D (K : Type) where
  ret : Return3D K
  final : Search3D K

namespace Search3D

/-- The node a heap pointer designates. -/
def deref (s : Search3D K) : Ptr → Node3D K
  | Ptr.slot i => s.nodes3D i
  | _ => s.start

/-- The call `p->setIdx(width, height)`: writes the index into the designated
node. -/
def setIdx (E : Env K) (s : Search3D K) (p : Ptr) (width height : Int) : Search3D K :=
  match p with
  | Ptr.slot i =>
    { s with nodes3D := Function.update s.nodes3D i ((s.nodes3D i).setIdx E width height) }
  | _ => { s with start := s.start.setIdx E width height }

/-- The `getC()` of every heap entry, in insertion order. -/
def keys (s : Search3D K) : List K := s.O.map (fun p => (s.deref p).getC)

end Search3D

/-- Local `step_size` of lines 290-306 in distance-adaptive mode: `value_` at the
first index whose threshold the clearance meets, or at `distance_.size()` when
there is none (a read past the end, modelled as 0). -/
def distStepSize (E : Env K) (q : K × K × K) : K :=
  E.value_.getD (E.distance_.findIdx (fun a => decide (a ≤ E.getDistance q.1 q.2.1))) 0

/-- Value of the local `step_size` when the successor loop starts, for the pose
`q` of `nPred` (0 stands for the uninitialised value outside distance-adaptive
mode, where it is never read). -/
def stepSize (E : Env K) (q : K × K × K) : K :=
  if E.use_dist_mode_ then distStepSize E q else 0

/-- Pose of the successor allocated at lines 313-326 for primitive `i`.  The
assignments to `step_size` at lines 320 and 325 are dead stores. -/
def succPose (E : Env K) (q : K × K × K) (i : Int) (step_size : K) : K × K × K :=
  if E.use_dist_mode_ then E.dist_createSuccessor q i step_size
  else if E.use_new_mode_ then E.new_createSuccessor q i
  else E.createSuccessor q i

/-- The candidate `nSucc` of lines 313-329 for primitive `i`, index set. -/
def candidate (E : Env K) (width height : Int) (p : Ptr) (step_size : K) (s : Search3D K)
    (i : Nat) : Node3D K :=
  (Node3D.successor (s.deref p) p (succPose E (s.deref p).pose i step_size) i).setIdx
    E width height

/-- One pass of the successor loop of `hybridAStar` (lines 310-386) for
primitive `i`, expanding the node at address `p` whose index is `iPred`. -/
def hybridSucc (E : Env K) (fuel : Nat) (width height : Int) (goal : Node3D K) (p : Ptr)
    (iPred : Int) (step_size : K) (s : Search3D K) (i : Nat) : Option (Search3D K) :=
  let nSucc := candidate E width height p step_size s i
  let iSucc := nSucc.idx
  if nSucc.isOnGrid E width height && E.isTraversable3D nSucc.x nSucc.y nSucc.t then
    if !(s.nodes3D iSucc).c || decide (iPred = iSucc) then
      let nSucc := nSucc.updateG E.dx0
      let newG := nSucc.g
      if !(s.nodes3D iSucc).o || decide (newG < (s.nodes3D iSucc).g)
          || decide (iPred = iSucc) then
        match updateH E fuel nSucc goal s.nodes2D width height with
        | none => none
        | some (nSucc, nodes2D) =>
          let s := { s with nodes2D := nodes2D }
          if decide (iPred = iSucc)
              && decide (nSucc.getC > (s.deref p).getC + E.tieBreaker) then
            some s
          else
            let nSucc :=
              if decide (iPred = iSucc)
                  && decide (nSucc.getC ≤ (s.deref p).getC + E.tieBreaker) then
                nSucc.setPred (s.deref p).pred
              else nSucc
            let nSucc := nSucc.markOpen
            some { s with nodes3D := Function.update s.nodes3D iSucc nSucc,
                          O := s.O ++ [Ptr.slot iSucc] }
      else some s
    else some s
  else some s

/-- The successor loop `for (int i = 0; i < Node3D::succ_size_; i++)`, cut after
`n` primitives. -/
def hybridExpand (E : Env K) (fuel : Nat) (width height : Int) (goal : Node3D K) (p : Ptr)
    (iPred : Int) (step_size : K) (n : Nat) (s : Search3D K) : Option (Search3D K) :=
  (List.range n).foldlM (hybridSucc E fuel width height goal p iPred step_size) s

/-- The shot attempt of lines 271-285: `some none` when the gate is closed or the
shot returns `nullptr`.  The shot is run with the exact operations. -/
def shotAttempt (E : Env K) (fuel : Nat) (goal : Node3D K) (p : Ptr) (s : Search3D K) :
    Option (Option (Shot K)) :=
  if E.dubinsShot && E.shotRange s.iterations (s.deref p).pose goal.pose
      && decide ((s.deref p).prim < E.forward_size_) then
    dubinsShot E exactOps fuel (s.deref p) p goal
  else some none

/-- Position in the heap of the entry `O.top()`. -/
def Search3D.topIdx (E : Env K) (s : Search3D K) : Nat := topPos E.top3D s.keys

/-- Pointer `nPred = O.top()` (line 213). -/
def Search3D.top (E : Env K) (s : Search3D K) : Ptr := s.O.getD (s.topIdx E) Ptr.start

/-- Memory after `iPred = nPred->setIdx(width, height); iterations++`
(lines 215-216). -/
def hybridEnter (E : Env K) (width height : Int) (s : Search3D K) : Search3D K :=
  { s.setIdx E (s.top E) width height with iterations := s.iterations + 1 }

/-- Index `iPred` of the popped node (line 215). -/
def hybridIPred (E : Env K) (width height : Int) (s : Search3D K) : Int :=
  ((hybridEnter E width height s).deref (s.top E)).idx

/-- Memory after `nodes3D[iPred].close()` and `O.pop()` (lines 250-252). -/
def hybridClose (E : Env K) (width height : Int) (s : Search3D K) : Search3D K :=
  let s1 := hybridEnter E width height s
  let iPred := hybridIPred E width height s
  { s1 with nodes3D := Function.update s1.nodes3D iPred (s1.nodes3D iPred).close,
            O := s1.O.eraseIdx (s.topIdx E) }

/-- One pass of the `while (!O.empty())` body of `hybridAStar` (lines 213-388),
for a non-empty heap. -/
def hybridIter (E : Env K) (fuel : Nat) (width height : Int) (goal : Node3D K)
    (s : Search3D K) : Option (Step (Search3D K) (Result3D K)) :=
  let p := s.top E
  let s1 := hybridEnter E width height s
  let iPred := hybridIPred E width height s
  if (s1.nodes3D iPred).c then
    some (Step.next { s1 with O := s1.O.eraseIdx (s.topIdx E) })
  else if (s1.nodes3D iPred).o then
    let s2 := hybridClose E width height s
    if E.equals3D (s2.deref p).pose goal.pose || decide (s2.iterations > E.iterations) then
      some (Step.done { ret := Return3D.node p, final := s2 })
    else
      match shotAttempt E fuel goal p s2 with
      | none => none
      | some (some sh) => some (Step.done { ret := Return3D.shot sh, final := s2 })
      | some none =>
        (hybridExpand E fuel width height goal p iPred (stepSize E (s2.deref p).pose)
          E.succ_size_.toNat s2).map Step.next
  else
    some (Step.next s1)

/-- The `while (!O.empty())` loop of `hybridAStar` followed by `return nullptr`;
`gas` is the fuel handed to the loops of `updateH` and `dubinsShot`. -/
def hybridLoop (E : Env K) (gas : Nat) (width height : Int) (goal : Node3D K) :
    Nat → Search3D K → Option (Result3D K)
  | 0, _ => none
  | fuel + 1, s =>
    if s.O.isEmpty then some { ret := Return3D.null, final := s }
    else
      match hybridIter E gas width height goal s with
      | none => none
      | some (Step.next s1) => hybridLoop E gas width height goal fuel s1
      | some (Step.done r) => some r

/-- State of `hybridAStar` when it enters its loop (lines 136-152). -/
def hybridInit (E : Env K) (gas : Nat) (start goal : Node3D K) (nodes3D : Int → Node3D K)
    (nodes2D : Int → Node2D K) (width height : Int) : Option (Search3D K) :=
  match updateH E gas start goal nodes2D width height with
  | none => none
  | some (start, nodes2D) =>
    let start := (start.markOpen).setIdx E width height
    some { start := start, nodes3D := Function.update nodes3D start.idx start,
           nodes2D := nodes2D, O := [Ptr.start], iterations := 0 }

/-- Function `Algorithm::hybridAStar` (lines 130-400), after the configuration
block has filled the static tables. -/
def hybridAStar (E : Env K) (fuel : Nat) (start goal : Node3D K) (nodes3D : Int → Node3D K)
    (nodes2D : Int → Node2D K) (width height : Int) : Option (Result3D K) :=
  match hybridInit E fuel start goal nodes3D nodes2D width height with
  | none => none
  | some s => hybridLoop E fuel width height goal fuel s

/-! ## Runs and paths -/

/-- Memory of `hybridAStar` after `n` complete passes of its loop, none of which
returned: `none` when the heap is empty before one of them, or one of them
returns or does not finish. -/
def hybridRun (E : Env K) (gas : Nat) (width height : Int) (goal : Node3D K) :
    Nat → Search3D K → Option (Search3D K)
  | 0, s => some s
  | n + 1, s =>
    if s.O.isEmpty then none
    else
      match hybridIter E gas width height goal s with
      | some (Step.next s1) => hybridRun E gas width height goal n s1
      | _ => none

/-- Memory of `aStar` after `n` complete passes of its loop, none of which
returned. -/
def aStarRun (E : Env K) (width height : Int) (goal : Node2D K) :
    Nat → Search2D K → Option (Search2D K)
  | 0, s => some s
  | n + 1, s =>
    if s.O.isEmpty then none
    else
      match aStarIter E width height goal s with
      | Step.next s1 => aStarRun E width height goal n s1
      | Step.done _ => none

/-- Memory in which a pass of the loop of `hybridAStar` ends, whether it
continues or returns. -/
def Step.memory : Step (Search3D K) (Result3D K) → Search3D K
  | Step.next s => s
  | Step.done r => r.final

/-- Pointer consistency of the memory of `hybridAStar` at the head of its loop:
the predecessor of the `start` object is no canonical slot, every heap entry
is `&start` or the address of a slot, and a slot `k` with an entry in the heap
holds a node whose pose has index `k` and whose predecessor is not `&nodes3D[k]`. -/
def PredInv (E : Env K) (width height : Int) (s : Search3D K) : Prop :=
  (∀ k : Int, s.start.pred ≠ Ptr.slot k) ∧
  (∀ p ∈ s.O, p = Ptr.start ∨ ∃ k : Int, p = Ptr.slot k) ∧
  (∀ k : Int, Ptr.slot k ∈ s.O →
    ((s.nodes3D k).setIdx E width height).idx = k ∧ (s.nodes3D k).pred ≠ Ptr.slot k)

/-- Pointer consistency while the node at address `p`, of index `iPred`, is
being expanded. -/
def ExpandInv (E : Env K) (width height : Int) (p : Ptr) (iPred : Int) (s : Search3D K) :
    Prop :=
  PredInv E width height s ∧
  (p = Ptr.start ∨ (p = Ptr.slot iPred ∧ (s.nodes3D iPred).pred ≠ Ptr.slot iPred))

/-! ## A concrete configuration

A corridor of cells `(x, 0)`; the planner moves `stride` cells forward
(primitive 0) or back (primitive 1), and the goal test compares cells. -/

/-- Position of the first least key: the choice of a stable min-heap. -/
def firstMin : List K → Nat
  | [] => 0
  | a :: l => if l.all (fun b => decide (a ≤ b)) then 0 else firstMin l + 1

/-- The corridor configuration with free cells `free`, iteration budget
`budget`, the 2D heuristic switched by `twoD` and primitives of length
`stride`; no curvature heuristic and no shot. -/
def corridor (sqrt : K → K) (free : Int → Int → Bool) (budget : Int) (twoD : Bool)
    (stride : K) : Env K :=
  { sqrt := sqrt, top2D := firstMin, top3D := firstMin,
    isTraversable2D := free,
    isTraversable3D := fun x y _ => free (toInt x) (toInt y),
    updateGDiscovers := true, dubins := false, reverse := false, twoD := twoD,
    dubinsShot := false, iterations := budget, tieBreaker := 0, dubinsStepSize := 1,
    deltaHeadingRad := 1, headings := 1,
    dubinsDistance := fun _ _ => 0, reedsSheppDistance := fun _ _ => 0,
    dubins_path_length := fun _ _ => 0, dubins_path_sample := fun _ _ _ => (0, 0, 0),
    normalizeHeadingRad := fun t => t, getDistance := fun _ _ => 0,
    succ_size_ := 2, forward_size_ := 1, use_dist_mode_ := false, use_new_mode_ := false,
    distance_ := [], value_ := [], delta_x_ := [], dx0 := stride,
    createSuccessor := fun q i =>
      if i = 0 then (q.1 + stride, q.2.1, q.2.2) else (q.1 - stride, q.2.1, q.2.2),
    new_createSuccessor := fun q _ => q,
    dist_createSuccessor := fun q _ _ => q,
    equals3D := fun a b => decide (toInt a.1 = toInt b.1) && decide (toInt a.2.1 = toInt b.2.1),
    shotRange := fun _ _ _ => false }

/-- A 3D node at pose `(x, 0, 0)` as a caller constructs it. -/
def poseNode (x : K) : Node3D K :=
  { x := x, y := 0, t := 0, g := 0, h := 0, idx := -1, o := false, c := false,
    prim := 0, pred := Ptr.null }

/-- A freshly allocated 2D grid. -/
def fresh2D : Int → Node2D K := fun _ =>
  { x := 0, y := 0, g := 0, h := 0, idx := -1, o := false, c := false, d := false,
    pred := Ptr.null }

/-- A freshly allocated 3D grid. -/
def fresh3D : Int → Node3D K := fun _ => Node3D.blank

/-- Integer square root, by search below `n`. -/
def natSqrt (n : Nat) : Nat := ((List.range (n + 1)).filter (fun k => k * k ≤ n)).length - 1

/-- Exact square root of a rational with square numerator and denominator
(the integer square roots otherwise). -/
def ratSqrt (q : ℚ) : ℚ := (natSqrt q.num.toNat : ℚ) / (natSqrt q.den : ℚ)

/-! ## Grid paths -/

/-- The cell `(x, y)` lies on the `width` x `height` grid. -/
def OnGrid (width height : Int) (c : Int × Int) : Prop :=
  0 ≤ c.1 ∧ c.1 < width ∧ 0 ≤ c.2 ∧ c.2 < height

/-- The cell reached from `c` by the grid move of direction `i`. -/
def moveCell (c : Int × Int) (i : Nat) : Int × Int := (c.1 + Node2D.dx i, c.2 + Node2D.dy i)

/-- The move of direction `i` from `c` is one of the 8 grid moves and lands on
an on-grid cell that the traversability oracle accepts. -/
def Admissible (E : Env K) (width height : Int) (c : Int × Int) (i : Nat) : Prop :=
  i < Node2D.dir ∧ OnGrid width height (moveCell c i)
    ∧ E.isTraversable2D (moveCell c i).1 (moveCell c i).2 = true

/-- The cell reached from `c` by a sequence of admissible moves, `none` when
one of the moves is not admissible. -/
def walk (E : Env K) (width height : Int) : Int × Int → List Nat → Option (Int × Int)
  | c, [] => some c
  | c, i :: path =>
    if i < Node2D.dir ∧ (0 ≤ (moveCell c i).1 ∧ (moveCell c i).1 < width
        ∧ 0 ≤ (moveCell c i).2 ∧ (moveCell c i).2 < height)
        ∧ E.isTraversable2D (moveCell c i).1 (moveCell c i).2 = true then
      walk E width height (moveCell c i) path
    else none

/-- The cell `b` is reachable from the cell `a` through on-grid, traversable,
8-connected moves. -/
def Reachable (E : Env K) (width height : Int) (a b : Int × Int) : Prop :=
  ∃ path : List Nat, walk E width height a path = some b

/-- Cost of the move of direction `i`: 1 when axis-aligned, `sqrt2` when
diagonal. -/
def moveCost (sqrt2 : K) (i : Nat) : K :=
  if Node2D.dx i = 0 ∨ Node2D.dy i = 0 then 1 else sqrt2

/-- Total cost of a sequence of moves. -/
def pathCost (sqrt2 : K) : List Nat → K
  | [] => 0
  | i :: path => moveCost sqrt2 i + pathCost sqrt2 path

/-- The value `v` is the least total cost of a sequence of admissible moves
from `a` to `b`, and some sequence attains it. -/
def IsMinCost (E : Env K) (sqrt2 : K) (width height : Int) (a b : Int × Int) (v : K) : Prop :=
  (∃ path, walk E width height a path = some b ∧ pathCost sqrt2 path = v) ∧
  ∀ path, walk E width height a path = some b → v ≤ pathCost sqrt2 path

/-- The heap returns a cheapest entry: the position chosen by `top` is valid and
holds a least key. -/
def MinTop (top : List K → Nat) : Prop :=
  ∀ keys : List K, keys ≠ [] →
    top keys < keys.length ∧ ∀ k ∈ keys, keys.getD (top keys) 0 ≤ k

/-- The cell of a 2D node. -/
def Node2D.cell (n : Node2D K) : Int × Int := (n.x, n.y)

/-- Index `y * width + x` of a cell. -/
def cellIndex (width : Int) (c : Int × Int) : Int := c.2 * width + c.1

/-- Number of slots of the 2D grid that are not closed. -/
def notClosed (width height : Int) (nodes2D : Int → Node2D K) : Nat :=
  ((Finset.Ico (0 : Int) (width * height)).filter (fun k => (nodes2D k).c = false)).card

/-- Bound on the number of passes the loop of `aStar` still makes: every pass
removes one heap entry, and only a pass that closes a slot pushes entries, at
most 8 of them. -/
def potential2D (width height : Int) (s : Search2D K) : Nat :=
  s.O.length + 8 * notClosed width height s.nodes2D

/-- Consistency of the memory of `aStar` relative to the start cell `a`: heap
entries are `&start` or addresses of in-range slots; a slot that is open or
closed is not both, holds a node of an on-grid cell reachable from `a` whose
index is the slot; an open slot has a heap entry; the `start` object keeps its
cell `a`, and its slot stays open or closed. -/
structure Inv2D (E : Env K) (width height : Int) (a : Int × Int) (s : Search2D K) : Prop where
  entries : ∀ p ∈ s.O, p = Ptr.start ∨ ∃ k : Int, p = Ptr.slot k ∧ 0 ≤ k ∧ k < width * height
    ∧ ((s.nodes2D k).o = true ∨ (s.nodes2D k).c = true)
  startCell : s.start.cell = a ∧ s.start.idx = cellIndex width a
  startGrid : OnGrid width height a
  startSlot : (s.nodes2D (cellIndex width a)).o = true ∨ (s.nodes2D (cellIndex width a)).c = true
  slots : ∀ k : Int, 0 ≤ k → k < width * height →
    ((s.nodes2D k).o = true ∨ (s.nodes2D k).c = true) →
    ((s.nodes2D k).o = false ∨ (s.nodes2D k).c = false) ∧
    OnGrid width height (s.nodes2D k).cell ∧ cellIndex width (s.nodes2D k).cell = k ∧
    (s.nodes2D k).idx = k ∧ Reachable E width height a (s.nodes2D k).cell
  queued : ∀ k : Int, 0 ≤ k → k < width * height → (s.nodes2D k).o = true →
    Ptr.slot k ∈ s.O ∨ (Ptr.start ∈ s.O ∧ k = cellIndex width a)

/-- Cost `movementCost` of the grid move of direction `i`, as `updateG` computes
it: the square root of `dx[i]^2 + dy[i]^2`. -/
def stepCost (E : Env K) (i : Nat) : K :=
  E.sqrt (((Node2D.dx i * Node2D.dx i + Node2D.dy i * Node2D.dy i : Int)) : K)

/-- The closed slot `k` has been expanded through its first `j` directions: its
cell is not the goal cell, and each admissible move among them leads to a cell
whose slot is closed, or open with a cost-so-far no larger than the cost
through slot `k`. -/
def ExploredUpTo (E : Env K) (width height : Int) (goal : Node2D K) (s : Search2D K)
    (k : Int) (j : Nat) : Prop :=
  (s.nodes2D k).cell ≠ goal.cell ∧
  ∀ i, i < j → Admissible E width height (s.nodes2D k).cell i →
    (s.nodes2D (cellIndex width (moveCell (s.nodes2D k).cell i))).c = true ∨
    ((s.nodes2D (cellIndex width (moveCell (s.nodes2D k).cell i))).o = true ∧
      (s.nodes2D (cellIndex width (moveCell (s.nodes2D k).cell i))).g
        ≤ (s.nodes2D k).g + stepCost E i)

/-- Every closed slot other than `iPred` has been expanded through all 8
directions, and slot `iPred`, if closed, through its first `j` directions. -/
def ExploredExcept (E : Env K) (width height : Int) (goal : Node2D K) (s : Search2D K)
    (iPred : Int) (j : Nat) : Prop :=
  ∀ k : Int, 0 ≤ k → k < width * height → (s.nodes2D k).c = true →
    ExploredUpTo E width height goal s k (if k = iPred then j else Node2D.dir)

/-- Every closed slot has been expanded through all 8 directions (the state of
the closed list at the head of the loop of `aStar`). -/
def Explored (E : Env K) (width height : Int) (goal : Node2D K) (s : Search2D K) : Prop :=
  ∀ k : Int, 0 ≤ k → k < width * height → (s.nodes2D k).c = true →
    ExploredUpTo E width height goal s k Node2D.dir

/-- While `&start` is in the heap it is the only entry and the slot of the start
cell is still the copy of the `start` object made at line 429. -/
def StartInv (width : Int) (a : Int × Int) (s : Search2D K) : Prop :=
  Ptr.start ∈ s.O → s.O = [Ptr.start] ∧ s.nodes2D (cellIndex width a) = s.start

/-- Total cost of a sequence of moves as `aStar` accumulates it in `g`. -/
def pathCostE (E : Env K) : List Nat → K
  | [] => 0
  | i :: path => stepCost E i + pathCostE E path

/-- Value that `Node2D::updateH(goal)` stores in a node of cell `c`: the
straight-line distance from `c` to the goal cell. -/
def heuristic (E : Env K) (goal : Node2D K) (c : Int × Int) : K :=
  E.sqrt ((((c.1 - goal.x) * (c.1 - goal.x) + (c.2 - goal.y) * (c.2 - goal.y) : Int)) : K)

/-- The move costs are not negative and the straight-line heuristic is
consistent with them. -/
def Consistent (E : Env K) (goal : Node2D K) : Prop :=
  (∀ i, 0 ≤ stepCost E i) ∧
  ∀ (c : Int × Int) (i : Nat), heuristic E goal c ≤ stepCost E i + heuristic E goal (moveCell c i)

/-- Cost bookkeeping of the memory of `aStar` relative to the start cell `a`:
a slot that is open or closed holds the heuristic of its cell and the cost of
some admissible path from `a` to its cell; the cost-so-far of a closed slot is
not above the cost of any admissible path to its cell; the slot of the start
cell is closed once `&start` has left the heap. -/
structure CostInv (E : Env K) (width height : Int) (goal : Node2D K) (a : Int × Int)
    (s : Search2D K) : Prop where
  startH : s.start.h = heuristic E goal a
  hval : ∀ k : Int, 0 ≤ k → k < width * height →
    ((s.nodes2D k).o = true ∨ (s.nodes2D k).c = true) →
    (s.nodes2D k).h = heuristic E goal (s.nodes2D k).cell
  gpath : ∀ k : Int, 0 ≤ k → k < width * height →
    ((s.nodes2D k).o = true ∨ (s.nodes2D k).c = true) →
    ∃ path, walk E width height a path = some (s.nodes2D k).cell
      ∧ (s.nodes2D k).g = s.start.g + pathCostE E path
  opt : ∀ k : Int, 0 ≤ k → k < width * height → (s.nodes2D k).c = true →
    ∀ path, walk E width height a path = some (s.nodes2D k).cell →
      (s.nodes2D k).g ≤ s.start.g + pathCostE E path
  startClosed : Ptr.start ∉ s.O → (s.nodes2D (cellIndex width a)).c = true

/-! ## Poses the 3D search can generate -/

/-- A node with pose `q`, used to apply the grid and index methods to a pose. -/
def Node3D.atPose (q : K × K × K) : Node3D K :=
  Node3D.successor Node3D.blank Ptr.null q 0

/-- The pointer `hybridAStar` returns when it returns a popped node. -/
def Return3D.popped : Return3D K → Option Ptr
  | Return3D.node p => some p
  | _ => none

/-- A 2D node at cell `(x, y)` as a caller constructs it. -/
def cellNode (x y : Int) : Node2D K :=
  { x := x, y := y, g := 0, h := 0, idx := -1, o := false, c := false, d := false,
    pred := Ptr.null }

/-- The corridor of 4 cells whose cell `(2, 0)` is blocked, over the rationals,
with an iteration budget of 1 and the 2D heuristic enabled. -/
def walledEnv : Env ℚ := corridor ratSqrt (fun x _ => decide (x ≠ 2)) 1 true 1

/-- A 2D grid all of whose slots are marked discovered. -/
def discovered2D : Int → Node2D K := fun _ =>
  { x := 0, y := 0, g := 0, h := 0, idx := -1, o := false, c := false, d := true,
    pred := Ptr.null }

/-- The walled corridor with primitives of half a cell. -/
def halfEnv : Env ℚ := corridor ratSqrt (fun x _ => decide (x ≠ 2)) 1 true (1 / 2)

/-- Memory of the 3D search with half-cell primitives after its first pass has
closed the slot of the start cell and popped the start node, ready to generate
the successors of the start node. -/
def closedState : Search3D ℚ :=
  hybridClose halfEnv 4 1
    ((hybridInit halfEnv 40 (poseNode 0) (poseNode 3) fresh3D fresh2D 4 1).getD
      { start := poseNode 0, nodes3D := fresh3D, nodes2D := fresh2D, O := [],
        iterations := 0 })

/-- Memory after the forward primitive has been tried from `closedState`. -/
def reopenedState : Search3D ℚ :=
  (hybridSucc halfEnv 40 4 1 (poseNode 3) Ptr.start 0 0 closedState 0).getD closedState

/-- Memory of the 3D search in the walled corridor at the head of the loop, with
the start node at cell 0 in the heap and the loop counter at the budget 1. -/
def budgetState : Search3D ℚ :=
  { start := ((poseNode 0).markOpen).setIdx walledEnv 4 1,
    nodes3D := Function.update fresh3D 0 (((poseNode 0).markOpen).setIdx walledEnv 4 1),
    nodes2D := fresh2D, O := [Ptr.start], iterations := 1 }

/-! ## Samples of a shot -/

/-- The value of the float `x` at the head of pass `k` of the sampling loop:
`0.f` (line 664) increased `k` times by `Constants::dubinsStepSize` (line 695). -/
def arcLength (E : Env K) (ops : FloatOps K) : Nat → K
  | 0 => 0
  | k + 1 => ops.add (arcLength E ops k) E.dubinsStepSize

/-- The pose `dubinsShot` stores in `dubinsNodes[k]` (lines 672-675): the curve
from `q0` to `q1` sampled at the arc length `x` of pass `k`, heading normalised. -/
def shotSample (E : Env K) (ops : FloatOps K) (q0 q1 : K × K × K) (k : Nat) : K × K × K :=
  ((E.dubins_path_sample q0 q1 (arcLength E ops k)).1,
   (E.dubins_path_sample q0 q1 (arcLength E ops k)).2.1,
   E.normalizeHeadingRad (E.dubins_path_sample q0 q1 (arcLength E ops k)).2.2)

/-- The test `x < length` of line 669 holds at the head of the passes `0 .. k`:
the arc lengths up to that of sample `k` lie strictly below the curve length. -/
def Sampled (E : Env K) (ops : FloatOps K) (q0 q1 : K × K × K) (k : Nat) : Prop :=
  ∀ j, j ≤ k → arcLength E ops j < E.dubins_path_length q0 q1

/-- Sample `k` is taken and the traversability oracle rejects it. -/
def Rejected (E : Env K) (ops : FloatOps K) (q0 q1 : K × K × K) (k : Nat) : Prop :=
  Sampled E ops q0 q1 k ∧
  E.isTraversable3D (shotSample E ops q0 q1 k).1 (shotSample E ops q0 q1 k).2.1
    (shotSample E ops q0 q1 k).2.2 = false

/-- The test `x < length` of line 669 fails for the first time at the head of
pass `n`: the samples taken are those of the passes `0 .. n - 1`. -/
def Ends (E : Env K) (ops : FloatOps K) (q0 q1 : K × K × K) (n : Nat) : Prop :=
  (∀ j, j < n → arcLength E ops j < E.dubins_path_length q0 q1)
  ∧ ¬ arcLength E ops n < E.dubins_path_length q0 q1

/-- The address reached from `p` by following `n` predecessor links through the
elements of a shot sequence; an address outside the sequence is kept. -/
def Shot.follow (sh : Shot K) : Nat → Ptr → Ptr
  | 0, p => p
  | n + 1, p =>
    match p with
    | Ptr.shot k => Shot.follow sh n (sh.nodes k).pred
    | _ => p

/-- The element `dubinsNodes[k]` after the pass of the sampling loop that
accepts sample `k` (lines 673-688), from its previous content `n`. -/
def shotNode (E : Env K) (ops : FloatOps K) (startPtr : Ptr) (q0 q1 : K × K × K) (k : Nat)
    (n : Node3D K) : Node3D K :=
  ({ n with x := (shotSample E ops q0 q1 k).1, y := (shotSample E ops q0 q1 k).2.1,
            t := (shotSample E ops q0 q1 k).2.2 } : Node3D K).setPred
    (if 0 < (k : Int) then Ptr.shot ((k : Int) - 1) else startPtr)

/-- The number `ceil (length / step)` of multiples `0, s, 2 s, ...` of the step
`s = Constants::dubinsStepSize` strictly below the curve length. -/
def shotCount (E : Env K) (q0 q1 : K × K × K) : Nat :=
  ⌈E.dubins_path_length q0 q1 / E.dubinsStepSize⌉₊

/-- The walled corridor with the analytic shot enabled: the curve between two
poses is the straight segment along the corridor, sampled every half cell. -/
def shotEnv : Env ℚ :=
  { walledEnv with
    dubinsShot := true, dubinsStepSize := 1 / 2,
    dubins_path_length := fun a b => if a.1 ≤ b.1 then b.1 - a.1 else a.1 - b.1,
    dubins_path_sample := fun a b x => (if a.1 ≤ b.1 then a.1 + x else a.1 - x, a.2.1, a.2.2),
    shotRange := fun _ _ _ => true }

/-! ## Single-precision arithmetic

The type `float` of the source is IEEE binary32: a sum or a quotient is the
exact result rounded to the nearest number with a significand of 24 bits, ties
to the even significand.  The definitions below give that rounding on the
rationals, for results below the overflow threshold `2 ^ 128`. -/

/-- The power `2 ^ e` for an integer exponent. -/
def pow2 (e : Int) : ℚ := if 0 ≤ e then 2 ^ e.toNat else 1 / 2 ^ (-e).toNat

/-- The position of the leading bit of `n`, within `fuel` halvings. -/
def leadingBit : Nat → Nat → Nat
  | 0, _ => 0
  | fuel + 1, n => if 2 ≤ n then leadingBit fuel (n / 2) + 1 else 0

/-- The exponent `e` with `2 ^ e ≤ a < 2 ^ (e + 1)`, for a positive `a`. -/
def binade (a : ℚ) : Int :=
  if pow2 ((leadingBit a.num.toNat a.num.toNat : Int) - (leadingBit a.den a.den : Int)) ≤ a
  then (leadingBit a.num.toNat a.num.toNat : Int) - (leadingBit a.den a.den : Int)
  else (leadingBit a.num.toNat a.num.toNat : Int) - (leadingBit a.den a.den : Int) - 1

/-- The integer nearest to `m`, the even one of the two when `m` lies half way. -/
def roundEven (m : ℚ) : Int :=
  if m - (⌊m⌋ : ℚ) < 1 / 2 then ⌊m⌋
  else if 1 / 2 < m - (⌊m⌋ : ℚ) then ⌊m⌋ + 1
  else if ⌊m⌋ % 2 = 0 then ⌊m⌋ else ⌊m⌋ + 1

/-- The binary32 number nearest to a positive `a`: the spacing of the numbers
around `a` is `2 ^ (e - 23)` with `e` the exponent of `a`, and `2 ^ (-149)`
below the least normal number `2 ^ (-126)`. -/
def fl32Pos (a : ℚ) : ℚ :=
  (roundEven (a / pow2 (max (binade a) (-126) - 23)) : ℚ) * pow2 (max (binade a) (-126) - 23)

/-- Rounding to binary32: the value a `float` holds after the exact result `q`
is stored in it. -/
def fl32 (q : ℚ) : ℚ :=
  if q = 0 then 0 else if 0 < q then fl32Pos q else - fl32Pos (-q)

/-- The operations of `dubinsShot` on the type `float`. -/
def float32Ops : FloatOps ℚ :=
  { add := fun a b => fl32 (a + b), div := fun a b => fl32 (a / b) }

/-- The `float` nearest to `0.7`, of bit pattern `0x3f333333`. -/
def step07 : ℚ := 11744051 / 16777216

/-- A `float` just below 7, of bit pattern `0x40dfffff` (`6.99999952`). -/
def length7 : ℚ := 14680063 / 2097152

/-- The straight-segment shot of `shotEnv` in the walled corridor with the
sampling step `0.7f`. -/
def floatWallEnv : Env ℚ := { shotEnv with dubinsStepSize := step07 }

/-- The straight-segment shot with the sampling step `0.7f` and every pose
traversable. -/
def floatEnv : Env ℚ := { floatWallEnv with isTraversable3D := fun _ _ _ => true }

/-- The `float` nearest to `0.1`, of bit pattern `0x3dcccccd`. -/
def step01 : ℚ := 13421773 / 134217728

/-- The `float` nearest to `0.30000001`, of bit pattern `0x3e99999a`. -/
def length03 : ℚ := 5033165 / 16777216

/-- The straight-segment shot with the sampling step `0.1f` and every pose
traversable. -/
def floatEnv01 : Env ℚ := { floatEnv with dubinsStepSize := step01 }

/-! ## Configuration block -/

/-- The values the configuration block reads from `param.yaml` (lines 79-99),
under the keys of the file. -/
structure Param (K : Type) where
  dist_succ_size : Int
  dist_forward_size : Int
  pre_succ_size : Int
  pre_forward_size : Int
  delta_x : List K
  delta_y : List K
  delta_t_rad : List K
  step_size : List K
  delta_t_edg : List K
  distance : List K
  value : List K
  coef : List K
  change_step : Bool
  use_new_mode : Bool
  use_dist_mode : Bool
  max_front_wheel_angle : K

/-- The static members of `Node3D` that the configuration block assigns. -/
structure Statics (K : Type) where
  dist_succ_size_ : Int
  dist_forward_size_ : Int
  pre_succ_size_ : Int
  pre_forward_size_ : Int
  succ_size_ : Int
  forward_size_ : Int
  delta_x_ : List K
  delta_y_ : List K
  delta_t_ : List K
  step_size_ : List K
  delta_t_edg_ : List K
  distance_ : List K
  value_ : List K
  coef_ : List K
  change_step_ : Bool
  use_new_mode_ : Bool
  use_dist_mode_ : Bool
  max_front_wheel_angle_ : K

/-- The vectors indexed by the loop of lines 112-127. -/
inductive Table where
  | step_size_ : Table
  | delta_t_edg_ : Table
  | delta_t_ : Table
  | delta_x_ : Table
  | delta_y_ : Table
deriving DecidableEq, Repr

/-- The vector of the static members that a table name designates. -/
def Statics.table (st : Statics K) : Table → List K
  | Table.step_size_ => st.step_size_
  | Table.delta_t_edg_ => st.delta_t_edg_
  | Table.delta_t_ => st.delta_t_
  | Table.delta_x_ => st.delta_x_
  | Table.delta_y_ => st.delta_y_

/-- The static members after lines 81-110: the values of the file, and the
primitive counts selected by `use_dist_mode`. -/
def readParam (p : Param K) : Statics K :=
  { dist_succ_size_ := p.dist_succ_size, dist_forward_size_ := p.dist_forward_size,
    pre_succ_size_ := p.pre_succ_size, pre_forward_size_ := p.pre_forward_size,
    succ_size_ := if p.use_dist_mode then p.dist_succ_size else p.pre_succ_size,
    forward_size_ := if p.use_dist_mode then p.dist_forward_size else p.pre_forward_size,
    delta_x_ := p.delta_x, delta_y_ := p.delta_y, delta_t_ := p.delta_t_rad,
    step_size_ := p.step_size, delta_t_edg_ := p.delta_t_edg,
    distance_ := p.distance, value_ := p.value, coef_ := p.coef,
    change_step_ := p.change_step, use_new_mode_ := p.use_new_mode,
    use_dist_mode_ := p.use_dist_mode, max_front_wheel_angle_ := p.max_front_wheel_angle }

/-- One pass of the loop of lines 112-127, for the index `i`.  `cos`, `sin` and
`pi` stand for `cos`, `sin` and `M_PI` of cmath.  An access `table[i]` with `i`
not below the size of the vector ends the pass with `Except.error (table, i)`;
in an assignment the right-hand side is evaluated first. -/
def deriveTables (cos sin : K → K) (pi : K) (st : Statics K) (i : Nat) :
    Except (Table × Nat) (Statics K) :=
  if i < st.step_size_.length then
    let step := st.step_size_.getD i 0 * (1178097 / 10000000)
    let st := { st with step_size_ := st.step_size_.set i step }
    if i < st.delta_t_edg_.length then
      if i < st.delta_t_.length then
        let t := if (i : Int) < st.pre_forward_size_ then st.delta_t_edg_.getD i 0 * pi / 180
                 else st.delta_t_edg_.getD i 0 / 180 * pi
        let st := { st with delta_t_ := st.delta_t_.set i t }
        if i < st.delta_x_.length then
          let x := if (i : Int) < st.pre_forward_size_ then step * |cos t|
                   else step * |cos t| * (-1)
          let st := { st with delta_x_ := st.delta_x_.set i x }
          if i < st.delta_y_.length then
            let y := if (i : Int) < st.pre_forward_size_ then (-1) * step * sin t
                     else step * sin t
            Except.ok { st with delta_y_ := st.delta_y_.set i y }
          else Except.error (Table.delta_y_, i)
        else Except.error (Table.delta_x_, i)
      else Except.error (Table.delta_t_, i)
    else Except.error (Table.delta_t_edg_, i)
  else Except.error (Table.step_size_, i)

/-- The configuration block of `hybridAStar` (lines 78-128) on the values `p` of
the file: the static members it leaves, or the first access past the end of a
vector. -/
def loadConfig (cos sin : K → K) (pi : K) (p : Param K) : Except (Table × Nat) (Statics K) :=
  (List.range p.pre_succ_size.toNat).foldlM (deriveTables cos sin pi) (readParam p)

/-- A configuration that declares two primitives and lists one step size. -/
def shortParam : Param ℚ :=
  { dist_succ_size := 2, dist_forward_size := 1, pre_succ_size := 2, pre_forward_size := 1,
    delta_x := [0, 0], delta_y := [0, 0], delta_t_rad := [0, 0],
    step_size := [6], delta_t_edg := [0, 0],
    distance := [], value := [], coef := [],
    change_step := false, use_new_mode := true, use_dist_mode := false,
    max_front_wheel_angle := 0 }

/-- A configuration that declares two primitives and lists two entries in every
table. -/
def fullParam : Param ℚ := { shortParam with step_size := [6, 6] }

/-- The access past the end of a vector in which the configuration block ends,
if it ends in one. -/
def faultOf (r : Except (Table × Nat) (Statics K)) : Option (Table × Nat) :=
  match r with
  | Except.error e => some e
  | Except.ok _ => none

/-! ## Paths of motion primitives -/

/-- The pose reached from `q` by a sequence of motion primitives, each of which
passes the on-grid and traversability test of line 332, with the step size
selected at the pose it starts from; `none` when one of them does not. -/
def drive (E : Env K) (width height : Int) : K × K × K → List Nat → Option (K × K × K)
  | q, [] => some q
  | q, i :: path =>
    if i < E.succ_size_.toNat
        ∧ (Node3D.atPose (succPose E q i (stepSize E q))).isOnGrid E width height = true
        ∧ E.isTraversable3D (succPose E q i (stepSize E q)).1
            (succPose E q i (stepSize E q)).2.1 (succPose E q i (stepSize E q)).2.2 = true then
      drive E width height (succPose E q i (stepSize E q)) path
    else none

/-- Cost-so-far that `hybridAStar` accumulates along a sequence of primitives:
`Node3D::dx[0]` for each of them (line 338). -/
def driveCost (E : Env K) (path : List Nat) : K := (path.length : K) * E.dx0

/-- The walled corridor with primitives two cells long, of cost 2, and an
iteration budget of 10. -/
def jumpEnv : Env ℚ := corridor ratSqrt (fun x _ => decide (x ≠ 2)) 10 true 2

/-! ## Memories with a stale heap entry -/

/-- The walled corridor with two forward primitives of half a cell and three
quarters of a cell, a tolerance that accepts every same-cell successor, an
iteration budget of 10 and a heap that returns its oldest entry. -/
def staleEnv : Env ℚ :=
  { halfEnv with
    tieBreaker := 100, iterations := 10, top3D := fun _ => 0,
    createSuccessor := fun q i =>
      if i = 0 then (q.1 + 1 / 2, q.2.1, q.2.2) else (q.1 + 3 / 4, q.2.1, q.2.2) }

/-- Memory of the 3D search in `staleEnv` from cell 0 after two passes: slot 0
was pushed twice by the two same-cell successors of the start node and closed
by the second pass, and its second entry is at the top of the heap. -/
def staleState3D : Search3D ℚ :=
  (((hybridInit staleEnv 40 (poseNode 0) (poseNode 3) fresh3D fresh2D 4 1).bind
      (hybridRun staleEnv 40 4 1 (poseNode 3) 2)).getD
    { start := poseNode 0, nodes3D := fresh3D, nodes2D := fresh2D, O := [], iterations := 0 })

/-- An open 3 x 2 grid with diagonal moves of cost 3/2 and a heap that returns
its oldest entry. -/
def fifoEnv : Env ℚ :=
  { corridor (fun v => if v = 1 then 1 else 3 / 2) (fun _ _ => true) 10 true 1 with
    top2D := fun _ => 0 }

/-- Memory of the 2D search in `fifoEnv` from cell (0,0) after six passes: the
slot of cell (2,0) was pushed with cost 3 through the diagonal and again with
cost 2 along the row, the sixth pass closed it, and its second entry is at the
top of the heap. -/
def staleState2D : Search2D ℚ :=
  (aStarRun fifoEnv 3 2 (cellNode 7 7) 6
      (aStarInit fifoEnv (cellNode 0 0) (cellNode 7 7) fresh2D 3 2)).getD
    { start := cellNode 0 0, nodes2D := fresh2D, O := [] }

/-- The memory `s` with the content of slot `k` of the 3D grid replaced by `v`. -/
def Search3D.withSlot (s : Search3D K) (k : Int) (v : Node3D K) : Search3D K :=
  { s with nodes3D := Function.update s.nodes3D k v }

/-! ## Clearance table -/

/-- Local `index` of lines 293-301 when control reaches line 302, for the pose
`q` of `nPred`: the first index whose threshold the clearance meets, or
`distance_.size()` when the clearance is below every threshold. -/
def distIndex (E : Env K) (q : K × K × K) : Nat :=
  E.distance_.findIdx (fun a => decide (a ≤ E.getDistance q.1 q.2.1))

/-- The walled corridor in distance-adaptive mode: the clearance of a pose is
its `x` coordinate, the thresholds are 3 and 1 with step sizes 2 and 1, and the
primitives move one step size forward or back. -/
def distEnv : Env ℚ :=
  { walledEnv with
    iterations := 10, use_dist_mode_ := true, getDistance := fun x _ => x,
    distance_ := [3, 1], value_ := [2, 1],
    dist_createSuccessor := fun q i step =>
      if i = 0 then (q.1 + step, q.2.1, q.2.2) else (q.1 - step, q.2.1, q.2.2) }

/-- Memory of the 3D search in `distEnv` at the head of its loop, started at the
pose `(x, 0, 0)` for the goal at cell 3. -/
def distState (x : ℚ) : Search3D ℚ :=
  (hybridInit distEnv 40 (poseNode x) (poseNode 3) fresh3D fresh2D 4 1).getD
    { start := poseNode x, nodes3D := fresh3D, nodes2D := fresh2D, O := [], iterations := 0 }

/-! ## Memories of the distance-adaptive search -/

/-- Memory of the 3D search in `distEnv` from the pose `(3, 0, 0)`, of clearance
3, for the goal at cell 0, after the first pass has closed the slot of the start
cell and popped the start node. -/
def farState : Search3D ℚ :=
  hybridClose distEnv 4 1
    ((hybridInit distEnv 40 (poseNode 3) (poseNode 0) fresh3D fresh2D 4 1).getD
      { start := poseNode 3, nodes3D := fresh3D, nodes2D := fresh2D, O := [],
        iterations := 0 })

/-! ## Values of the derived tables -/

/-- The value that line 114 leaves in `step_size_[i]`: the loaded step size
scaled by `0.1178097`. -/
def stepAt (st : Statics K) (i : Nat) : K :=
  st.step_size_.getD i 0 * (1178097 / 10000000)

/-- The value that line 117 (forward primitives) or line 123 (the others) stores
in `delta_t_[i]`. -/
def angleAt (pi : K) (st : Statics K) (i : Nat) : K :=
  if (i : Int) < st.pre_forward_size_ then st.delta_t_edg_.getD i 0 * pi / 180
  else st.delta_t_edg_.getD i 0 / 180 * pi

/-- The value that line 118 or line 124 stores in `delta_x_[i]`. -/
def deltaXAt (cos : K → K) (pi : K) (st : Statics K) (i : Nat) : K :=
  if (i : Int) < st.pre_forward_size_ then stepAt st i * |cos (angleAt pi st i)|
  else stepAt st i * |cos (angleAt pi st i)| * (-1)

/-- The value that line 119 or line 125 stores in `delta_y_[i]`. -/
def deltaYAt (sin : K → K) (pi : K) (st : Statics K) (i : Nat) : K :=
  if (i : Int) < st.pre_forward_size_ then (-1) * stepAt st i * sin (angleAt pi st i)
  else stepAt st i * sin (angleAt pi st i)

/-- A configuration with one forward primitive and one reverse primitive, whose
heading table lists 0 and 90 degrees. -/
def mirrorParam : Param K :=
  { dist_succ_size := 2, dist_forward_size := 1, pre_succ_size := 2, pre_forward_size := 1,
    delta_x := [0, 0], delta_y := [0, 0], delta_t_rad := [0, 0],
    step_size := [6, 6], delta_t_edg := [0, 90],
    distance := [], value := [], coef := [],
    change_step := false, use_new_mode := true, use_dist_mode := false,
    max_front_wheel_angle := 0 }

/-- State of the static members after the first `k` passes of the loop of lines
112-127 on the loaded values `st0`: the entries below `k` of the four derived
tables hold the derived values, the other entries and the other members are as
loaded. -/
def TablesUpTo (cos sin : K → K) (pi : K) (st0 st : Statics K) (k : Nat) : Prop :=
  st.pre_forward_size_ = st0.pre_forward_size_ ∧ st.delta_t_edg_ = st0.delta_t_edg_ ∧
  (∀ t, (st.table t).length = (st0.table t).length) ∧
  ∀ i : Nat,
    st.step_size_.getD i 0 = (if i < k then stepAt st0 i else st0.step_size_.getD i 0)
    ∧ st.delta_t_.getD i 0 = (if i < k then angleAt pi st0 i else st0.delta_t_.getD i 0)
    ∧ st.delta_x_.getD i 0 = (if i < k then deltaXAt cos pi st0 i else st0.delta_x_.getD i 0)
    ∧ st.delta_y_.getD i 0 = (if i < k then deltaYAt sin pi st0 i else st0.delta_y_.getD i 0)

/-! ## A memory whose expanded node is referenced through its slot -/

/-- The walled corridor with primitives of a quarter of a cell, an iteration
budget of 10 and a tolerance that accepts every same-cell successor. -/
def quarterEnv : Env ℚ :=
  { corridor ratSqrt (fun x _ => decide (x ≠ 2)) 10 true (1 / 4) with tieBreaker := 100 }

/-- Memory of the 3D search in `quarterEnv` from the pose `(1/4, 0, 0)` during
its second pass, after `close()` and `pop()`: the node being expanded is the
content of slot 0, at pose `(0, 0, 0)`, referenced by the pointer `&nodes3D[0]`
that the first pass pushed. -/
def slotState : Search3D ℚ :=
  hybridClose quarterEnv 4 1
    (((hybridInit quarterEnv 40 (poseNode (1 / 4)) (poseNode 3) fresh3D fresh2D 4 1).bind
        (hybridRun quarterEnv 40 4 1 (poseNode 3) 1)).getD
      { start := poseNode (1 / 4), nodes3D := fresh3D, nodes2D := fresh2D, O := [],
        iterations := 0 })

/-! # Properties -/

theorem updateH_pose {E : Env K} {fuel : Nat} {start goal : Node3D K} {nodes2D : Int → Node2D K}
    {width height : Int} {q : Node3D K} {nodes : Int → Node2D K}
    (h : updateH E fuel start goal nodes2D width height = some (q, nodes)) :
    q = start.setH q.h := by
  unfold updateH at h
  split at h
  · simp at h
  · simp only [Option.some.injEq, Prod.mk.injEq] at h
    rw [← h.1]
    rfl

theorem hybridSucc_spec {E : Env K} {gas : Nat} {width height : Int} {goal : Node3D K}
    {p : Ptr} {iPred : Int} {step : K} {s s' : Search3D K} {i : Nat}
    (h : hybridSucc E gas width height goal p iPred step s i = some s') :
    (s'.start = s.start ∧ s'.iterations = s.iterations) ∧
    ((s'.nodes3D = s.nodes3D ∧ s'.O = s.O) ∨
     (∃ n : Node3D K,
        s'.nodes3D = Function.update s.nodes3D (candidate E width height p step s i).idx n ∧
        s'.O = s.O ++ [Ptr.slot (candidate E width height p step s i).idx] ∧
        n.o = true ∧ n.c = false ∧
        ((s.nodes3D (candidate E width height p step s i).idx).c = false
          ∨ iPred = (candidate E width height p step s i).idx) ∧
        (candidate E width height p step s i).isOnGrid E width height = true ∧
        n.x = (candidate E width height p step s i).x ∧
        n.y = (candidate E width height p step s i).y ∧
        n.t = (candidate E width height p step s i).t ∧
        n.idx = (candidate E width height p step s i).idx ∧
        E.isTraversable3D n.x n.y n.t = true ∧
        n.pred = (if iPred = (candidate E width height p step s i).idx
                  then (s.deref p).pred else p))) := by
  unfold hybridSucc at h
  simp only at h
  split at h
  · rename_i h1
    split at h
    · rename_i h2
      split at h
      · rename_i h3
        split at h
        · exact absurd h (by simp)
        · rename_i q nodes hq
          have hq' := updateH_pose hq
          split at h
          · simp only [Option.some.injEq] at h
            subst h
            exact ⟨⟨rfl, rfl⟩, Or.inl ⟨rfl, rfl⟩⟩
          · rename_i h4
            simp only [Option.some.injEq] at h
            subst h
            refine ⟨⟨rfl, rfl⟩, Or.inr ⟨_, rfl, rfl, rfl, rfl, ?_, ?_, ?_, ?_, ?_, ?_, ?_, ?_⟩⟩
            · simpa using h2
            · simp only [Bool.and_eq_true] at h1
              exact h1.1
            · rw [hq']; split <;> rfl
            · rw [hq']; split <;> rfl
            · rw [hq']; split <;> rfl
            · rw [hq']; split <;> rfl
            · simp only [Bool.and_eq_true] at h1
              have := h1.2
              rw [hq']
              split <;> exact this
            · have hqp : q.pred = p := by rw [hq']; rfl
              by_cases hi : iPred = (candidate E width height p step s i).idx
              · simp only [hi, decide_True, Bool.true_and, decide_eq_true_eq, gt_iff_lt,
                  not_lt] at h4
                rw [if_pos hi, if_pos (by simp [hi, h4])]
                cases p <;> rfl
              · rw [if_neg hi, if_neg (by simp [hi])]
                exact hqp
      · simp only [Option.some.injEq] at h
        subst h
        exact ⟨⟨rfl, rfl⟩, Or.inl ⟨rfl, rfl⟩⟩
    · simp only [Option.some.injEq] at h
      subst h
      exact ⟨⟨rfl, rfl⟩, Or.inl ⟨rfl, rfl⟩⟩
  · simp only [Option.some.injEq] at h
    subst h
    exact ⟨⟨rfl, rfl⟩, Or.inl ⟨rfl, rfl⟩⟩

theorem foldlM_option_invariant {σ α : Type} (f : σ → α → Option σ) (P : σ → Prop)
    (hstep : ∀ s a s', P s → f s a = some s' → P s') :
    ∀ (l : List α) (s s' : σ), P s → l.foldlM f s = some s' → P s' := by
  intro l
  induction l with
  | nil =>
    intro s s' hs h
    simp only [List.foldlM_nil] at h
    cases h
    exact hs
  | cons a l ih =>
    intro s s' hs h
    simp only [List.foldlM_cons] at h
    cases hfa : f s a with
    | none => rw [hfa] at h; simp at h
    | some s1 =>
      rw [hfa] at h
      exact ih s1 s' (hstep s a s1 hs hfa) h

theorem hybridExpand_invariant {E : Env K} {gas : Nat} {width height : Int} {goal : Node3D K}
    {p : Ptr} {iPred : Int} {step : K} (P : Search3D K → Prop)
    (hstep : ∀ s i s', P s → hybridSucc E gas width height goal p iPred step s i = some s' → P s')
    {n : Nat} {s s' : Search3D K} (hs : P s)
    (h : hybridExpand E gas width height goal p iPred step n s = some s') : P s' :=
  foldlM_option_invariant _ P hstep _ s s' hs h

theorem hybridSucc_closed_slot {E : Env K} {gas : Nat} {width height : Int} {goal : Node3D K}
    {p : Ptr} {iPred : Int} {step : K} {s s' : Search3D K} {i : Nat}
    (h : hybridSucc E gas width height goal p iPred step s i = some s') (k : Int)
    (hc : (s.nodes3D k).c = true) (hne : s'.nodes3D k ≠ s.nodes3D k) :
    iPred = k ∧ (candidate E width height p step s i).idx = k ∧
      (s'.nodes3D k).o = true ∧ (s'.nodes3D k).c = false := by
  obtain ⟨-, h2⟩ := hybridSucc_spec h
  rcases h2 with ⟨h3, -⟩ | ⟨n, h3, -, ho, hcl, hguard, -⟩
  · exact absurd (by rw [h3]) hne
  · by_cases hk : k = (candidate E width height p step s i).idx
    · subst hk
      rcases hguard with hg | hg
      · rw [hc] at hg; exact absurd hg (by simp)
      · refine ⟨hg, rfl, ?_, ?_⟩
        · rw [h3, Function.update_same]; exact ho
        · rw [h3, Function.update_same]; exact hcl
    · exact absurd (by rw [h3, Function.update_noteq hk]) hne

theorem Search3D.setIdx_flags (E : Env K) (s : Search3D K) (p : Ptr) (width height : Int)
    (k : Int) :
    ((s.setIdx E p width height).nodes3D k).c = (s.nodes3D k).c ∧
    ((s.setIdx E p width height).nodes3D k).o = (s.nodes3D k).o ∧
    ((s.setIdx E p width height).nodes3D k).pred = (s.nodes3D k).pred ∧
    ((s.setIdx E p width height).nodes3D k).g = (s.nodes3D k).g ∧
    ((s.setIdx E p width height).nodes3D k).h = (s.nodes3D k).h ∧
    ((s.setIdx E p width height).nodes3D k).pose = (s.nodes3D k).pose := by
  cases p with
  | slot j =>
    by_cases hk : k = j
    · subst hk
      simp [Search3D.setIdx, Node3D.setIdx, Node3D.pose]
    · simp [Search3D.setIdx, Function.update_noteq hk]
  | null => simp [Search3D.setIdx]
  | start => simp [Search3D.setIdx]
  | shot j => simp [Search3D.setIdx]

theorem hybridIter_closed_stays {E : Env K} {gas : Nat} {width height : Int}
    {goal : Node3D K} {s : Search3D K} {st : Step (Search3D K) (Result3D K)}
    (h : hybridIter E gas width height goal s = some st) (k : Int)
    (hc : (s.nodes3D k).c = true) :
    (st.memory.nodes3D k).c = true := by
  have hent : ((hybridEnter E width height s).nodes3D k).c = true := by
    have := (Search3D.setIdx_flags E s (s.top E) width height k).1
    simp only [hybridEnter]
    rw [this]; exact hc
  have hclose : ((hybridClose E width height s).nodes3D k).c = true := by
    simp only [hybridClose]
    by_cases hk : k = hybridIPred E width height s
    · subst hk
      rw [Function.update_same]; rfl
    · rw [Function.update_noteq hk]; exact hent
  unfold hybridIter at h
  simp only at h
  split at h
  · cases h; exact hent
  · rename_i hnc
    split at h
    · split at h
      · cases h; exact hclose
      · split at h
        · simp at h
        · cases h; exact hclose
        · simp only [Option.map_eq_some'] at h
          obtain ⟨s', hs', rfl⟩ := h
          have hkne : k ≠ hybridIPred E width height s := by
            intro hk; subst hk; exact hnc hent
          have : s'.nodes3D k = (hybridClose E width height s).nodes3D k := by
            refine hybridExpand_invariant
              (fun t => t.nodes3D k = (hybridClose E width height s).nodes3D k) ?_ rfl hs'
            intro t i t' ht hstep
            by_contra hne
            have hne' : t'.nodes3D k ≠ t.nodes3D k := by rw [ht]; exact hne
            have htc : (t.nodes3D k).c = true := by rw [ht]; exact hclose
            exact hkne (hybridSucc_closed_slot hstep k htc hne').1.symm
          show (s'.nodes3D k).c = true
          rw [this]; exact hclose
    · cases h; exact hent

theorem hybridIter_done_not_null {E : Env K} {gas : Nat} {width height : Int}
    {goal : Node3D K} {s : Search3D K} {r : Result3D K}
    (h : hybridIter E gas width height goal s = some (Step.done r)) :
    r.ret ≠ Return3D.null := by
  unfold hybridIter at h
  simp only at h
  split at h
  · simp at h
  · split at h
    · split at h
      · simp only [Option.some.injEq, Step.done.injEq] at h
        subst h; simp
      · split at h
        · simp at h
        · simp only [Option.some.injEq, Step.done.injEq] at h
          subst h; simp
        · simp only [Option.map_eq_some'] at h
          obtain ⟨s', -, hs'⟩ := h
          simp at hs'
    · simp at h

theorem hybridLoop_null_iff (E : Env K) (gas : Nat) (width height : Int) (goal : Node3D K) :
    ∀ (fuel : Nat) (s s' : Search3D K),
      (∃ r, hybridLoop E gas width height goal fuel s = some r ∧ r.ret = Return3D.null
          ∧ r.final = s') ↔
        ∃ n, n < fuel ∧ hybridRun E gas width height goal n s = some s' ∧ s'.O = [] := by
  intro fuel
  induction fuel with
  | zero =>
    intro s s'
    simp [hybridLoop]
  | succ fuel ih =>
    intro s s'
    by_cases hO : s.O.isEmpty = true
    · have hO' : s.O = [] := List.isEmpty_iff.mp hO
      constructor
      · rintro ⟨r, hr, -, hf⟩
        simp only [hybridLoop, hO, if_true, Option.some.injEq] at hr
        subst hr
        simp only at hf
        subst hf
        exact ⟨0, Nat.succ_pos _, rfl, hO'⟩
      · rintro ⟨n, -, hn, hs'⟩
        cases n with
        | zero =>
          simp only [hybridRun, Option.some.injEq] at hn
          subst hn
          refine ⟨{ ret := Return3D.null, final := s }, ?_, rfl, rfl⟩
          simp only [hybridLoop, hO, if_true]
        | succ n => simp [hybridRun, hO] at hn
    · constructor
      · rintro ⟨r, hr, hnull, hf⟩
        simp only [hybridLoop, hO, Bool.false_eq_true, if_false] at hr
        cases hit : hybridIter E gas width height goal s with
        | none => rw [hit] at hr; simp at hr
        | some st =>
          rw [hit] at hr
          cases st with
          | next s1 =>
            simp only at hr
            obtain ⟨n, hn, hrun, hs'⟩ := (ih s1 s').mp ⟨r, hr, hnull, hf⟩
            refine ⟨n + 1, Nat.succ_lt_succ hn, ?_, hs'⟩
            simp only [hybridRun, hO, Bool.false_eq_true, if_false, hit]
            exact hrun
          | done r1 =>
            simp only [Option.some.injEq] at hr
            subst hr
            exact absurd hnull (hybridIter_done_not_null hit)
      · rintro ⟨n, hn, hrun, hs'⟩
        cases n with
        | zero =>
          simp only [hybridRun, Option.some.injEq] at hrun
          subst hrun
          rw [hs'] at hO
          simp at hO
        | succ n =>
          simp only [hybridRun, hO, Bool.false_eq_true, if_false] at hrun
          cases hit : hybridIter E gas width height goal s with
          | none => rw [hit] at hrun; simp at hrun
          | some st =>
            rw [hit] at hrun
            cases st with
            | next s1 =>
              simp only at hrun
              obtain ⟨r, hr, hnull, hf⟩ :=
                (ih s1 s').mpr ⟨n, Nat.lt_of_succ_lt_succ hn, hrun, hs'⟩
              refine ⟨r, ?_, hnull, hf⟩
              simp only [hybridLoop, hO, Bool.false_eq_true, if_false, hit]
              exact hr
            | done r1 => simp at hrun

/-- C6: `hybridAStar` returns `nullptr`, leaving memory `s'`, exactly when the
loop test finds the heap empty in `s'` after some number of passes none of
which returned; and no pass of the loop body (which runs only on a non-empty
heap) returns `nullptr`: its two `return` statements return the popped node
and the non-null shot result. -/
theorem hybridAStar_null_iff_heap_empty (E : Env K) (fuel : Nat) (start goal : Node3D K)
    (nodes3D : Int → Node3D K) (nodes2D : Int → Node2D K) (width height : Int)
    (s' : Search3D K) :
    ((∃ r, hybridAStar E fuel start goal nodes3D nodes2D width height = some r
          ∧ r.ret = Return3D.null ∧ r.final = s') ↔
      ∃ s0 n, hybridInit E fuel start goal nodes3D nodes2D width height = some s0
          ∧ n < fuel ∧ hybridRun E fuel width height goal n s0 = some s' ∧ s'.O = [])
    ∧ (∀ (s : Search3D K) (r : Result3D K),
        hybridIter E fuel width height goal s = some (Step.done r) →
          r.ret ≠ Return3D.null) := by
  refine ⟨?_, fun s r h => hybridIter_done_not_null h⟩
  unfold hybridAStar
  cases hinit : hybridInit E fuel start goal nodes3D nodes2D width height with
  | none => simp
  | some s0 =>
    simp only [Option.some.injEq, exists_and_left, exists_eq_left']
    rw [hybridLoop_null_iff]

theorem hybridClose_deref_idx (E : Env K) (width height : Int) (s : Search3D K) :
    ((hybridClose E width height s).deref (s.top E)).idx = hybridIPred E width height s := by
  simp only [hybridClose, hybridIPred]
  cases hp : s.top E with
  | slot k =>
    simp only [Search3D.deref]
    by_cases hk : k = ((hybridEnter E width height s).nodes3D k).idx
    · rw [← hk, Function.update_same]; simp only [Node3D.close]; exact hk.symm
    · rw [Function.update_noteq hk]
  | null => rfl
  | start => rfl
  | shot j => rfl

theorem hybridClose_closed (E : Env K) (width height : Int) (s : Search3D K) :
    ((hybridClose E width height s).nodes3D (hybridIPred E width height s)).c = true := by
  simp only [hybridClose, Function.update_same, Node3D.close]

theorem hybridClose_iterations (E : Env K) (width height : Int) (s : Search3D K) :
    (hybridClose E width height s).iterations = s.iterations + 1 := rfl

theorem hybridIter_done_node {E : Env K} {gas : Nat} {width height : Int}
    {goal : Node3D K} {s : Search3D K} {r : Result3D K}
    (h : hybridIter E gas width height goal s = some (Step.done r)) {p : Ptr}
    (hp : r.ret = Return3D.node p) :
    (r.final.nodes3D (r.final.deref p).idx).c = true ∧
      (E.equals3D (r.final.deref p).pose goal.pose = true ∨ E.iterations < r.final.iterations) := by
  unfold hybridIter at h
  simp only at h
  split at h
  · simp at h
  · split at h
    · split at h
      · rename_i hcond
        simp only [Option.some.injEq, Step.done.injEq] at h
        subst h
        simp only [Return3D.node.injEq] at hp
        subst hp
        refine ⟨?_, ?_⟩
        · show ((hybridClose E width height s).nodes3D
            ((hybridClose E width height s).deref (s.top E)).idx).c = true
          rw [hybridClose_deref_idx]; exact hybridClose_closed E width height s
        · simpa using hcond
      · split at h
        · simp at h
        · simp only [Option.some.injEq, Step.done.injEq] at h
          subst h; simp at hp
        · simp only [Option.map_eq_some'] at h
          obtain ⟨s', -, hs'⟩ := h
          simp at hs'
    · simp at h

theorem hybridLoop_done_node {E : Env K} {gas : Nat} {width height : Int}
    {goal : Node3D K} :
    ∀ (fuel : Nat) (s : Search3D K) (r : Result3D K) (p : Ptr),
      hybridLoop E gas width height goal fuel s = some r → r.ret = Return3D.node p →
      (r.final.nodes3D (r.final.deref p).idx).c = true ∧
        (E.equals3D (r.final.deref p).pose goal.pose = true
          ∨ E.iterations < r.final.iterations) := by
  intro fuel
  induction fuel with
  | zero => intro s r p h; simp [hybridLoop] at h
  | succ fuel ih =>
    intro s r p h hp
    simp only [hybridLoop] at h
    split at h
    · simp only [Option.some.injEq] at h
      subst h; simp at hp
    · split at h
      · simp at h
      · exact ih _ _ _ h hp
      · rename_i r1 hit
        simp only [Option.some.injEq] at h
        subst h
        exact hybridIter_done_node hit hp

theorem hybridIter_iterations {E : Env K} {gas : Nat} {width height : Int}
    {goal : Node3D K} {s : Search3D K} {st : Step (Search3D K) (Result3D K)}
    (h : hybridIter E gas width height goal s = some st) :
    st.memory.iterations = s.iterations + 1 := by
  unfold hybridIter at h
  simp only at h
  split at h
  · cases h; rfl
  · split at h
    · split at h
      · cases h; rfl
      · split at h
        · simp at h
        · cases h; rfl
        · simp only [Option.map_eq_some'] at h
          obtain ⟨s', hs', rfl⟩ := h
          exact hybridExpand_invariant (fun t => t.iterations = s.iterations + 1)
            (fun t i t' ht hstep => by
              show t'.iterations = s.iterations + 1
              rw [(hybridSucc_spec hstep).1.2]; exact ht)
            (hybridClose_iterations E width height s) hs'
    · cases h; rfl

/-- C7: a popped node returned by `hybridAStar` has its canonical slot
`nodes3D[iPred]` marked closed, and it equals the goal or the counter
`iterations` exceeds `Constants::iterations`; the counter grows by one on every
pass of the loop, stale pops included; and a pass whose popped slot is open
and not closed, and whose node equals the goal or finds the budget exceeded,
returns that node with the memory left by `close()` and `pop()` alone, no
successor having been generated. -/
theorem hybridAStar_returns_closed_goal_or_budget (E : Env K) (fuel : Nat)
    (start goal : Node3D K) (nodes3D : Int → Node3D K) (nodes2D : Int → Node2D K)
    (width height : Int) :
    (∀ (r : Result3D K) (p : Ptr),
        hybridAStar E fuel start goal nodes3D nodes2D width height = some r →
        r.ret = Return3D.node p →
        (r.final.nodes3D (r.final.deref p).idx).c = true ∧
          (E.equals3D (r.final.deref p).pose goal.pose = true
            ∨ E.iterations < r.final.iterations))
    ∧ (∀ (s : Search3D K) (st : Step (Search3D K) (Result3D K)),
        hybridIter E fuel width height goal s = some st →
        st.memory.iterations = s.iterations + 1)
    ∧ (∀ s : Search3D K,
        ((hybridEnter E width height s).nodes3D (hybridIPred E width height s)).c = false →
        ((hybridEnter E width height s).nodes3D (hybridIPred E width height s)).o = true →
        (E.equals3D ((hybridClose E width height s).deref (s.top E)).pose goal.pose = true
          ∨ E.iterations < s.iterations + 1) →
        hybridIter E fuel width height goal s
          = some (Step.done { ret := Return3D.node (s.top E),
                              final := hybridClose E width height s })) := by
  refine ⟨?_, fun s st h => hybridIter_iterations h, ?_⟩
  · intro r p h hp
    unfold hybridAStar at h
    split at h
    · simp at h
    · exact hybridLoop_done_node _ _ _ _ h hp
  · intro s hc ho hcond
    unfold hybridIter
    simp only
    rw [if_neg (by rw [hc]; simp), if_pos ho, if_pos]
    rcases hcond with h1 | h1
    · rw [h1]; rfl
    · rw [hybridClose_iterations]
      simp [h1]

/-- C10: in the successor loop a slot that is closed changes only when the
candidate has the index of the node being expanded (`iPred == iSucc`), and is
then open and not closed; `setIdx`, `close()` and `pop()` leave a closed slot
closed; hence a slot closed when a pass of the loop starts is closed when the
pass ends, and no step makes a closed slot unvisited. -/
theorem closed_slot_rewritten_only_by_same_cell (E : Env K) (gas : Nat) (width height : Int)
    (goal : Node3D K) :
    (∀ (p : Ptr) (iPred : Int) (step : K) (s s' : Search3D K) (i : Nat) (k : Int),
        hybridSucc E gas width height goal p iPred step s i = some s' →
        (s.nodes3D k).c = true → s'.nodes3D k ≠ s.nodes3D k →
        iPred = k ∧ (candidate E width height p step s i).idx = k ∧
          (s'.nodes3D k).o = true ∧ (s'.nodes3D k).c = false)
    ∧ (∀ (s : Search3D K) (k : Int), (s.nodes3D k).c = true →
        ((hybridEnter E width height s).nodes3D k).c = true ∧
        ((hybridClose E width height s).nodes3D k).c = true)
    ∧ (∀ (s : Search3D K) (st : Step (Search3D K) (Result3D K)) (k : Int),
        hybridIter E gas width height goal s = some st →
        (s.nodes3D k).c = true → (st.memory.nodes3D k).c = true) := by
  refine ⟨fun p iPred step s s' i k h hc hne => hybridSucc_closed_slot h k hc hne, ?_,
    fun s st k h hc => hybridIter_closed_stays h k hc⟩
  intro s k hc
  have hent : ((hybridEnter E width height s).nodes3D k).c = true := by
    have := (Search3D.setIdx_flags E s (s.top E) width height k).1
    simp only [hybridEnter]
    rw [this]; exact hc
  refine ⟨hent, ?_⟩
  simp only [hybridClose]
  by_cases hk : k = hybridIPred E width height s
  · subst hk
    rw [Function.update_same]; rfl
  · rw [Function.update_noteq hk]; exact hent

theorem Node3D.setIdx_idx_congr (E : Env K) (width height : Int) {n m : Node3D K}
    (hx : n.x = m.x) (hy : n.y = m.y) (ht : n.t = m.t) :
    (n.setIdx E width height).idx = (m.setIdx E width height).idx := by
  simp only [Node3D.setIdx, hx, hy, ht]

theorem Search3D.top_mem_or_start (E : Env K) (s : Search3D K) :
    s.top E ∈ s.O ∨ s.top E = Ptr.start := by
  unfold Search3D.top
  by_cases h : s.topIdx E < s.O.length
  · left
    rw [List.getD_eq_getElem _ _ h]
    exact List.getElem_mem _
  · right
    rw [List.getD_eq_default _ _ (Nat.le_of_not_lt h)]

theorem hybridSucc_expandInv {E : Env K} {gas : Nat} {width height : Int} {goal : Node3D K}
    {p : Ptr} {iPred : Int} {step : K} {s s' : Search3D K} {i : Nat}
    (h : hybridSucc E gas width height goal p iPred step s i = some s')
    (hinv : ExpandInv E width height p iPred s) :
    ExpandInv E width height p iPred s' ∧
      ∀ k, s'.nodes3D k ≠ s.nodes3D k → (s'.nodes3D k).pred ≠ Ptr.slot k := by
  obtain ⟨⟨hst, -⟩, h2⟩ := hybridSucc_spec h
  obtain ⟨⟨hA, hB, hC⟩, hD⟩ := hinv
  rcases h2 with ⟨h3, hO⟩ | ⟨n, h3, hO, -, -, -, -, hx, hy, ht, hidx, -, hpred⟩
  · refine ⟨⟨⟨?_, ?_, ?_⟩, ?_⟩, ?_⟩
    · rw [hst]; exact hA
    · rw [hO]; exact hB
    · rw [hO, h3]; exact hC
    · rw [h3]; exact hD
    · intro k hk; exact absurd (by rw [h3]) hk
  · have hnpred : n.pred ≠ Ptr.slot (candidate E width height p step s i).idx := by
      rw [hpred]
      by_cases hi : iPred = (candidate E width height p step s i).idx
      · rw [if_pos hi]
        rcases hD with hp | ⟨hp, hpp⟩
        · subst hp; exact hA _
        · subst hp; rw [← hi]; exact hpp
      · rw [if_neg hi]
        rcases hD with hp | ⟨hp, -⟩
        · subst hp; simp
        · subst hp
          intro heq
          exact hi (Ptr.slot.inj heq)
    have hnidx : (n.setIdx E width height).idx = (candidate E width height p step s i).idx := by
      rw [Node3D.setIdx_idx_congr E width height hx hy ht]
      rfl
    refine ⟨⟨⟨?_, ?_, ?_⟩, ?_⟩, ?_⟩
    · rw [hst]; exact hA
    · rw [hO]
      intro q hq
      rcases List.mem_append.mp hq with hq | hq
      · exact hB q hq
      · right; exact ⟨_, List.mem_singleton.mp hq⟩
    · intro k hk
      rw [h3]
      by_cases hkc : k = (candidate E width height p step s i).idx
      · subst hkc
        rw [Function.update_same]
        exact ⟨hnidx, hnpred⟩
      · rw [Function.update_noteq hkc]
        rw [hO] at hk
        rcases List.mem_append.mp hk with hk | hk
        · exact hC k hk
        · exact absurd (Ptr.slot.inj (List.mem_singleton.mp hk)) hkc
    · rcases hD with hp | ⟨hp, hpp⟩
      · exact Or.inl hp
      · right
        refine ⟨hp, ?_⟩
        rw [h3]
        by_cases hkc : iPred = (candidate E width height p step s i).idx
        · rw [hkc, Function.update_same]; exact hnpred
        · rw [Function.update_noteq hkc]; exact hpp
    · intro k hk
      rw [h3] at hk ⊢
      by_cases hkc : k = (candidate E width height p step s i).idx
      · subst hkc
        rw [Function.update_same]; exact hnpred
      · rw [Function.update_noteq hkc] at hk
        exact absurd rfl hk

theorem hybridEnter_predInv {E : Env K} {width height : Int} {s : Search3D K}
    (hinv : PredInv E width height s) : PredInv E width height (hybridEnter E width height s) := by
  obtain ⟨hA, hB, hC⟩ := hinv
  have hO : (hybridEnter E width height s).O = s.O := by
    simp only [hybridEnter, Search3D.setIdx]; split <;> rfl
  refine ⟨?_, ?_, ?_⟩
  · intro k
    have : (hybridEnter E width height s).start.pred = s.start.pred := by
      simp only [hybridEnter, Search3D.setIdx]; split <;> rfl
    rw [this]; exact hA k
  · rw [hO]; exact hB
  · intro k hk
    rw [hO] at hk
    obtain ⟨h1, h2⟩ := hC k hk
    have hf := Search3D.setIdx_flags E s (s.top E) width height k
    have hpose : ((hybridEnter E width height s).nodes3D k).pose = (s.nodes3D k).pose := hf.2.2.2.2.2
    have hpred : ((hybridEnter E width height s).nodes3D k).pred = (s.nodes3D k).pred := hf.2.2.1
    simp only [Node3D.pose, Prod.mk.injEq] at hpose
    refine ⟨?_, ?_⟩
    · rw [Node3D.setIdx_idx_congr E width height hpose.1 hpose.2.1 hpose.2.2]; exact h1
    · rw [hpred]; exact h2

theorem hybridEnter_nodes_pred (E : Env K) (width height : Int) (s : Search3D K) (k : Int) :
    ((hybridEnter E width height s).nodes3D k).pred = (s.nodes3D k).pred :=
  (Search3D.setIdx_flags E s (s.top E) width height k).2.2.1

theorem hybridClose_nodes_pred (E : Env K) (width height : Int) (s : Search3D K) (k : Int) :
    ((hybridClose E width height s).nodes3D k).pred = (s.nodes3D k).pred := by
  rw [← hybridEnter_nodes_pred E width height s k]
  simp only [hybridClose]
  by_cases hk : k = hybridIPred E width height s
  · subst hk; rw [Function.update_same]; rfl
  · rw [Function.update_noteq hk]

theorem hybridIPred_of_slot {E : Env K} {width height : Int} {s : Search3D K} {k : Int}
    (hp : s.top E = Ptr.slot k) :
    hybridIPred E width height s = ((s.nodes3D k).setIdx E width height).idx := by
  simp only [hybridIPred, hybridEnter, hp, Search3D.setIdx, Search3D.deref,
    Function.update_same]

theorem hybridClose_expandInv {E : Env K} {width height : Int} {s : Search3D K}
    (hinv : PredInv E width height s) :
    ExpandInv E width height (s.top E) (hybridIPred E width height s)
      (hybridClose E width height s) := by
  have hent := hybridEnter_predInv hinv
  obtain ⟨hA, hB, hC⟩ := hent
  have hOsub : ∀ q, q ∈ (hybridClose E width height s).O → q ∈ (hybridEnter E width height s).O := by
    intro q hq
    simp only [hybridClose] at hq
    exact List.mem_of_mem_eraseIdx hq
  have hpose : ∀ k, ((hybridClose E width height s).nodes3D k).pose
      = ((hybridEnter E width height s).nodes3D k).pose := by
    intro k
    simp only [hybridClose]
    by_cases hk : k = hybridIPred E width height s
    · subst hk; rw [Function.update_same]; rfl
    · rw [Function.update_noteq hk]
  have hpred : ∀ k, ((hybridClose E width height s).nodes3D k).pred
      = ((hybridEnter E width height s).nodes3D k).pred := by
    intro k
    rw [hybridClose_nodes_pred, hybridEnter_nodes_pred]
  refine ⟨⟨hA, fun q hq => hB q (hOsub q hq), ?_⟩, ?_⟩
  · intro k hk
    obtain ⟨h1, h2⟩ := hC k (hOsub _ hk)
    have hp := hpose k
    simp only [Node3D.pose, Prod.mk.injEq] at hp
    refine ⟨?_, ?_⟩
    · rw [Node3D.setIdx_idx_congr E width height hp.1 hp.2.1 hp.2.2]; exact h1
    · rw [hpred]; exact h2
  · rcases Search3D.top_mem_or_start E s with hmem | hst
    · rcases hinv.2.1 _ hmem with hst | ⟨k, hk⟩
      · exact Or.inl hst
      · right
        obtain ⟨h1, h2⟩ := hinv.2.2 k (hk ▸ hmem)
        have hik : hybridIPred E width height s = k := by
          rw [hybridIPred_of_slot hk]; exact h1
        refine ⟨by rw [hik]; exact hk, ?_⟩
        rw [hik, hybridClose_nodes_pred]; exact h2
    · exact Or.inl hst

theorem hybridExpand_expandInv {E : Env K} {gas : Nat} {width height : Int} {goal : Node3D K}
    {p : Ptr} {iPred : Int} {step : K} {n : Nat} {s s' : Search3D K}
    (nodes0 : Int → Node3D K)
    (hinv : ExpandInv E width height p iPred s)
    (hfr : ∀ k, (s.nodes3D k).pred = Ptr.slot k → (nodes0 k).pred = Ptr.slot k)
    (h : hybridExpand E gas width height goal p iPred step n s = some s') :
    ExpandInv E width height p iPred s' ∧
      ∀ k, (s'.nodes3D k).pred = Ptr.slot k → (nodes0 k).pred = Ptr.slot k := by
  refine hybridExpand_invariant
    (fun t => ExpandInv E width height p iPred t ∧
      ∀ k, (t.nodes3D k).pred = Ptr.slot k → (nodes0 k).pred = Ptr.slot k) ?_ ⟨hinv, hfr⟩ h
  intro t i t' ⟨ht, hft⟩ hstep
  obtain ⟨h1, h2⟩ := hybridSucc_expandInv hstep ht
  refine ⟨h1, ?_⟩
  intro k hk
  by_cases hne : t'.nodes3D k = t.nodes3D k
  · rw [hne] at hk; exact hft k hk
  · exact absurd hk (h2 k hne)

theorem hybridIter_predInv {E : Env K} {gas : Nat} {width height : Int}
    {goal : Node3D K} {s : Search3D K} {st : Step (Search3D K) (Result3D K)}
    (nodes0 : Int → Node3D K)
    (h : hybridIter E gas width height goal s = some st)
    (hinv : PredInv E width height s)
    (hfr : ∀ k, (s.nodes3D k).pred = Ptr.slot k → (nodes0 k).pred = Ptr.slot k) :
    PredInv E width height st.memory ∧
      ∀ k, (st.memory.nodes3D k).pred = Ptr.slot k → (nodes0 k).pred = Ptr.slot k := by
  have hent := hybridEnter_predInv hinv
  have hcl := hybridClose_expandInv hinv
  have hfe : ∀ k, ((hybridEnter E width height s).nodes3D k).pred = Ptr.slot k →
      (nodes0 k).pred = Ptr.slot k := by
    intro k hk; rw [hybridEnter_nodes_pred] at hk; exact hfr k hk
  have hfc : ∀ k, ((hybridClose E width height s).nodes3D k).pred = Ptr.slot k →
      (nodes0 k).pred = Ptr.slot k := by
    intro k hk; rw [hybridClose_nodes_pred] at hk; exact hfr k hk
  have hpop : PredInv E width height
      { hybridEnter E width height s with
        O := (hybridEnter E width height s).O.eraseIdx (s.topIdx E) } := by
    obtain ⟨hA, hB, hC⟩ := hent
    exact ⟨hA, fun q hq => hB q (List.mem_of_mem_eraseIdx hq),
      fun k hk => hC k (List.mem_of_mem_eraseIdx hk)⟩
  unfold hybridIter at h
  simp only at h
  split at h
  · cases h; exact ⟨hpop, hfe⟩
  · split at h
    · split at h
      · cases h; exact ⟨hcl.1, hfc⟩
      · split at h
        · simp at h
        · cases h; exact ⟨hcl.1, hfc⟩
        · simp only [Option.map_eq_some'] at h
          obtain ⟨s', hs', rfl⟩ := h
          obtain ⟨h1, h2⟩ := hybridExpand_expandInv nodes0 hcl hfc hs'
          exact ⟨h1.1, h2⟩
    · cases h; exact ⟨hent, hfe⟩

theorem hybridInit_predInv {E : Env K} {gas : Nat} {start goal : Node3D K}
    {nodes3D : Int → Node3D K} {nodes2D : Int → Node2D K} {width height : Int}
    {s0 : Search3D K}
    (h : hybridInit E gas start goal nodes3D nodes2D width height = some s0)
    (hstart : ∀ k : Int, start.pred ≠ Ptr.slot k) :
    PredInv E width height s0 ∧
      ∀ k, (s0.nodes3D k).pred = Ptr.slot k → (nodes3D k).pred = Ptr.slot k := by
  unfold hybridInit at h
  split at h
  · simp at h
  · rename_i q nodes hq
    have hq' := updateH_pose hq
    simp only [Option.some.injEq] at h
    subst h
    have hqp : q.pred = start.pred := by rw [hq']; rfl
    refine ⟨⟨?_, ?_, ?_⟩, ?_⟩
    · intro k
      show q.pred ≠ Ptr.slot k
      rw [hqp]; exact hstart k
    · intro p hp
      left
      simpa using hp
    · intro k hk
      simp at hk
    · intro k hk
      simp only at hk
      by_cases hki : k = ((q.markOpen).setIdx E width height).idx
      · rw [hki, Function.update_same] at hk
        have : q.pred = Ptr.slot ((q.markOpen).setIdx E width height).idx := hk
        rw [hqp] at this
        exact absurd this (hstart _)
      · rw [Function.update_noteq hki] at hk
        exact hk

theorem hybridRun_predInv {E : Env K} {gas : Nat} {width height : Int} {goal : Node3D K}
    (nodes0 : Int → Node3D K) :
    ∀ (n : Nat) (s s' : Search3D K),
      hybridRun E gas width height goal n s = some s' →
      PredInv E width height s →
      (∀ k, (s.nodes3D k).pred = Ptr.slot k → (nodes0 k).pred = Ptr.slot k) →
      PredInv E width height s' ∧
        ∀ k, (s'.nodes3D k).pred = Ptr.slot k → (nodes0 k).pred = Ptr.slot k := by
  intro n
  induction n with
  | zero =>
    intro s s' h hinv hfr
    simp only [hybridRun, Option.some.injEq] at h
    subst h
    exact ⟨hinv, hfr⟩
  | succ n ih =>
    intro s s' h hinv hfr
    simp only [hybridRun] at h
    split at h
    · simp at h
    · split at h
      · rename_i s1 hit
        obtain ⟨h1, h2⟩ := hybridIter_predInv nodes0 hit hinv hfr
        exact ih s1 s' h h1 h2
      · simp at h

theorem hybridLoop_predInv {E : Env K} {gas : Nat} {width height : Int} {goal : Node3D K}
    (nodes0 : Int → Node3D K) :
    ∀ (fuel : Nat) (s : Search3D K) (r : Result3D K),
      hybridLoop E gas width height goal fuel s = some r →
      PredInv E width height s →
      (∀ k, (s.nodes3D k).pred = Ptr.slot k → (nodes0 k).pred = Ptr.slot k) →
      ∀ k, (r.final.nodes3D k).pred = Ptr.slot k → (nodes0 k).pred = Ptr.slot k := by
  intro fuel
  induction fuel with
  | zero => intro s r h; simp [hybridLoop] at h
  | succ fuel ih =>
    intro s r h hinv hfr
    simp only [hybridLoop] at h
    split at h
    · simp only [Option.some.injEq] at h
      subst h; exact hfr
    · split at h
      · simp at h
      · rename_i s1 hit
        obtain ⟨h1, h2⟩ := hybridIter_predInv nodes0 hit hinv hfr
        exact ih s1 r h h1 h2
      · rename_i r1 hit
        simp only [Option.some.injEq] at h
        subst h
        exact (hybridIter_predInv nodes0 hit hinv hfr).2

/-- C9: when the predecessor of the start node is no canonical slot, a slot
`nodes3D[k]` holds a node whose predecessor is `&nodes3D[k]` itself, at the
return of `hybridAStar` or after any number of passes of its loop, only if the
caller's grid already held such a node there; and in the expansion started from
any memory the run reaches at the head of the loop, each pass of the successor
loop that writes a slot (different cell or same cell re-parented) writes a node
whose predecessor is not that slot. -/
theorem hybridAStar_no_self_predecessor (E : Env K) (fuel : Nat) (start goal : Node3D K)
    (nodes3D : Int → Node3D K) (nodes2D : Int → Node2D K) (width height : Int)
    (hstart : ∀ k : Int, start.pred ≠ Ptr.slot k) :
    (∀ (r : Result3D K) (k : Int),
        hybridAStar E fuel start goal nodes3D nodes2D width height = some r →
        (r.final.nodes3D k).pred = Ptr.slot k → (nodes3D k).pred = Ptr.slot k)
    ∧ (∀ (s0 s : Search3D K) (n : Nat),
        hybridInit E fuel start goal nodes3D nodes2D width height = some s0 →
        hybridRun E fuel width height goal n s0 = some s →
        (∀ k : Int, (s.nodes3D k).pred = Ptr.slot k → (nodes3D k).pred = Ptr.slot k)
        ∧ ∀ (j i : Nat) (sj sj' : Search3D K) (k : Int),
            hybridExpand E fuel width height goal (s.top E) (hybridIPred E width height s)
              (stepSize E ((hybridClose E width height s).deref (s.top E)).pose) j
              (hybridClose E width height s) = some sj →
            hybridSucc E fuel width height goal (s.top E) (hybridIPred E width height s)
              (stepSize E ((hybridClose E width height s).deref (s.top E)).pose) sj i = some sj' →
            sj'.nodes3D k ≠ sj.nodes3D k → (sj'.nodes3D k).pred ≠ Ptr.slot k) := by
  refine ⟨?_, ?_⟩
  · intro r k h hk
    unfold hybridAStar at h
    split at h
    · simp at h
    · rename_i s0 hinit
      obtain ⟨h1, h2⟩ := hybridInit_predInv hinit hstart
      exact hybridLoop_predInv nodes3D _ _ _ h h1 h2 k hk
  · intro s0 s n hinit hrun
    obtain ⟨h1, h2⟩ := hybridInit_predInv hinit hstart
    obtain ⟨h3, h4⟩ := hybridRun_predInv nodes3D n s0 s hrun h1 h2
    refine ⟨h4, ?_⟩
    intro j i sj sj' k hexp hsucc hne
    have hcl := hybridClose_expandInv h3
    have hfc : ∀ k, ((hybridClose E width height s).nodes3D k).pred = Ptr.slot k →
        (nodes3D k).pred = Ptr.slot k := by
      intro k hk; rw [hybridClose_nodes_pred] at hk; exact h4 k hk
    obtain ⟨h5, -⟩ := hybridExpand_expandInv nodes3D hcl hfc hexp
    exact (hybridSucc_expandInv hsucc h5).2 k hne

/-! ## 2D search: structure of one successor step -/

theorem candidate2D_fields (width : Int) (p : Ptr) (s : Search2D K) (i : Nat) :
    (candidate2D width p s i).x = (s.deref p).x + Node2D.dx i ∧
    (candidate2D width p s i).y = (s.deref p).y + Node2D.dy i ∧
    (candidate2D width p s i).idx
      = cellIndex width (moveCell (s.deref p).cell i) ∧
    (candidate2D width p s i).cell = moveCell (s.deref p).cell i ∧
    (candidate2D width p s i).g = (s.deref p).g ∧
    (candidate2D width p s i).pred = p :=
  ⟨rfl, rfl, rfl, rfl, rfl, rfl⟩

/-- The node that an accepted candidate leaves in its slot. -/
theorem aStarSucc_cases (E : Env K) (width height : Int) (goal : Node2D K) (p : Ptr)
    (s : Search2D K) (i : Nat) :
    (aStarSucc E width height goal p s i = s ∧
      ((candidate2D width p s i).isOnGrid width height = false
        ∨ E.isTraversable2D (candidate2D width p s i).x (candidate2D width p s i).y = false
        ∨ (s.nodes2D (candidate2D width p s i).idx).c = true
        ∨ ((s.nodes2D (candidate2D width p s i).idx).o = true ∧
            (s.nodes2D (candidate2D width p s i).idx).g
              ≤ (s.deref p).g + Node2D.movementCost E.sqrt (candidate2D width p s i) (s.deref p))))
    ∨ ((candidate2D width p s i).isOnGrid width height = true ∧
        E.isTraversable2D (candidate2D width p s i).x (candidate2D width p s i).y = true ∧
        (s.nodes2D (candidate2D width p s i).idx).c = false ∧
        ((s.nodes2D (candidate2D width p s i).idx).o = false ∨
          (s.deref p).g + Node2D.movementCost E.sqrt (candidate2D width p s i) (s.deref p)
            < (s.nodes2D (candidate2D width p s i).idx).g) ∧
        ∃ n : Node2D K,
          aStarSucc E width height goal p s i
            = { s with nodes2D := Function.update s.nodes2D (candidate2D width p s i).idx n,
                       O := s.O ++ [Ptr.slot (candidate2D width p s i).idx] } ∧
          n.x = (candidate2D width p s i).x ∧ n.y = (candidate2D width p s i).y ∧
          n.idx = (candidate2D width p s i).idx ∧ n.o = true ∧ n.c = false ∧
          n.g = (s.deref p).g
            + Node2D.movementCost E.sqrt (candidate2D width p s i) (s.deref p) ∧
          n.h = Node2D.movementCost E.sqrt (candidate2D width p s i) goal) := by
  unfold aStarSucc
  simp only
  by_cases h1 : (candidate2D width p s i).isOnGrid width height = true
  · by_cases h2 : E.isTraversable2D (candidate2D width p s i).x (candidate2D width p s i).y = true
    · by_cases h3 : (s.nodes2D (candidate2D width p s i).idx).c = true
      · left
        refine ⟨?_, Or.inr (Or.inr (Or.inl h3))⟩
        rw [if_neg (by simp [h3])]
      · have h3' : (s.nodes2D (candidate2D width p s i).idx).c = false := by
          simpa using h3
        rw [if_pos (by simp [h1, h2, h3'])]
        by_cases h4 : (s.nodes2D (candidate2D width p s i).idx).o = false
        · right
          refine ⟨h1, h2, h3', Or.inl h4, (Node2D.updateH E.sqrt (Node2D.updateG E.sqrt E.updateGDiscovers (candidate2D width p s i) (s.deref p)) goal).markOpen, ?_, rfl, rfl, rfl, rfl, rfl, rfl, rfl⟩
          rw [if_pos (by simp [h4])]
          rfl
        · have h4' : (s.nodes2D (candidate2D width p s i).idx).o = true := by simpa using h4
          by_cases h5 : (s.deref p).g
              + Node2D.movementCost E.sqrt (candidate2D width p s i) (s.deref p)
              < (s.nodes2D (candidate2D width p s i).idx).g
          · right
            refine ⟨h1, h2, h3', Or.inr h5, (Node2D.updateH E.sqrt (Node2D.updateG E.sqrt E.updateGDiscovers (candidate2D width p s i) (s.deref p)) goal).markOpen, ?_, rfl, rfl, rfl, rfl, rfl, rfl, rfl⟩
            rw [if_pos]
            · rfl
            · simp only [Bool.or_eq_true, decide_eq_true_eq]
              right
              exact h5
          · left
            refine ⟨?_, Or.inr (Or.inr (Or.inr ⟨h4', not_lt.mp h5⟩))⟩
            rw [if_neg]
            simp only [Bool.or_eq_true, decide_eq_true_eq, not_or, h4', Bool.not_true,
              Bool.false_eq_true, not_false_eq_true, true_and]
            exact h5
    · left
      refine ⟨?_, Or.inr (Or.inl (by simpa using h2))⟩
      rw [if_neg (by simp [h2])]
  · left
    refine ⟨?_, Or.inl (by simpa using h1)⟩
    rw [if_neg (by simp [h1])]

/-! ## 2D search: cells and indices -/

theorem cellIndex_range {width height : Int} {c : Int × Int} (h : OnGrid width height c) :
    0 ≤ cellIndex width c ∧ cellIndex width c < width * height := by
  obtain ⟨h1, h2, h3, h4⟩ := h
  unfold cellIndex
  constructor
  · nlinarith
  · nlinarith

theorem cellIndex_inj {width height : Int} {c d : Int × Int} (hc : OnGrid width height c)
    (hd : OnGrid width height d) (h : cellIndex width c = cellIndex width d) : c = d := by
  obtain ⟨c1, c2, c3, c4⟩ := hc
  obtain ⟨d1, d2, d3, d4⟩ := hd
  unfold cellIndex at h
  have hw : 0 < width := by linarith
  have hy : c.2 = d.2 := by
    by_contra hne
    rcases lt_or_gt_of_ne hne with hlt | hgt
    · have : c.2 + 1 ≤ d.2 := hlt
      nlinarith
    · have : d.2 + 1 ≤ c.2 := hgt
      nlinarith
  have hx : c.1 = d.1 := by
    rw [hy] at h
    linarith
  exact Prod.ext hx hy

theorem isOnGrid_iff (n : Node2D K) (width height : Int) :
    n.isOnGrid width height = true ↔ OnGrid width height n.cell := by
  simp only [Node2D.isOnGrid, Bool.and_eq_true, decide_eq_true_eq, OnGrid, Node2D.cell]
  tauto

theorem walk_snoc (E : Env K) (width height : Int) :
    ∀ (path : List Nat) (a b : Int × Int) (i : Nat),
      walk E width height a path = some b → i < Node2D.dir →
      OnGrid width height (moveCell b i) →
      E.isTraversable2D (moveCell b i).1 (moveCell b i).2 = true →
      walk E width height a (path ++ [i]) = some (moveCell b i) := by
  intro path
  induction path with
  | nil =>
    intro a b i h hi hg ht
    simp only [walk, Option.some.injEq] at h
    subst h
    simp only [List.nil_append, walk]
    rw [if_pos ⟨hi, hg, ht⟩]
  | cons j path ih =>
    intro a b i h hi hg ht
    simp only [List.cons_append, walk] at h ⊢
    split at h
    · rename_i hc
      rw [if_pos hc]
      exact ih _ _ _ h hi hg ht
    · simp at h

theorem Reachable.refl (E : Env K) (width height : Int) (a : Int × Int) :
    Reachable E width height a a := ⟨[], rfl⟩

theorem Reachable.step {E : Env K} {width height : Int} {a b : Int × Int} {i : Nat}
    (h : Reachable E width height a b) (hi : i < Node2D.dir)
    (hg : OnGrid width height (moveCell b i))
    (ht : E.isTraversable2D (moveCell b i).1 (moveCell b i).2 = true) :
    Reachable E width height a (moveCell b i) := by
  obtain ⟨path, hp⟩ := h
  exact ⟨path ++ [i], walk_snoc E width height path a b i hp hi hg ht⟩

/-! ## 2D search: the invariant through the successor loop -/

theorem aStarSucc_frame (E : Env K) (width height : Int) (goal : Node2D K) (p : Ptr)
    (s : Search2D K) (i : Nat) :
    (aStarSucc E width height goal p s i).start = s.start ∧
    (∀ k, ((aStarSucc E width height goal p s i).nodes2D k).c = (s.nodes2D k).c) ∧
    (∀ k, (s.nodes2D k).c = true →
      (aStarSucc E width height goal p s i).nodes2D k = s.nodes2D k) ∧
    (aStarSucc E width height goal p s i).O.length ≤ s.O.length + 1 ∧
    (∀ q ∈ s.O, q ∈ (aStarSucc E width height goal p s i).O) := by
  rcases aStarSucc_cases E width height goal p s i with ⟨h, -⟩ | ⟨-, -, hc, -, n, h, -, -, -, -, hnc, -⟩
  · rw [h]
    exact ⟨rfl, fun _ => rfl, fun _ _ => rfl, Nat.le_succ _, fun _ hq => hq⟩
  · rw [h]
    refine ⟨rfl, ?_, ?_, ?_, ?_⟩
    · intro k
      by_cases hk : k = (candidate2D width p s i).idx
      · subst hk
        simp only [Function.update_same]
        rw [hnc, hc]
      · simp only [Function.update_noteq hk]
    · intro k hk
      by_cases hki : k = (candidate2D width p s i).idx
      · subst hki
        rw [hc] at hk
        exact absurd hk (by simp)
      · simp only [Function.update_noteq hki]
    · simp
    · intro q hq
      exact List.mem_append_left _ hq

theorem aStarSucc_deref (E : Env K) (width height : Int) (goal : Node2D K) (i : Nat)
    {p : Ptr} {s : Search2D K}
    (hp : p = Ptr.start ∨ ∃ k : Int, p = Ptr.slot k ∧ (s.nodes2D k).c = true) :
    (aStarSucc E width height goal p s i).deref p = s.deref p ∧
    (p = Ptr.start ∨ ∃ k : Int, p = Ptr.slot k
      ∧ ((aStarSucc E width height goal p s i).nodes2D k).c = true) := by
  obtain ⟨h1, h2, h3, -, -⟩ := aStarSucc_frame E width height goal p s i
  rcases hp with hp | ⟨k, hp, hk⟩
  · subst hp
    exact ⟨by simp only [Search2D.deref]; exact h1, Or.inl rfl⟩
  · subst hp
    refine ⟨by simp only [Search2D.deref]; exact h3 k hk, Or.inr ⟨k, rfl, ?_⟩⟩
    rw [h2 k]; exact hk

theorem aStarSucc_inv {E : Env K} {width height : Int} {goal : Node2D K} {p : Ptr}
    {s : Search2D K} {i : Nat} {a : Int × Int}
    (hinv : Inv2D E width height a s) (hi : i < Node2D.dir)
    (hr : Reachable E width height a (s.deref p).cell) :
    Inv2D E width height a (aStarSucc E width height goal p s i) := by
  rcases aStarSucc_cases E width height goal p s i with ⟨h, -⟩ |
    ⟨hg, ht, hc, -, n, h, hnx, hny, hnidx, hno, hnc, -, -⟩
  · rw [h]; exact hinv
  · rw [h]
    have hcell : n.cell = moveCell (s.deref p).cell i := by
      simp only [Node2D.cell, hnx, hny]
      rfl
    have hgrid : OnGrid width height (moveCell (s.deref p).cell i) :=
      (isOnGrid_iff _ width height).mp hg
    have hidx : (candidate2D width p s i).idx = cellIndex width (moveCell (s.deref p).cell i) :=
      rfl
    have hrange := cellIndex_range hgrid
    have hreach : Reachable E width height a (moveCell (s.deref p).cell i) :=
      hr.step hi hgrid ht
    constructor
    · intro q hq
      rcases List.mem_append.mp hq with hq | hq
      · rcases hinv.entries q hq with hq1 | ⟨k, hk, hk0, hk1, hk2⟩
        · exact Or.inl hq1
        · right
          refine ⟨k, hk, hk0, hk1, ?_⟩
          by_cases hki : k = (candidate2D width p s i).idx
          · subst hki
            simp only [Function.update_same]
            exact Or.inl hno
          · simp only [Function.update_noteq hki]
            exact hk2
      · right
        refine ⟨_, List.mem_singleton.mp hq, ?_, ?_, ?_⟩
        · rw [hidx]; exact hrange.1
        · rw [hidx]; exact hrange.2
        · simp only [Function.update_same]; exact Or.inl hno
    · exact hinv.startCell
    · exact hinv.startGrid
    · by_cases hki : cellIndex width a = (candidate2D width p s i).idx
      · left
        show (Function.update s.nodes2D (candidate2D width p s i).idx n
          (cellIndex width a)).o = true
        rw [hki, Function.update_same]
        exact hno
      · show (Function.update s.nodes2D (candidate2D width p s i).idx n
          (cellIndex width a)).o = true ∨ (Function.update s.nodes2D
          (candidate2D width p s i).idx n (cellIndex width a)).c = true
        rw [Function.update_noteq hki]
        exact hinv.startSlot
    · intro k hk0 hk1 hk
      by_cases hki : k = (candidate2D width p s i).idx
      · subst hki
        simp only [Function.update_same] at hk ⊢
        refine ⟨Or.inr hnc, ?_, ?_, hnidx, ?_⟩
        · rw [hcell]; exact hgrid
        · rw [hcell]; exact hidx.symm
        · rw [hcell]; exact hreach
      · simp only [Function.update_noteq hki] at hk ⊢
        exact hinv.slots k hk0 hk1 hk
    · intro k hk0 hk1 hk
      by_cases hki : k = (candidate2D width p s i).idx
      · subst hki
        left
        exact List.mem_append_right _ (List.mem_singleton.mpr rfl)
      · simp only [Function.update_noteq hki] at hk
        rcases hinv.queued k hk0 hk1 hk with h1 | h1
        · exact Or.inl (List.mem_append_left _ h1)
        · exact Or.inr ⟨List.mem_append_left _ h1.1, h1.2⟩

theorem aStarExpand_succ (E : Env K) (width height : Int) (goal : Node2D K) (p : Ptr)
    (n : Nat) (s : Search2D K) :
    aStarExpand E width height goal p (n + 1) s
      = aStarSucc E width height goal p (aStarExpand E width height goal p n s) n := by
  simp only [aStarExpand, List.range_succ, List.foldl_append, List.foldl_cons, List.foldl_nil]

/-- Facts that hold after any number of passes of the successor loop of
`aStar`, started in a memory that satisfies the invariant with the expanded
node in a closed slot (or in the `start` object). -/
theorem aStarExpand_inv {E : Env K} {width height : Int} (goal : Node2D K) {p : Ptr}
    {s : Search2D K} {a : Int × Int}
    (hinv : Inv2D E width height a s)
    (hp : p = Ptr.start ∨ ∃ k : Int, p = Ptr.slot k ∧ (s.nodes2D k).c = true)
    (hr : Reachable E width height a (s.deref p).cell) :
    ∀ n, n ≤ Node2D.dir →
      Inv2D E width height a (aStarExpand E width height goal p n s) ∧
      (aStarExpand E width height goal p n s).deref p = s.deref p ∧
      (p = Ptr.start ∨ ∃ k : Int, p = Ptr.slot k
        ∧ ((aStarExpand E width height goal p n s).nodes2D k).c = true) ∧
      (aStarExpand E width height goal p n s).start = s.start ∧
      (∀ k, ((aStarExpand E width height goal p n s).nodes2D k).c = (s.nodes2D k).c) ∧
      (∀ k, (s.nodes2D k).c = true →
        (aStarExpand E width height goal p n s).nodes2D k = s.nodes2D k) ∧
      (aStarExpand E width height goal p n s).O.length ≤ s.O.length + n := by
  intro n
  induction n with
  | zero =>
    intro _
    exact ⟨hinv, rfl, hp, rfl, fun _ => rfl, fun _ _ => rfl, le_refl _⟩
  | succ n ih =>
    intro hn
    obtain ⟨h1, h2, h3, h4, h5, h6, h7⟩ := ih (Nat.le_of_succ_le hn)
    rw [aStarExpand_succ]
    obtain ⟨f1, f2, f3, f4, -⟩ :=
      aStarSucc_frame E width height goal p (aStarExpand E width height goal p n s) n
    obtain ⟨g1, g2⟩ := aStarSucc_deref E width height goal n h3
    refine ⟨aStarSucc_inv h1 hn (by rw [h2]; exact hr), by rw [g1, h2], g2, by rw [f1, h4],
      fun k => by rw [f2, h5], fun k hk => ?_, by omega⟩
    rw [f3 k (by rw [h5]; exact hk), h6 k hk]

/-! ## 2D search: one pass of the loop -/

theorem mem_eraseIdx_of_ne {α : Type} {q : α} :
    ∀ (l : List α) (pos : Nat), q ∈ l → q ≠ l.getD pos q → q ∈ l.eraseIdx pos := by
  intro l
  induction l with
  | nil => intro pos h; simp at h
  | cons x l ih =>
    intro pos h hne
    cases pos with
    | zero =>
      simp only [List.getD_cons_zero] at hne
      simp only [List.eraseIdx_cons_zero]
      rcases List.mem_cons.mp h with h | h
      · exact absurd h hne
      · exact h
    | succ pos =>
      simp only [List.getD_cons_succ] at hne
      simp only [List.eraseIdx_cons_succ]
      rcases List.mem_cons.mp h with h | h
      · exact List.mem_cons.mpr (Or.inl h)
      · exact List.mem_cons.mpr (Or.inr (ih pos h hne))

theorem length_eraseIdx_lt {α : Type} (l : List α) (pos : Nat) (h : pos < l.length) :
    (l.eraseIdx pos).length + 1 = l.length := by
  rw [List.length_eraseIdx, if_pos h]
  omega

theorem topPos_lt (top : List K → Nat) (keys : List K) (h : keys ≠ []) :
    topPos top keys < keys.length := by
  unfold topPos
  split
  · assumption
  · exact List.length_pos.mpr h

theorem Search2D.topIdx_lt (E : Env K) (s : Search2D K) (h : s.O ≠ []) :
    s.topIdx E < s.O.length := by
  have := topPos_lt E.top2D s.keys (by simpa [Search2D.keys] using h)
  simpa [Search2D.topIdx, Search2D.keys] using this

theorem Search2D.top_mem (E : Env K) (s : Search2D K) (h : s.O ≠ []) : s.top E ∈ s.O := by
  unfold Search2D.top
  rw [List.getD_eq_getElem _ _ (s.topIdx_lt E h)]
  exact List.getElem_mem _

theorem Search2D.top_getD (E : Env K) (s : Search2D K) (q : Ptr) (h : s.O ≠ []) :
    s.O.getD (s.topIdx E) q = s.top E := by
  unfold Search2D.top
  rw [List.getD_eq_getElem _ _ (s.topIdx_lt E h), List.getD_eq_getElem _ _ (s.topIdx_lt E h)]

theorem Node2D.setIdx_self (n : Node2D K) (width : Int) (h : n.idx = cellIndex width n.cell) :
    n.setIdx width = n := by
  cases n
  simp only [Node2D.setIdx, Node2D.cell, cellIndex] at h ⊢
  rw [h]

/-- What the invariant says about the entry at the top of the heap. -/
theorem aStar_top_facts {E : Env K} {width height : Int} {a : Int × Int} {s : Search2D K}
    (hinv : Inv2D E width height a s) (hne : s.O ≠ []) :
    aStarEnter E width s = s ∧
    (0 ≤ aStarIPred E width s ∧ aStarIPred E width s < width * height) ∧
    ((s.nodes2D (aStarIPred E width s)).o = true ∨ (s.nodes2D (aStarIPred E width s)).c = true) ∧
    ((s.top E = Ptr.start ∧ aStarIPred E width s = cellIndex width a)
      ∨ s.top E = Ptr.slot (aStarIPred E width s)) ∧
    (s.deref (s.top E)).cell = (s.nodes2D (aStarIPred E width s)).cell ∧
    Reachable E width height a (s.deref (s.top E)).cell := by
  have hmem := s.top_mem E hne
  rcases hinv.entries _ hmem with hp | ⟨k, hp, hk0, hk1, hk2⟩
  · have hsi : s.start.setIdx width = s.start := by
      apply Node2D.setIdx_self
      rw [hinv.startCell.1, hinv.startCell.2]
    have hent : aStarEnter E width s = s := by
      simp only [aStarEnter, hp, Search2D.setIdx, hsi]
    have hip : aStarIPred E width s = cellIndex width a := by
      simp only [aStarIPred, hent, hp, Search2D.deref]
      exact hinv.startCell.2
    have hr := cellIndex_range hinv.startGrid
    obtain ⟨-, hg, hci, -, -⟩ := hinv.slots _ hr.1 hr.2 hinv.startSlot
    have hcell : (s.nodes2D (cellIndex width a)).cell = a := cellIndex_inj hg hinv.startGrid hci
    refine ⟨hent, by rw [hip]; exact hr, by rw [hip]; exact hinv.startSlot,
      Or.inl ⟨hp, hip⟩, ?_, ?_⟩
    · rw [hip, hcell, hp]; exact hinv.startCell.1
    · rw [hp]
      simp only [Search2D.deref]
      rw [hinv.startCell.1]
      exact Reachable.refl E width height a
  · obtain ⟨-, hg, hci, hidx, hreach⟩ := hinv.slots k hk0 hk1 hk2
    have hsi : (s.nodes2D k).setIdx width = s.nodes2D k := by
      apply Node2D.setIdx_self
      rw [hidx, hci]
    have hent : aStarEnter E width s = s := by
      simp only [aStarEnter, hp, Search2D.setIdx, hsi, Function.update_eq_self]
    have hip : aStarIPred E width s = k := by
      simp only [aStarIPred, hent, hp, Search2D.deref]
      exact hidx
    refine ⟨hent, by rw [hip]; exact ⟨hk0, hk1⟩, by rw [hip]; exact hk2,
      Or.inr (by rw [hip]; exact hp), ?_, ?_⟩
    · rw [hip, hp]; rfl
    · rw [hp]; exact hreach

theorem notClosed_congr (width height : Int) {f g : Int → Node2D K}
    (h : ∀ k, (f k).c = (g k).c) : notClosed width height f = notClosed width height g := by
  unfold notClosed
  congr 1
  apply Finset.filter_congr
  intro k _
  rw [h k]

theorem notClosed_close {width height : Int} {f : Int → Node2D K} {k : Int} {n : Node2D K}
    (hk0 : 0 ≤ k) (hk1 : k < width * height) (hf : (f k).c = false) (hn : n.c = true) :
    notClosed width height (Function.update f k n) + 1 = notClosed width height f := by
  unfold notClosed
  have hmem : k ∈ (Finset.Ico (0 : Int) (width * height)).filter (fun j => (f j).c = false) := by
    simp only [Finset.mem_filter, Finset.mem_Ico]
    exact ⟨⟨hk0, hk1⟩, hf⟩
  have heq : (Finset.Ico (0 : Int) (width * height)).filter
        (fun j => (Function.update f k n j).c = false)
      = ((Finset.Ico (0 : Int) (width * height)).filter (fun j => (f j).c = false)).erase k := by
    ext j
    simp only [Finset.mem_filter, Finset.mem_Ico, Finset.mem_erase]
    by_cases hj : j = k
    · subst hj
      simp [hn]
    · simp [Function.update_noteq hj, hj]
  rw [heq, Finset.card_erase_of_mem hmem]
  have : 0 < ((Finset.Ico (0 : Int) (width * height)).filter (fun j => (f j).c = false)).card :=
    Finset.card_pos.mpr ⟨k, hmem⟩
  omega

theorem aStar_queued_after_pop {E : Env K} {width height : Int} {a : Int × Int}
    {s : Search2D K} (hinv : Inv2D E width height a s) (hne : s.O ≠ []) {k : Int}
    (hk0 : 0 ≤ k) (hk1 : k < width * height) (ho : (s.nodes2D k).o = true)
    (hk : k ≠ aStarIPred E width s) :
    Ptr.slot k ∈ s.O.eraseIdx (s.topIdx E) ∨
      (Ptr.start ∈ s.O.eraseIdx (s.topIdx E) ∧ k = cellIndex width a) := by
  obtain ⟨-, -, -, htop, -, -⟩ := aStar_top_facts hinv hne
  rcases hinv.queued k hk0 hk1 ho with h1 | ⟨h1, h2⟩
  · left
    apply mem_eraseIdx_of_ne _ _ h1
    rw [s.top_getD E _ hne]
    rcases htop with ⟨hp, -⟩ | hp
    · rw [hp]; simp
    · rw [hp]
      intro heq
      exact hk (Ptr.slot.inj heq)
  · rcases htop with ⟨-, hip⟩ | hp
    · exact absurd (h2.trans hip.symm) hk
    · right
      refine ⟨?_, h2⟩
      apply mem_eraseIdx_of_ne _ _ h1
      rw [s.top_getD E _ hne, hp]
      simp

theorem aStarPop_inv {E : Env K} {width height : Int} {a : Int × Int} {s : Search2D K}
    (hinv : Inv2D E width height a s) (hne : s.O ≠ [])
    (hc : (s.nodes2D (aStarIPred E width s)).c = true) :
    Inv2D E width height a { s with O := s.O.eraseIdx (s.topIdx E) } := by
  obtain ⟨-, ⟨hr0, hr1⟩, hoc, -, -, -⟩ := aStar_top_facts hinv hne
  constructor
  · intro q hq
    exact hinv.entries q (List.mem_of_mem_eraseIdx hq)
  · exact hinv.startCell
  · exact hinv.startGrid
  · exact hinv.startSlot
  · exact hinv.slots
  · intro k hk0 hk1 ho
    apply aStar_queued_after_pop hinv hne hk0 hk1 ho
    intro hki
    subst hki
    rcases (hinv.slots _ hr0 hr1 hoc).1 with h | h
    · rw [h] at ho; exact absurd ho (by simp)
    · rw [h] at hc; exact absurd hc (by simp)

theorem aStarClose_eq {E : Env K} {width height : Int} {a : Int × Int} {s : Search2D K}
    (hinv : Inv2D E width height a s) (hne : s.O ≠ []) :
    aStarClose E width s =
      { s with nodes2D := Function.update s.nodes2D (aStarIPred E width s)
                 ((s.nodes2D (aStarIPred E width s)).close.discover),
               O := s.O.eraseIdx (s.topIdx E) } := by
  obtain ⟨hent, -⟩ := aStar_top_facts hinv hne
  simp only [aStarClose, hent]

theorem aStarClose_inv {E : Env K} {width height : Int} {a : Int × Int} {s : Search2D K}
    (hinv : Inv2D E width height a s) (hne : s.O ≠ [])
    (hc : (s.nodes2D (aStarIPred E width s)).c = false) :
    Inv2D E width height a (aStarClose E width s) ∧
    (s.top E = Ptr.start ∨ ∃ k : Int, s.top E = Ptr.slot k
      ∧ ((aStarClose E width s).nodes2D k).c = true) ∧
    ((aStarClose E width s).deref (s.top E)).cell = (s.deref (s.top E)).cell ∧
    ((aStarClose E width s).deref (s.top E)).g = (s.deref (s.top E)).g ∧
    (aStarClose E width s).O.length + 1 = s.O.length ∧
    notClosed width height (aStarClose E width s).nodes2D + 1
      = notClosed width height s.nodes2D := by
  obtain ⟨-, ⟨hr0, hr1⟩, hoc, htop, -, -⟩ := aStar_top_facts hinv hne
  rw [aStarClose_eq hinv hne]
  have hupd : ∀ k, k ≠ aStarIPred E width s →
      Function.update s.nodes2D (aStarIPred E width s)
        ((s.nodes2D (aStarIPred E width s)).close.discover) k = s.nodes2D k :=
    fun k hk => Function.update_noteq hk _ _
  have hsame : Function.update s.nodes2D (aStarIPred E width s)
        ((s.nodes2D (aStarIPred E width s)).close.discover) (aStarIPred E width s)
      = (s.nodes2D (aStarIPred E width s)).close.discover := Function.update_same _ _ _
  refine ⟨?_, ?_, ?_, ?_, ?_, ?_⟩
  · constructor
    · intro q hq
      rcases hinv.entries q (List.mem_of_mem_eraseIdx hq) with h | ⟨k, hk, hk0, hk1, hk2⟩
      · exact Or.inl h
      · right
        refine ⟨k, hk, hk0, hk1, ?_⟩
        by_cases hki : k = aStarIPred E width s
        · subst hki
          right
          show (Function.update s.nodes2D _ _ _).c = true
          rw [hsame]; rfl
        · show (Function.update s.nodes2D _ _ k).o = true ∨ (Function.update s.nodes2D _ _ k).c = true
          rw [hupd k hki]; exact hk2
    · exact hinv.startCell
    · exact hinv.startGrid
    · by_cases hki : cellIndex width a = aStarIPred E width s
      · right
        show (Function.update s.nodes2D _ _ (cellIndex width a)).c = true
        rw [hki, hsame]; rfl
      · show (Function.update s.nodes2D _ _ (cellIndex width a)).o = true
          ∨ (Function.update s.nodes2D _ _ (cellIndex width a)).c = true
        rw [hupd _ hki]; exact hinv.startSlot
    · intro k hk0 hk1 hk
      by_cases hki : k = aStarIPred E width s
      · subst hki
        obtain ⟨-, h2, h3, h4, h5⟩ := hinv.slots _ hr0 hr1 hoc
        dsimp only
        rw [hsame]
        exact ⟨Or.inl rfl, h2, h3, h4, h5⟩
      · have hk' : (s.nodes2D k).o = true ∨ (s.nodes2D k).c = true := by
          have := hk
          simp only [hupd k hki] at this
          exact this
        have := hinv.slots k hk0 hk1 hk'
        simp only [hupd k hki]
        exact this
    · intro k hk0 hk1 ho
      by_cases hki : k = aStarIPred E width s
      · subst hki
        have : (Function.update s.nodes2D _ _ (aStarIPred E width s)).o = true := ho
        rw [hsame] at this
        exact absurd this (by simp [Node2D.close, Node2D.discover])
      · have ho' : (s.nodes2D k).o = true := by
          have := ho
          simp only [hupd k hki] at this
          exact this
        exact aStar_queued_after_pop hinv hne hk0 hk1 ho' hki
  · rcases htop with ⟨hp, -⟩ | hp
    · exact Or.inl hp
    · right
      refine ⟨_, hp, ?_⟩
      show (Function.update s.nodes2D _ _ _).c = true
      rw [hsame]; rfl
  · rcases htop with ⟨hp, -⟩ | hp
    · rw [hp]; rfl
    · rw [hp]
      show (Function.update s.nodes2D _ _ _).cell = _
      rw [hsame]; rfl
  · rcases htop with ⟨hp, -⟩ | hp
    · rw [hp]; rfl
    · rw [hp]
      show (Function.update s.nodes2D _ _ _).g = _
      rw [hsame]; rfl
  · exact length_eraseIdx_lt _ _ (s.topIdx_lt E hne)
  · exact notClosed_close hr0 hr1 hc rfl

theorem aStarIter_next {E : Env K} {width height : Int} {goal : Node2D K} {a : Int × Int}
    {s s' : Search2D K} (hinv : Inv2D E width height a s) (hne : s.O ≠ [])
    (h : aStarIter E width height goal s = Step.next s') :
    Inv2D E width height a s' ∧
      potential2D width height s' < potential2D width height s := by
  obtain ⟨hent, ⟨hr0, hr1⟩, hoc, htop, hcell, hreach⟩ := aStar_top_facts hinv hne
  unfold aStarIter at h
  simp only [hent] at h
  split at h
  · rename_i hc
    simp only [Step.next.injEq] at h
    subst h
    refine ⟨aStarPop_inv hinv hne hc, ?_⟩
    have := length_eraseIdx_lt s.O (s.topIdx E) (s.topIdx_lt E hne)
    simp only [potential2D]
    omega
  · rename_i hc
    have hc' : (s.nodes2D (aStarIPred E width s)).c = false := by simpa using hc
    split at h
    · split at h
      · simp at h
      · simp only [Step.next.injEq] at h
        subst h
        obtain ⟨c1, c2, c3, -, c5, c6⟩ := aStarClose_inv hinv hne hc'
        obtain ⟨e1, -, -, -, e5, -, e7⟩ :=
          aStarExpand_inv goal c1 c2 (by rw [c3]; exact hreach) Node2D.dir (le_refl _)
        refine ⟨e1, ?_⟩
        have hn := notClosed_congr width height e5
        have e7' : (aStarExpand E width height goal (s.top E) Node2D.dir
            (aStarClose E width s)).O.length ≤ (aStarClose E width s).O.length + 8 := e7
        simp only [potential2D]
        rw [hn]
        omega
    · rename_i ho
      rcases hoc with h1 | h1
      · exact absurd h1 ho
      · exact absurd h1 hc

theorem aStarLoop_terminates {E : Env K} {width height : Int} {goal : Node2D K}
    {a : Int × Int} :
    ∀ (fuel : Nat) (s : Search2D K), Inv2D E width height a s →
      potential2D width height s < fuel →
      ∃ r, aStarLoop E width height goal fuel s = some r := by
  intro fuel
  induction fuel with
  | zero => intro s _ h; exact absurd h (Nat.not_lt_zero _)
  | succ fuel ih =>
    intro s hinv hpot
    simp only [aStarLoop]
    split
    · exact ⟨_, rfl⟩
    · rename_i hO
      have hne : s.O ≠ [] := by
        intro h; rw [h] at hO; simp at hO
      cases hit : aStarIter E width height goal s with
      | next s1 =>
        obtain ⟨h1, h2⟩ := aStarIter_next hinv hne hit
        exact ih s1 h1 (by omega)
      | done r => exact ⟨r, rfl⟩

theorem notClosed_le (width height : Int) (f : Int → Node2D K) :
    notClosed width height f ≤ (width * height).toNat := by
  unfold notClosed
  calc _ ≤ (Finset.Ico (0 : Int) (width * height)).card := Finset.card_filter_le _ _
    _ = (width * height).toNat := by simp

theorem aStarInit_inv (E : Env K) (start goal : Node2D K) (nodes2D : Int → Node2D K)
    {width height : Int} (hs : OnGrid width height start.cell) :
    Inv2D E width height start.cell (aStarInit E start goal nodes2D width height) ∧
      potential2D width height (aStarInit E start goal nodes2D width height)
        ≤ 1 + 8 * (width * height).toNat := by
  have hidx : (((start.updateH E.sqrt goal).markOpen).setIdx width).idx
      = cellIndex width start.cell := rfl
  have hr := cellIndex_range hs
  constructor
  · constructor
    · intro q hq
      left
      simpa [aStarInit] using hq
    · exact ⟨rfl, rfl⟩
    · exact hs
    · left
      simp only [aStarInit, hidx, Function.update_same]
      rfl
    · intro k hk0 hk1 hk
      by_cases hki : k = cellIndex width start.cell
      · subst hki
        have hnode : (aStarInit E start goal nodes2D width height).nodes2D
            (cellIndex width start.cell)
            = ((start.updateH E.sqrt goal).markOpen).setIdx width := by
          simp only [aStarInit, hidx, Function.update_same]
        rw [hnode]
        exact ⟨Or.inr rfl, hs, rfl, rfl, Reachable.refl E width height _⟩
      · simp only [aStarInit, hidx, Function.update_noteq hki, hk0, hk1, and_self, if_true,
          Node2D.reset] at hk
        simp at hk
    · intro k hk0 hk1 hk
      by_cases hki : k = cellIndex width start.cell
      · right
        exact ⟨by simp [aStarInit], hki⟩
      · simp only [aStarInit, hidx, Function.update_noteq hki, hk0, hk1, and_self, if_true,
          Node2D.reset] at hk
        simp at hk
  · have := notClosed_le width height (aStarInit E start goal nodes2D width height).nodes2D
    simp only [potential2D]
    have hl : (aStarInit E start goal nodes2D width height).O.length = 1 := rfl
    omega

/-- Termination of `aStar`: from an on-grid start cell the loop returns within
`1 + 8 * width * height` passes. -/
theorem aStar_terminates (E : Env K) (start goal : Node2D K) (nodes2D : Int → Node2D K)
    {width height : Int} (hs : OnGrid width height start.cell) (fuel : Nat)
    (hfuel : 1 + 8 * (width * height).toNat < fuel) :
    ∃ r, aStar E fuel start goal nodes2D width height = some r := by
  obtain ⟨h1, h2⟩ := aStarInit_inv E start goal nodes2D hs
  exact aStarLoop_terminates fuel _ h1 (by omega)

/-! ## Cost to go -/

theorem updateH2D_terminates (E : Env K) (start goal : Node3D K) (nodes2D : Int → Node2D K)
    {width height : Int} (hg : OnGrid width height (toInt goal.x, toInt goal.y)) (fuel : Nat)
    (hfuel : 1 + 8 * (width * height).toNat < fuel) :
    ∃ nodes, updateH2D E fuel start goal nodes2D width height = some nodes := by
  unfold updateH2D
  split
  · have hg' : OnGrid width height (node2DAt goal.x goal.y).cell := hg
    obtain ⟨r, hr⟩ := aStar_terminates E (node2DAt goal.x goal.y) (node2DAt start.x start.y)
      nodes2D hg' fuel hfuel
    simp only [hr]
    exact ⟨_, rfl⟩
  · exact ⟨_, rfl⟩

/-- C3: with the goal on the grid, `updateH` returns, and it sets the `h` of the
query node (and nothing else of it) to the maximum of three terms: the
reversal-permitting curve length when `Constants::reverse` is set and
`Constants::dubins` is not, else 0; the forward-only curve length when
`Constants::dubins` is set, else 0; and, when `Constants::twoD` is set, the `g`
cached in the 2D slot of the query's cell minus the sub-cell offset, else 0.
The two curve terms are never both computed: one of them is 0 by its flag. -/
theorem updateH_sets_max_of_three (E : Env K) (start goal : Node3D K)
    (nodes2D : Int → Node2D K) (width height : Int)
    (hg : OnGrid width height (toInt goal.x, toInt goal.y)) :
    ∃ N : Nat, ∀ fuel, N ≤ fuel →
      ∃ (q : Node3D K) (nodes : Int → Node2D K),
        updateH E fuel start goal nodes2D width height = some (q, nodes) ∧
        q = start.setH
          (max (if E.reverse = true ∧ E.dubins = false
                  then E.reedsSheppDistance start.pose goal.pose else 0)
            (max (if E.dubins = true then E.dubinsDistance start.pose goal.pose else 0)
              (if E.twoD = true
                then (nodes (toInt start.y * width + toInt start.x)).g
                      - twoDoffset E start goal
                else 0))) ∧
        (reedsSheppCost E start goal = 0 ∨ dubinsCost E start goal = 0) := by
  refine ⟨2 + 8 * (width * height).toNat, fun fuel hfuel => ?_⟩
  obtain ⟨nodes, hn⟩ := updateH2D_terminates E start goal nodes2D hg fuel (by omega)
  refine ⟨start.setH (max (reedsSheppCost E start goal)
      (max (dubinsCost E start goal) (twoDCost E start goal nodes width))), nodes,
    by simp only [updateH, hn], ?_, ?_⟩
  · have h1 : reedsSheppCost E start goal = (if E.reverse = true ∧ E.dubins = false
        then E.reedsSheppDistance start.pose goal.pose else 0) := by
      simp only [reedsSheppCost]
      cases E.reverse <;> cases E.dubins <;> simp
    rw [h1]
    rfl
  · simp only [reedsSheppCost, dubinsCost]
    cases E.dubins <;> simp

/-- C4: when the 2D slot of the query's cell is already marked discovered,
`updateH` returns without running the 2D search (it returns even with no fuel
for the search loop) and leaves the whole 2D grid as it was; a second call with
a query of the same pose and the same goal, on the grid the first call left,
computes the same 2D cost and sets the same `h`. -/
theorem updateH_discovered_is_memoised (E : Env K) (start start2 goal : Node3D K)
    (nodes2D : Int → Node2D K) (width height : Int)
    (hd : (nodes2D (cellIdx start width)).d = true)
    (hpose : start2.pose = start.pose) :
    runs2D E start nodes2D width = false ∧
    ∀ fuel fuel2 : Nat, ∃ q q2 : Node3D K,
      updateH E fuel start goal nodes2D width height = some (q, nodes2D) ∧
      updateH E fuel2 start2 goal nodes2D width height = some (q2, nodes2D) ∧
      twoDCost E start2 goal nodes2D width = twoDCost E start goal nodes2D width ∧
      q2.h = q.h := by
  simp only [Node3D.pose, Prod.mk.injEq] at hpose
  obtain ⟨hx, hy, ht⟩ := hpose
  have hcell : cellIdx start2 width = cellIdx start width := by
    simp only [cellIdx, hx, hy]
  have hr : runs2D E start nodes2D width = false := by
    simp only [runs2D, hd]; simp
  have hr2 : runs2D E start2 nodes2D width = false := by
    simp only [runs2D, hcell, hd]; simp
  have hoff : twoDoffset E start2 goal = twoDoffset E start goal := by
    simp only [twoDoffset, hx, hy]
  have hcost : twoDCost E start2 goal nodes2D width = twoDCost E start goal nodes2D width := by
    simp only [twoDCost, hcell, hoff]
  have hdub : dubinsCost E start2 goal = dubinsCost E start goal := by
    simp only [dubinsCost, Node3D.pose, hx, hy, ht]
  have hrs : reedsSheppCost E start2 goal = reedsSheppCost E start goal := by
    simp only [reedsSheppCost, Node3D.pose, hx, hy, ht]
  refine ⟨hr, fun fuel fuel2 =>
    ⟨start.setH (max (reedsSheppCost E start goal)
      (max (dubinsCost E start goal) (twoDCost E start goal nodes2D width))),
     start2.setH (max (reedsSheppCost E start2 goal)
      (max (dubinsCost E start2 goal) (twoDCost E start2 goal nodes2D width))),
     ?_, ?_, hcost, ?_⟩⟩
  · simp only [updateH, updateH2D, hr, Bool.false_eq_true, if_false]
  · simp only [updateH, updateH2D, hr2, Bool.false_eq_true, if_false]
  · simp only [Node3D.setH, hcost, hdub, hrs]

/-! ## 2D search: the closed list -/

theorem movementCost_candidate (E : Env K) (width : Int) (p : Ptr) (s : Search2D K) (i : Nat) :
    Node2D.movementCost E.sqrt (candidate2D width p s i) (s.deref p) = stepCost E i := by
  simp only [Node2D.movementCost, stepCost, candidate2D, Node2D.setIdx,
    Node2D.createSuccessor, add_sub_cancel_left]

theorem admissible_iff_candidate (E : Env K) (width height : Int) (p : Ptr) (s : Search2D K)
    (i : Nat) (hi : i < Node2D.dir) :
    Admissible E width height (s.deref p).cell i ↔
      ((candidate2D width p s i).isOnGrid width height = true ∧
        E.isTraversable2D (candidate2D width p s i).x (candidate2D width p s i).y = true) := by
  rw [isOnGrid_iff]
  simp only [Admissible, hi, true_and]
  rfl

theorem aStarSucc_explored {E : Env K} {width height : Int} {goal : Node2D K} {p : Ptr}
    {s : Search2D K} {iPred : Int} {j : Nat}
    (hj : j < Node2D.dir)
    (hcell : (s.deref p).cell = (s.nodes2D iPred).cell)
    (hg : (s.deref p).g = (s.nodes2D iPred).g)
    (hex : ExploredExcept E width height goal s iPred j) :
    ExploredExcept E width height goal (aStarSucc E width height goal p s j) iPred (j + 1) := by
  obtain ⟨-, f2, f3, -, -⟩ := aStarSucc_frame E width height goal p s j
  intro k hk0 hk1 hkc
  have hkc' : (s.nodes2D k).c = true := by rw [← f2 k]; exact hkc
  have hknode : (aStarSucc E width height goal p s j).nodes2D k = s.nodes2D k := f3 k hkc'
  obtain ⟨hne, hold⟩ := hex k hk0 hk1 hkc'
  rw [ExploredUpTo, hknode]
  refine ⟨hne, ?_⟩
  intro i hi hadm
  -- the slot of the neighbour, before and after the step
  have hcases := aStarSucc_cases E width height goal p s j
  by_cases hnew : k = iPred ∧ i = j
  · -- the direction processed by this step
    obtain ⟨hk, hij⟩ := hnew
    subst hij
    have hcand : (candidate2D width p s i).idx
        = cellIndex width (moveCell (s.nodes2D k).cell i) := by
      rw [hk, ← hcell]; rfl
    have hadm' : Admissible E width height (s.deref p).cell i := by
      rw [hcell, ← hk]; exact hadm
    obtain ⟨a1, a2⟩ := (admissible_iff_candidate E width height p s i hj).mp hadm'
    rw [← hcand]
    rcases hcases with ⟨heq, hwhy⟩ | ⟨-, -, -, -, n, heq, -, -, -, hno, -, hng, -⟩
    · rw [heq]
      rcases hwhy with h | h | h | ⟨h1, h2⟩
      · rw [a1] at h; exact absurd h (by simp)
      · rw [a2] at h; exact absurd h (by simp)
      · exact Or.inl h
      · right
        refine ⟨h1, ?_⟩
        rw [movementCost_candidate, hg, ← hk] at h2
        exact h2
    · rw [heq]
      right
      simp only [Function.update_same]
      refine ⟨hno, ?_⟩
      rw [hng, movementCost_candidate, hg, ← hk]
  · -- a direction processed earlier
    have hi' : i < (if k = iPred then j else Node2D.dir) := by
      by_cases hk : k = iPred
      · rw [if_pos hk] at hi ⊢
        have : i ≠ j := fun h => hnew ⟨hk, h⟩
        omega
      · rw [if_neg hk] at hi ⊢
        exact hi
    have hprev := hold i hi' hadm
    rcases hcases with ⟨heq, -⟩ | ⟨-, -, hc, hacc, n, heq, -, -, -, hno, -, hng, -⟩
    · rw [heq]; exact hprev
    · rw [heq]
      by_cases hki : cellIndex width (moveCell (s.nodes2D k).cell i)
          = (candidate2D width p s j).idx
      · dsimp only
        rw [hki, Function.update_same]
        rw [hki] at hprev
        right
        refine ⟨hno, ?_⟩
        rcases hprev with h | ⟨h1, h2⟩
        · rw [hc] at h; exact absurd h (by simp)
        · rcases hacc with h | h
          · rw [h1] at h; exact absurd h (by simp)
          · rw [hng]
            exact le_trans (le_of_lt h) h2
      · dsimp only
        rw [Function.update_noteq hki]
        exact hprev

theorem aStarExpand_explored {E : Env K} {width height : Int} (goal : Node2D K) {p : Ptr}
    {s : Search2D K} {a : Int × Int} (iPred : Int)
    (hinv : Inv2D E width height a s)
    (hp : p = Ptr.start ∨ ∃ k : Int, p = Ptr.slot k ∧ (s.nodes2D k).c = true)
    (hr : Reachable E width height a (s.deref p).cell)
    (hc : (s.nodes2D iPred).c = true)
    (hcell : (s.deref p).cell = (s.nodes2D iPred).cell)
    (hg : (s.deref p).g = (s.nodes2D iPred).g)
    (hex : ExploredExcept E width height goal s iPred 0) :
    ∀ n, n ≤ Node2D.dir →
      ExploredExcept E width height goal (aStarExpand E width height goal p n s) iPred n := by
  intro n
  induction n with
  | zero => intro _; exact hex
  | succ n ih =>
    intro hn
    obtain ⟨-, e2, -, -, -, e6, -⟩ :=
      aStarExpand_inv goal hinv hp hr n (Nat.le_of_succ_le hn)
    rw [aStarExpand_succ]
    apply aStarSucc_explored hn
    · rw [e2, e6 iPred hc]; exact hcell
    · rw [e2, e6 iPred hc]; exact hg
    · exact ih (Nat.le_of_succ_le hn)

theorem aStarSucc_start_not_mem {E : Env K} {width height : Int} {goal : Node2D K} {p : Ptr}
    {s : Search2D K} {i : Nat} (h : Ptr.start ∉ s.O) :
    Ptr.start ∉ (aStarSucc E width height goal p s i).O := by
  rcases aStarSucc_cases E width height goal p s i with ⟨heq, -⟩ | ⟨-, -, -, -, n, heq, -⟩
  · rw [heq]; exact h
  · rw [heq]
    intro hmem
    rcases List.mem_append.mp hmem with h1 | h1
    · exact h h1
    · simp at h1

theorem aStarExpand_start_not_mem {E : Env K} {width height : Int} {goal : Node2D K}
    {p : Ptr} {s : Search2D K} (h : Ptr.start ∉ s.O) :
    ∀ n, Ptr.start ∉ (aStarExpand E width height goal p n s).O := by
  intro n
  induction n with
  | zero => exact h
  | succ n ih =>
    rw [aStarExpand_succ]
    exact aStarSucc_start_not_mem ih

theorem start_not_mem_after_pop {E : Env K} {width : Int} {a : Int × Int} {s : Search2D K}
    (hst : StartInv width a s) (hne : s.O ≠ []) :
    Ptr.start ∉ s.O.eraseIdx (s.topIdx E) := by
  by_cases h : Ptr.start ∈ s.O
  · obtain ⟨hO, -⟩ := hst h
    have hlt := s.topIdx_lt E hne
    rw [hO] at hlt ⊢
    have h0 : s.topIdx E = 0 := by
      simp only [List.length_singleton] at hlt
      omega
    rw [h0]
    simp
  · intro hmem
    exact h (List.mem_of_mem_eraseIdx hmem)

theorem aStar_top_g {E : Env K} {width height : Int} {a : Int × Int} {s : Search2D K}
    (hinv : Inv2D E width height a s) (hst : StartInv width a s) (hne : s.O ≠ []) :
    (s.deref (s.top E)).g = (s.nodes2D (aStarIPred E width s)).g := by
  obtain ⟨-, -, -, htop, -, -⟩ := aStar_top_facts hinv hne
  rcases htop with ⟨hp, hip⟩ | hp
  · have hmem : Ptr.start ∈ s.O := hp ▸ s.top_mem E hne
    rw [hp, hip, (hst hmem).2]
    rfl
  · rw [hp]; rfl

theorem aStarClose_explored {E : Env K} {width height : Int} {goal : Node2D K}
    {a : Int × Int} {s : Search2D K}
    (hinv : Inv2D E width height a s) (hne : s.O ≠ [])
    (hex : Explored E width height goal s)
    (hgoal : ((aStarClose E width s).deref (s.top E)).equals goal = false) :
    ExploredExcept E width height goal (aStarClose E width s) (aStarIPred E width s) 0 := by
  obtain ⟨-, ⟨hr0, hr1⟩, hoc, htop, hcell, -⟩ := aStar_top_facts hinv hne
  have hsame : (aStarClose E width s).nodes2D (aStarIPred E width s)
      = (s.nodes2D (aStarIPred E width s)).close.discover := by
    rw [aStarClose_eq hinv hne]
    exact Function.update_same _ _ _
  have hupd : ∀ k, k ≠ aStarIPred E width s →
      (aStarClose E width s).nodes2D k = s.nodes2D k := by
    intro k hk
    rw [aStarClose_eq hinv hne]
    exact Function.update_noteq hk _ _
  have hdcell : ((aStarClose E width s).deref (s.top E)).cell
      = (s.nodes2D (aStarIPred E width s)).cell := by
    rw [← hcell]
    rcases htop with ⟨hp, -⟩ | hp
    · rw [hp, aStarClose_eq hinv hne]; rfl
    · rw [hp]
      simp only [Search2D.deref]
      rw [hsame]; rfl
  intro k hk0 hk1 hkc
  by_cases hki : k = aStarIPred E width s
  · subst hki
    rw [if_pos rfl]
    refine ⟨?_, fun i hi _ => absurd hi (Nat.not_lt_zero i)⟩
    rw [hsame]
    intro heq
    have hc : (s.nodes2D (aStarIPred E width s)).cell = goal.cell := heq
    rw [← hdcell] at hc
    simp only [Node2D.equals, Bool.and_eq_false_imp, decide_eq_true_eq,
      decide_eq_false_iff_not] at hgoal
    simp only [Node2D.cell, Prod.mk.injEq] at hc
    exact hgoal hc.1 hc.2
  · rw [if_neg hki]
    rw [hupd k hki] at hkc
    obtain ⟨h1, h2⟩ := hex k hk0 hk1 hkc
    rw [ExploredUpTo, hupd k hki]
    refine ⟨h1, ?_⟩
    intro i hi hadm
    by_cases hni : cellIndex width (moveCell (s.nodes2D k).cell i) = aStarIPred E width s
    · left
      rw [hni, hsame]; rfl
    · rw [hupd _ hni]
      exact h2 i hi hadm

/-- One continuing pass of the loop of `aStar` keeps all invariants and lowers
the bound on the remaining passes. -/
theorem aStarIter_next_explored {E : Env K} {width height : Int} {goal : Node2D K}
    {a : Int × Int} {s s' : Search2D K}
    (hinv : Inv2D E width height a s) (hst : StartInv width a s)
    (hex : Explored E width height goal s) (hne : s.O ≠ [])
    (h : aStarIter E width height goal s = Step.next s') :
    StartInv width a s' ∧ Explored E width height goal s' := by
  obtain ⟨hent, ⟨hr0, hr1⟩, hoc, htop, hcell, hreach⟩ := aStar_top_facts hinv hne
  have hpop := start_not_mem_after_pop (E := E) hst hne
  unfold aStarIter at h
  simp only [hent] at h
  split at h
  · simp only [Step.next.injEq] at h
    subst h
    exact ⟨fun hmem => absurd hmem hpop, hex⟩
  · rename_i hc
    have hc' : (s.nodes2D (aStarIPred E width s)).c = false := by simpa using hc
    split at h
    · split at h
      · simp at h
      · rename_i hgoal
        simp only [Step.next.injEq] at h
        subst h
        obtain ⟨c1, c2, c3, c4, -, -⟩ := aStarClose_inv hinv hne hc'
        have hO : (aStarClose E width s).O = s.O.eraseIdx (s.topIdx E) := by
          rw [aStarClose_eq hinv hne]
        have hsame : (aStarClose E width s).nodes2D (aStarIPred E width s)
            = (s.nodes2D (aStarIPred E width s)).close.discover := by
          rw [aStarClose_eq hinv hne]
          exact Function.update_same _ _ _
        refine ⟨fun hmem => absurd hmem
          (aStarExpand_start_not_mem (by rw [hO]; exact hpop) _), ?_⟩
        have hx := aStarExpand_explored goal (aStarIPred E width s)
          c1 c2 (by rw [c3]; exact hreach) (by rw [hsame]; rfl)
          (by rw [c3, hsame]; exact hcell)
          (by rw [c4, hsame]; exact aStar_top_g hinv hst hne)
          (aStarClose_explored hinv hne hex (by simpa using hgoal)) Node2D.dir (le_refl _)
        intro k hk0 hk1 hkc
        have := hx k hk0 hk1 hkc
        simpa using this
    · rename_i ho
      rcases hoc with h1 | h1
      · exact absurd h1 ho
      · exact absurd h1 hc

/-! ## 2D search: what the two exits mean -/

theorem closed_of_walk {E : Env K} {width height : Int} {goal : Node2D K} {a : Int × Int}
    {s : Search2D K} (hinv : Inv2D E width height a s)
    (hex : Explored E width height goal s) (hO : s.O = []) :
    ∀ (path : List Nat) (c b : Int × Int), OnGrid width height c →
      (s.nodes2D (cellIndex width c)).c = true → (s.nodes2D (cellIndex width c)).cell = c →
      walk E width height c path = some b →
      (s.nodes2D (cellIndex width b)).c = true ∧ (s.nodes2D (cellIndex width b)).cell = b
        ∧ OnGrid width height b := by
  intro path
  induction path with
  | nil =>
    intro c b hgrid hc hcell hw
    simp only [walk, Option.some.injEq] at hw
    subst hw
    exact ⟨hc, hcell, hgrid⟩
  | cons i path ih =>
    intro c b hgrid hc hcell hw
    simp only [walk] at hw
    split at hw
    · rename_i hadm
      obtain ⟨hi, hg', ht⟩ := hadm
      have hg : OnGrid width height (moveCell c i) := hg'
      have hr := cellIndex_range hgrid
      have hr' := cellIndex_range hg
      obtain ⟨-, hall⟩ := hex _ hr.1 hr.2 hc
      rw [hcell] at hall
      have hnb := hall i hi ⟨hi, hg, ht⟩
      have hclosed : (s.nodes2D (cellIndex width (moveCell c i))).c = true := by
        rcases hnb with h | ⟨h, -⟩
        · exact h
        · rcases hinv.queued _ hr'.1 hr'.2 h with h1 | ⟨h1, -⟩
          · rw [hO] at h1; simp at h1
          · rw [hO] at h1; simp at h1
      obtain ⟨-, hg2, hci, -, -⟩ := hinv.slots _ hr'.1 hr'.2 (Or.inr hclosed)
      exact ih _ _ hg hclosed (cellIndex_inj hg2 hg hci) hw
    · simp at hw

theorem unreachable_of_empty {E : Env K} {width height : Int} {goal : Node2D K}
    {a : Int × Int} {s : Search2D K} (hinv : Inv2D E width height a s)
    (hex : Explored E width height goal s) (hO : s.O = []) :
    ¬ Reachable E width height a goal.cell := by
  rintro ⟨path, hw⟩
  have hr := cellIndex_range hinv.startGrid
  have hclosed : (s.nodes2D (cellIndex width a)).c = true := by
    rcases hinv.startSlot with h | h
    · rcases hinv.queued _ hr.1 hr.2 h with h1 | ⟨h1, -⟩
      · rw [hO] at h1; simp at h1
      · rw [hO] at h1; simp at h1
    · exact h
  obtain ⟨-, hg2, hci, -, -⟩ := hinv.slots _ hr.1 hr.2 (Or.inr hclosed)
  have hcell := cellIndex_inj hg2 hinv.startGrid hci
  obtain ⟨h1, h2, hgr⟩ :=
    closed_of_walk hinv hex hO path a goal.cell hinv.startGrid hclosed hcell hw
  have hr' := cellIndex_range hgr
  exact (hex _ hr'.1 hr'.2 h1).1 h2

theorem aStarIter_done {E : Env K} {width height : Int} {goal : Node2D K} {a : Int × Int}
    {s : Search2D K} {r : Result2D K}
    (hinv : Inv2D E width height a s) (hst : StartInv width a s) (hne : s.O ≠ [])
    (h : aStarIter E width height goal s = Step.done r) :
    r.exit = Exit2D.goal ∧ Reachable E width height a goal.cell ∧
    r.value = (r.nodes2D (cellIndex width goal.cell)).g ∧
    (r.nodes2D (cellIndex width goal.cell)).c = true ∧
    (r.nodes2D (cellIndex width goal.cell)).d = true ∧
    (r.nodes2D (cellIndex width goal.cell)).cell = goal.cell := by
  obtain ⟨hent, ⟨hr0, hr1⟩, hoc, htop, hcell, hreach⟩ := aStar_top_facts hinv hne
  unfold aStarIter at h
  simp only [hent] at h
  split at h
  · simp at h
  · rename_i hc
    have hc' : (s.nodes2D (aStarIPred E width s)).c = false := by simpa using hc
    split at h
    · split at h
      · rename_i hgoal
        simp only [Step.done.injEq] at h
        subst h
        obtain ⟨-, -, c3, c4, -, -⟩ := aStarClose_inv hinv hne hc'
        have hsame : (aStarClose E width s).nodes2D (aStarIPred E width s)
            = (s.nodes2D (aStarIPred E width s)).close.discover := by
          rw [aStarClose_eq hinv hne]
          exact Function.update_same _ _ _
        have hgc : (s.deref (s.top E)).cell = goal.cell := by
          rw [← c3]
          simp only [Node2D.equals, Bool.and_eq_true, decide_eq_true_eq] at hgoal
          exact Prod.ext hgoal.1 hgoal.2
        obtain ⟨-, -, hci, -, -⟩ := hinv.slots _ hr0 hr1 hoc
        have hidx : cellIndex width goal.cell = aStarIPred E width s := by
          rw [← hgc, hcell]; exact hci
        refine ⟨rfl, by rw [← hgc]; exact hreach, ?_, ?_, ?_, ?_⟩
        · show ((aStarClose E width s).deref (s.top E)).g
            = ((aStarClose E width s).nodes2D (cellIndex width goal.cell)).g
          rw [c4, hidx, hsame]
          exact aStar_top_g hinv hst hne
        · show ((aStarClose E width s).nodes2D _).c = true
          rw [hidx, hsame]; rfl
        · show ((aStarClose E width s).nodes2D _).d = true
          rw [hidx, hsame]; rfl
        · show ((aStarClose E width s).nodes2D _).cell = _
          rw [hidx, hsame, ← hgc, hcell]; rfl
      · simp at h
    · simp at h

theorem aStarLoop_exits {E : Env K} {width height : Int} {goal : Node2D K} {a : Int × Int} :
    ∀ (fuel : Nat) (s : Search2D K) (r : Result2D K),
      Inv2D E width height a s → StartInv width a s → Explored E width height goal s →
      aStarLoop E width height goal fuel s = some r →
      (r.exit = Exit2D.sentinel ∧ r.value = 1000 ∧ ¬ Reachable E width height a goal.cell
        ∧ ∃ n s', aStarRun E width height goal n s = some s' ∧ s'.O = []
            ∧ r.nodes2D = s'.nodes2D)
      ∨ (r.exit = Exit2D.goal ∧ Reachable E width height a goal.cell ∧
          r.value = (r.nodes2D (cellIndex width goal.cell)).g ∧
          (r.nodes2D (cellIndex width goal.cell)).c = true ∧
          (r.nodes2D (cellIndex width goal.cell)).d = true ∧
          (r.nodes2D (cellIndex width goal.cell)).cell = goal.cell) := by
  intro fuel
  induction fuel with
  | zero => intro s r _ _ _ h; simp [aStarLoop] at h
  | succ fuel ih =>
    intro s r hinv hst hex h
    simp only [aStarLoop] at h
    split at h
    · rename_i hO
      simp only [Option.some.injEq] at h
      subst h
      have hO' : s.O = [] := List.isEmpty_iff.mp hO
      exact Or.inl ⟨rfl, rfl, unreachable_of_empty hinv hex hO', 0, s, rfl, hO', rfl⟩
    · rename_i hO
      have hne : s.O ≠ [] := by
        intro h'; rw [h'] at hO; simp at hO
      split at h
      · rename_i s1 hit
        obtain ⟨i1, -⟩ := aStarIter_next hinv hne hit
        obtain ⟨i2, i3⟩ := aStarIter_next_explored hinv hst hex hne hit
        rcases ih s1 r i1 i2 i3 h with ⟨h1, h2, h3, n, s', h4, h5, h6⟩ | h1
        · refine Or.inl ⟨h1, h2, h3, n + 1, s', ?_, h5, h6⟩
          simp only [aStarRun, hO, Bool.false_eq_true, if_false, hit]
          exact h4
        · exact Or.inr h1
      · rename_i r1 hit
        simp only [Option.some.injEq] at h
        subst h
        exact Or.inr (aStarIter_done hinv hst hne hit)

theorem aStarInit_explored (E : Env K) (start goal : Node2D K) (nodes2D : Int → Node2D K)
    (width height : Int) :
    StartInv width start.cell (aStarInit E start goal nodes2D width height) ∧
      Explored E width height goal (aStarInit E start goal nodes2D width height) := by
  have hidx : (((start.updateH E.sqrt goal).markOpen).setIdx width).idx
      = cellIndex width start.cell := rfl
  constructor
  · intro _
    refine ⟨rfl, ?_⟩
    simp only [aStarInit, hidx, Function.update_same]
  · intro k hk0 hk1 hk
    by_cases hki : k = cellIndex width start.cell
    · subst hki
      simp only [aStarInit, hidx, Function.update_same] at hk
      simp [Node2D.setIdx, Node2D.markOpen] at hk
    · simp only [aStarInit, hidx, Function.update_noteq hki, hk0, hk1, and_self, if_true,
        Node2D.reset] at hk
      simp at hk

/-- C2: from an on-grid start cell `aStar` returns.  When the goal cell is not
reachable through on-grid, traversable, 8-connected moves it returns by the
`return 1000` after the loop, which it reaches with the heap empty; when the
goal cell is reachable it returns by the goal test, and the value is the `g`
of the popped goal node, whose slot is closed and discovered. -/
theorem aStar_sentinel_iff_unreachable (E : Env K) (start goal : Node2D K)
    (nodes2D : Int → Node2D K) (width height : Int)
    (hs : OnGrid width height start.cell) :
    ∃ N : Nat, ∀ fuel, N ≤ fuel →
      ∃ r, aStar E fuel start goal nodes2D width height = some r ∧
        (¬ Reachable E width height start.cell goal.cell →
          r.exit = Exit2D.sentinel ∧ r.value = 1000 ∧
          ∃ n s', aStarRun E width height goal n
              (aStarInit E start goal nodes2D width height) = some s'
            ∧ s'.O = [] ∧ r.nodes2D = s'.nodes2D) ∧
        (Reachable E width height start.cell goal.cell →
          r.exit = Exit2D.goal ∧
          r.value = (r.nodes2D (cellIndex width goal.cell)).g ∧
          (r.nodes2D (cellIndex width goal.cell)).cell = goal.cell ∧
          (r.nodes2D (cellIndex width goal.cell)).c = true ∧
          (r.nodes2D (cellIndex width goal.cell)).d = true) := by
  refine ⟨2 + 8 * (width * height).toNat, fun fuel hfuel => ?_⟩
  obtain ⟨r, hr⟩ := aStar_terminates E start goal nodes2D hs fuel (by omega)
  obtain ⟨i1, -⟩ := aStarInit_inv E start goal nodes2D hs
  obtain ⟨i2, i3⟩ := aStarInit_explored E start goal nodes2D width height
  refine ⟨r, hr, ?_, ?_⟩
  · intro hun
    rcases aStarLoop_exits fuel _ r i1 i2 i3 hr with ⟨h1, h2, -, h4⟩ | ⟨-, h2, -⟩
    · exact ⟨h1, h2, h4⟩
    · exact absurd h2 hun
  · intro hre
    rcases aStarLoop_exits fuel _ r i1 i2 i3 hr with ⟨-, -, h3, -⟩ | ⟨h1, -, h3, h4, h5, h6⟩
    · exact absurd hre h3
    · exact ⟨h1, h3, h6, h4, h5⟩

/-! ## 2D search: optimality of the closed list -/

theorem pathCostE_append (E : Env K) (p q : List Nat) :
    pathCostE E (p ++ q) = pathCostE E p + pathCostE E q := by
  induction p with
  | nil => simp [pathCostE]
  | cons i p ih =>
    show stepCost E i + pathCostE E (p ++ q) = stepCost E i + pathCostE E p + pathCostE E q
    rw [ih, add_assoc]

theorem pathCostE_nonneg {E : Env K} (h : ∀ i, 0 ≤ stepCost E i) (p : List Nat) :
    0 ≤ pathCostE E p := by
  induction p with
  | nil => simp [pathCostE]
  | cons i p ih => simp only [pathCostE]; exact add_nonneg (h i) ih

theorem heuristic_walk {E : Env K} {width height : Int} {goal : Node2D K}
    (hcons : Consistent E goal) :
    ∀ (path : List Nat) (c b : Int × Int), walk E width height c path = some b →
      heuristic E goal c ≤ pathCostE E path + heuristic E goal b := by
  intro path
  induction path with
  | nil =>
    intro c b hw
    simp only [walk, Option.some.injEq] at hw
    subst hw
    simp [pathCostE]
  | cons i path ih =>
    intro c b hw
    simp only [walk] at hw
    split at hw
    · have h1 := hcons.2 c i
      have h2 := ih _ _ hw
      simp only [pathCostE]
      linarith
    · simp at hw

theorem Search2D.top_min {E : Env K} {s : Search2D K} (htop : MinTop E.top2D)
    (hne : s.O ≠ []) :
    ∀ q ∈ s.O, (s.deref (s.top E)).getC ≤ (s.deref q).getC := by
  intro q hq
  have hk : s.keys ≠ [] := by simpa [Search2D.keys] using hne
  obtain ⟨h1, h2⟩ := htop s.keys hk
  have hpos : s.topIdx E = E.top2D s.keys := by
    simp only [Search2D.topIdx, topPos, h1, if_true]
  have hlen : s.keys.length = s.O.length := by simp [Search2D.keys]
  have hlt : E.top2D s.keys < s.O.length := hlen ▸ h1
  have hkey : s.keys.getD (E.top2D s.keys) 0 = (s.deref (s.top E)).getC := by
    rw [List.getD_eq_getElem _ _ h1]
    simp only [Search2D.keys, List.getElem_map, Search2D.top, hpos]
    have hlt' : E.top2D (List.map (fun p => (s.deref p).getC) s.O) < s.O.length := hlt
    rw [List.getD_eq_getElem _ _ hlt']
  rw [← hkey]
  apply h2
  simp only [Search2D.keys, List.mem_map]
  exact ⟨q, hq, rfl⟩

/-- Along any admissible path that leaves the closed list, the heap holds an
entry whose key is not above the cost of the path plus the heuristic at its
end. -/
theorem frontier_bound {E : Env K} {width height : Int} {goal : Node2D K} {a : Int × Int}
    {s : Search2D K} (hinv : Inv2D E width height a s) (hst : StartInv width a s)
    (hex : Explored E width height goal s) (hcost : CostInv E width height goal a s)
    (hcons : Consistent E goal) :
    ∀ (path pre : List Nat) (c b : Int × Int),
      walk E width height a pre = some c → OnGrid width height c →
      (s.nodes2D (cellIndex width c)).c = true → (s.nodes2D (cellIndex width c)).cell = c →
      walk E width height c path = some b →
      (s.nodes2D (cellIndex width b)).c = false →
      ∃ q ∈ s.O, (s.deref q).getC
        ≤ s.start.g + pathCostE E pre + pathCostE E path + heuristic E goal b := by
  intro path
  induction path with
  | nil =>
    intro pre c b _ _ hc _ hw hb
    simp only [walk, Option.some.injEq] at hw
    subst hw
    rw [hc] at hb
    exact absurd hb (by simp)
  | cons i path ih =>
    intro pre c b hpre hgrid hc hcell hw hb
    simp only [walk] at hw
    split at hw
    · rename_i hadm
      obtain ⟨hi, hg', ht⟩ := hadm
      have hg : OnGrid width height (moveCell c i) := hg'
      have hr := cellIndex_range hgrid
      have hr' := cellIndex_range hg
      obtain ⟨-, hall⟩ := hex _ hr.1 hr.2 hc
      rw [hcell] at hall
      have hpre' : walk E width height a (pre ++ [i]) = some (moveCell c i) :=
        walk_snoc E width height pre a c i hpre hi hg ht
      have hcostpre : pathCostE E (pre ++ [i]) = pathCostE E pre + stepCost E i := by
        rw [pathCostE_append]; simp [pathCostE]
      rcases hall i hi ⟨hi, hg, ht⟩ with hcl | ⟨hop, hgb⟩
      · obtain ⟨-, hg2, hci, -, -⟩ := hinv.slots _ hr'.1 hr'.2 (Or.inr hcl)
        obtain ⟨q, hq, hqk⟩ := ih (pre ++ [i]) _ _ hpre' hg hcl (cellIndex_inj hg2 hg hci) hw hb
        refine ⟨q, hq, ?_⟩
        rw [hcostpre] at hqk
        simp only [pathCostE]
        linarith
      · obtain ⟨-, hg2, hci, -, -⟩ := hinv.slots _ hr'.1 hr'.2 (Or.inl hop)
        have hcell' : (s.nodes2D (cellIndex width (moveCell c i))).cell = moveCell c i :=
          cellIndex_inj hg2 hg hci
        have hh := hcost.hval _ hr'.1 hr'.2 (Or.inl hop)
        rw [hcell'] at hh
        have hgc := hcost.opt _ hr.1 hr.2 hc pre (by rw [hcell]; exact hpre)
        have hpath := heuristic_walk hcons path _ _ hw
        have hkey : (s.nodes2D (cellIndex width (moveCell c i))).getC
            ≤ s.start.g + pathCostE E pre + pathCostE E (i :: path) + heuristic E goal b := by
          simp only [Node2D.getC, pathCostE, hh]
          linarith
        rcases hinv.queued _ hr'.1 hr'.2 hop with hq | ⟨hq, hk0⟩
        · exact ⟨_, hq, hkey⟩
        · refine ⟨Ptr.start, hq, ?_⟩
          have hd : (s.deref Ptr.start).getC
              = (s.nodes2D (cellIndex width (moveCell c i))).getC := by
            simp only [Search2D.deref]
            rw [hk0, (hst hq).2]
          rw [hd]
          exact hkey
    · simp at hw

/-- The node popped for expansion has the least cost-so-far of its cell. -/
theorem popped_optimal {E : Env K} {width height : Int} {goal : Node2D K} {a : Int × Int}
    {s : Search2D K} (hinv : Inv2D E width height a s) (hst : StartInv width a s)
    (hex : Explored E width height goal s) (hcost : CostInv E width height goal a s)
    (hcons : Consistent E goal) (htop : MinTop E.top2D) (hne : s.O ≠ [])
    (hnc : (s.nodes2D (aStarIPred E width s)).c = false) :
    ∀ path, walk E width height a path = some (s.nodes2D (aStarIPred E width s)).cell →
      (s.nodes2D (aStarIPred E width s)).g ≤ s.start.g + pathCostE E path := by
  intro path hw
  obtain ⟨-, ⟨hr0, hr1⟩, hoc, htopf, hcell, -⟩ := aStar_top_facts hinv hne
  have hra := cellIndex_range hinv.startGrid
  have hg := aStar_top_g hinv hst hne
  by_cases hsc : (s.nodes2D (cellIndex width a)).c = true
  · obtain ⟨-, hg2, hci, -, -⟩ := hinv.slots _ hra.1 hra.2 (Or.inr hsc)
    have hacell := cellIndex_inj hg2 hinv.startGrid hci
    obtain ⟨-, -, hci', -, -⟩ := hinv.slots _ hr0 hr1 hoc
    obtain ⟨q, hq, hqk⟩ := frontier_bound hinv hst hex hcost hcons path [] a _ rfl
      hinv.startGrid hsc hacell hw (by rw [hci']; exact hnc)
    have hmin := Search2D.top_min htop hne q hq
    have hh : (s.deref (s.top E)).h = heuristic E goal (s.nodes2D (aStarIPred E width s)).cell := by
      rcases htopf with ⟨hp, hip⟩ | hp
      · rw [← hcell, hp]
        simp only [Search2D.deref]
        rw [hinv.startCell.1]
        exact hcost.startH
      · rw [hp]
        exact hcost.hval _ hr0 hr1 hoc
    simp only [Node2D.getC] at hmin hqk
    rw [hg, hh] at hmin
    simp only [pathCostE] at hqk
    linarith
  · have hmem : Ptr.start ∈ s.O := by
      by_contra hn
      exact hsc (hcost.startClosed hn)
    obtain ⟨hO, hnode⟩ := hst hmem
    have htp : s.top E = Ptr.start := by
      have := s.top_mem E hne
      rw [hO] at this
      simpa using this
    rw [← hg, htp]
    simp only [Search2D.deref]
    have := pathCostE_nonneg hcons.1 path
    linarith

theorem aStarSucc_cost {E : Env K} {width height : Int} {goal : Node2D K} {p : Ptr}
    {s : Search2D K} {i : Nat} {a : Int × Int}
    (hcost : CostInv E width height goal a s) (hi : i < Node2D.dir)
    (hdp : ∃ path, walk E width height a path = some (s.deref p).cell
      ∧ (s.deref p).g = s.start.g + pathCostE E path) :
    CostInv E width height goal a (aStarSucc E width height goal p s i) := by
  rcases aStarSucc_cases E width height goal p s i with ⟨h, -⟩ |
    ⟨hg, ht, hc, -, n, h, hnx, hny, -, hno, hnc, hng, hnh⟩
  · rw [h]; exact hcost
  · rw [h]
    have hcell : n.cell = moveCell (s.deref p).cell i := by
      simp only [Node2D.cell, hnx, hny]
      rfl
    have hgrid : OnGrid width height (moveCell (s.deref p).cell i) :=
      (isOnGrid_iff _ width height).mp hg
    constructor
    · exact hcost.startH
    · intro k hk0 hk1 hk
      by_cases hki : k = (candidate2D width p s i).idx
      · subst hki
        dsimp only
        rw [Function.update_same, hnh]
        simp only [Node2D.movementCost, heuristic, Node2D.cell, hnx, hny]
      · dsimp only at hk ⊢
        rw [Function.update_noteq hki] at hk ⊢
        exact hcost.hval k hk0 hk1 hk
    · intro k hk0 hk1 hk
      by_cases hki : k = (candidate2D width p s i).idx
      · subst hki
        dsimp only
        rw [Function.update_same, hcell]
        obtain ⟨path, hp1, hp2⟩ := hdp
        refine ⟨path ++ [i], walk_snoc E width height path a _ i hp1 hi hgrid ht, ?_⟩
        rw [hng, movementCost_candidate, hp2, pathCostE_append]
        simp only [pathCostE]
        ring
      · dsimp only at hk ⊢
        rw [Function.update_noteq hki] at hk ⊢
        exact hcost.gpath k hk0 hk1 hk
    · intro k hk0 hk1 hk
      by_cases hki : k = (candidate2D width p s i).idx
      · subst hki
        dsimp only at hk
        rw [Function.update_same, hnc] at hk
        exact absurd hk (by simp)
      · dsimp only at hk ⊢
        rw [Function.update_noteq hki] at hk ⊢
        exact hcost.opt k hk0 hk1 hk
    · intro hmem
      have hmem' : Ptr.start ∉ s.O := fun hm => hmem (List.mem_append_left _ hm)
      have hcl := hcost.startClosed hmem'
      by_cases hki : cellIndex width a = (candidate2D width p s i).idx
      · rw [hki, hc] at hcl
        exact absurd hcl (by simp)
      · dsimp only
        rw [Function.update_noteq hki]
        exact hcl

theorem aStarExpand_cost {E : Env K} {width height : Int} {goal : Node2D K} {p : Ptr}
    {s : Search2D K} {a : Int × Int}
    (hinv : Inv2D E width height a s)
    (hp : p = Ptr.start ∨ ∃ k : Int, p = Ptr.slot k ∧ (s.nodes2D k).c = true)
    (hr : Reachable E width height a (s.deref p).cell)
    (hcost : CostInv E width height goal a s)
    (hdp : ∃ path, walk E width height a path = some (s.deref p).cell
      ∧ (s.deref p).g = s.start.g + pathCostE E path) :
    ∀ n, n ≤ Node2D.dir →
      CostInv E width height goal a (aStarExpand E width height goal p n s) := by
  intro n
  induction n with
  | zero => intro _; exact hcost
  | succ n ih =>
    intro hn
    obtain ⟨-, e2, -, e4, -, -, -⟩ :=
      aStarExpand_inv goal hinv hp hr n (Nat.le_of_succ_le hn)
    rw [aStarExpand_succ]
    apply aStarSucc_cost (ih (Nat.le_of_succ_le hn)) hn
    rw [e2, e4]
    exact hdp

theorem aStarPop_cost {E : Env K} {width height : Int} {goal : Node2D K} {a : Int × Int}
    {s : Search2D K} (hinv : Inv2D E width height a s) (hst : StartInv width a s)
    (hcost : CostInv E width height goal a s) (hne : s.O ≠ [])
    (hc : (s.nodes2D (aStarIPred E width s)).c = true) :
    CostInv E width height goal a { s with O := s.O.eraseIdx (s.topIdx E) } := by
  obtain ⟨-, -, -, htop, -, -⟩ := aStar_top_facts hinv hne
  refine ⟨hcost.startH, hcost.hval, hcost.gpath, hcost.opt, ?_⟩
  intro _
  rcases htop with ⟨-, hip⟩ | hp
  · rw [← hip]; exact hc
  · apply hcost.startClosed
    intro hmem
    obtain ⟨hO, -⟩ := hst hmem
    have := s.top_mem E hne
    rw [hO, hp] at this
    simp at this

theorem aStarClose_cost {E : Env K} {width height : Int} {goal : Node2D K} {a : Int × Int}
    {s : Search2D K} (hinv : Inv2D E width height a s) (hst : StartInv width a s)
    (hex : Explored E width height goal s) (hcost : CostInv E width height goal a s)
    (hcons : Consistent E goal) (htop : MinTop E.top2D) (hne : s.O ≠ [])
    (hnc : (s.nodes2D (aStarIPred E width s)).c = false) :
    CostInv E width height goal a (aStarClose E width s) := by
  obtain ⟨-, ⟨hr0, hr1⟩, hoc, htopf, -, -⟩ := aStar_top_facts hinv hne
  have hopt := popped_optimal hinv hst hex hcost hcons htop hne hnc
  have hsame : (aStarClose E width s).nodes2D (aStarIPred E width s)
      = (s.nodes2D (aStarIPred E width s)).close.discover := by
    rw [aStarClose_eq hinv hne]
    exact Function.update_same _ _ _
  have hupd : ∀ k, k ≠ aStarIPred E width s →
      (aStarClose E width s).nodes2D k = s.nodes2D k := by
    intro k hk
    rw [aStarClose_eq hinv hne]
    exact Function.update_noteq hk _ _
  have hstart : (aStarClose E width s).start = s.start := by
    rw [aStarClose_eq hinv hne]
  constructor
  · rw [hstart]; exact hcost.startH
  · intro k hk0 hk1 hk
    by_cases hki : k = aStarIPred E width s
    · subst hki
      rw [hsame]
      exact hcost.hval _ hr0 hr1 hoc
    · rw [hupd k hki] at hk ⊢
      exact hcost.hval k hk0 hk1 hk
  · intro k hk0 hk1 hk
    rw [hstart]
    by_cases hki : k = aStarIPred E width s
    · subst hki
      rw [hsame]
      exact hcost.gpath _ hr0 hr1 hoc
    · rw [hupd k hki] at hk ⊢
      exact hcost.gpath k hk0 hk1 hk
  · intro k hk0 hk1 hk
    rw [hstart]
    by_cases hki : k = aStarIPred E width s
    · subst hki
      rw [hsame]
      exact hopt
    · rw [hupd k hki] at hk ⊢
      exact hcost.opt k hk0 hk1 hk
  · intro _
    rcases htopf with ⟨-, hip⟩ | hp
    · rw [← hip, hsame]; rfl
    · have hcl : (s.nodes2D (cellIndex width a)).c = true := by
        apply hcost.startClosed
        intro hmem
        obtain ⟨hO, -⟩ := hst hmem
        have := s.top_mem E hne
        rw [hO, hp] at this
        simp at this
      by_cases hki : cellIndex width a = aStarIPred E width s
      · rw [hki, hsame]; rfl
      · rw [hupd _ hki]; exact hcl

theorem aStar_top_path {E : Env K} {width height : Int} {goal : Node2D K} {a : Int × Int}
    {s : Search2D K} (hinv : Inv2D E width height a s) (hst : StartInv width a s)
    (hcost : CostInv E width height goal a s) (hne : s.O ≠ []) :
    ∃ path, walk E width height a path = some (s.deref (s.top E)).cell
      ∧ (s.deref (s.top E)).g = s.start.g + pathCostE E path := by
  obtain ⟨-, ⟨hr0, hr1⟩, hoc, -, hcell, -⟩ := aStar_top_facts hinv hne
  rw [hcell, aStar_top_g hinv hst hne]
  exact hcost.gpath _ hr0 hr1 hoc

theorem aStarIter_next_cost {E : Env K} {width height : Int} {goal : Node2D K}
    {a : Int × Int} {s s' : Search2D K}
    (hinv : Inv2D E width height a s) (hst : StartInv width a s)
    (hex : Explored E width height goal s) (hcost : CostInv E width height goal a s)
    (hcons : Consistent E goal) (htop : MinTop E.top2D) (hne : s.O ≠ [])
    (h : aStarIter E width height goal s = Step.next s') :
    CostInv E width height goal a s' ∧ s'.start = s.start := by
  obtain ⟨hent, ⟨hr0, hr1⟩, hoc, htopf, hcell, hreach⟩ := aStar_top_facts hinv hne
  unfold aStarIter at h
  simp only [hent] at h
  split at h
  · rename_i hc
    simp only [Step.next.injEq] at h
    subst h
    exact ⟨aStarPop_cost hinv hst hcost hne hc, rfl⟩
  · rename_i hc
    have hc' : (s.nodes2D (aStarIPred E width s)).c = false := by simpa using hc
    split at h
    · split at h
      · simp at h
      · simp only [Step.next.injEq] at h
        subst h
        obtain ⟨c1, c2, c3, c4, -, -⟩ := aStarClose_inv hinv hne hc'
        have hstart : (aStarClose E width s).start = s.start := by
          rw [aStarClose_eq hinv hne]
        have hcc := aStarClose_cost hinv hst hex hcost hcons htop hne hc'
        obtain ⟨-, -, -, e4, -, -, -⟩ :=
          aStarExpand_inv goal c1 c2 (by rw [c3]; exact hreach) Node2D.dir (le_refl _)
        refine ⟨aStarExpand_cost c1 c2 (by rw [c3]; exact hreach) hcc ?_ Node2D.dir (le_refl _),
          by rw [e4, hstart]⟩
        rw [c3, c4, hstart]
        exact aStar_top_path hinv hst hcost hne
    · rename_i ho
      rcases hoc with h1 | h1
      · exact absurd h1 ho
      · exact absurd h1 hc

theorem aStarIter_done_cost {E : Env K} {width height : Int} {goal : Node2D K}
    {a : Int × Int} {s : Search2D K} {r : Result2D K}
    (hinv : Inv2D E width height a s) (hst : StartInv width a s)
    (hex : Explored E width height goal s) (hcost : CostInv E width height goal a s)
    (hcons : Consistent E goal) (htop : MinTop E.top2D) (hne : s.O ≠ [])
    (h : aStarIter E width height goal s = Step.done r) :
    (∃ path, walk E width height a path = some goal.cell
      ∧ r.value = s.start.g + pathCostE E path) ∧
    ∀ path, walk E width height a path = some goal.cell →
      r.value ≤ s.start.g + pathCostE E path := by
  obtain ⟨hent, ⟨hr0, hr1⟩, hoc, htopf, hcell, hreach⟩ := aStar_top_facts hinv hne
  unfold aStarIter at h
  simp only [hent] at h
  split at h
  · simp at h
  · rename_i hc
    have hc' : (s.nodes2D (aStarIPred E width s)).c = false := by simpa using hc
    split at h
    · split at h
      · rename_i hgoal
        simp only [Step.done.injEq] at h
        subst h
        obtain ⟨-, -, c3, c4, -, -⟩ := aStarClose_inv hinv hne hc'
        have hgc : (s.deref (s.top E)).cell = goal.cell := by
          rw [← c3]
          simp only [Node2D.equals, Bool.and_eq_true, decide_eq_true_eq] at hgoal
          exact Prod.ext hgoal.1 hgoal.2
        have hopt := popped_optimal hinv hst hex hcost hcons htop hne hc'
        have hpath := aStar_top_path hinv hst hcost hne
        rw [hgc] at hpath
        rw [← hcell, hgc, ← aStar_top_g hinv hst hne] at hopt
        refine ⟨?_, ?_⟩
        · show ∃ path, _ ∧ ((aStarClose E width s).deref (s.top E)).g = _
          rw [c4]; exact hpath
        · show ∀ path, _ → ((aStarClose E width s).deref (s.top E)).g ≤ _
          rw [c4]; exact hopt
      · simp at h
    · simp at h

theorem aStarLoop_goal_cost {E : Env K} {width height : Int} {goal : Node2D K}
    {a : Int × Int} (hcons : Consistent E goal) (htop : MinTop E.top2D) :
    ∀ (fuel : Nat) (s : Search2D K) (r : Result2D K),
      Inv2D E width height a s → StartInv width a s → Explored E width height goal s →
      CostInv E width height goal a s →
      aStarLoop E width height goal fuel s = some r → r.exit = Exit2D.goal →
      (∃ path, walk E width height a path = some goal.cell
        ∧ r.value = s.start.g + pathCostE E path) ∧
      ∀ path, walk E width height a path = some goal.cell →
        r.value ≤ s.start.g + pathCostE E path := by
  intro fuel
  induction fuel with
  | zero => intro s r _ _ _ _ h; simp [aStarLoop] at h
  | succ fuel ih =>
    intro s r hinv hst hex hcost h hexit
    simp only [aStarLoop] at h
    split at h
    · simp only [Option.some.injEq] at h
      subst h
      simp at hexit
    · rename_i hO
      have hne : s.O ≠ [] := by
        intro h'; rw [h'] at hO; simp at hO
      split at h
      · rename_i s1 hit
        obtain ⟨i1, -⟩ := aStarIter_next hinv hne hit
        obtain ⟨i2, i3⟩ := aStarIter_next_explored hinv hst hex hne hit
        obtain ⟨i4, i5⟩ := aStarIter_next_cost hinv hst hex hcost hcons htop hne hit
        have := ih s1 r i1 i2 i3 i4 h hexit
        rw [i5] at this
        exact this
      · rename_i r1 hit
        simp only [Option.some.injEq] at h
        subst h
        exact aStarIter_done_cost hinv hst hex hcost hcons htop hne hit

theorem aStarInit_cost (E : Env K) (start goal : Node2D K) (nodes2D : Int → Node2D K)
    (width height : Int) :
    CostInv E width height goal start.cell (aStarInit E start goal nodes2D width height) ∧
      (aStarInit E start goal nodes2D width height).start.g = start.g := by
  have hidx : (((start.updateH E.sqrt goal).markOpen).setIdx width).idx
      = cellIndex width start.cell := rfl
  have hnode : (aStarInit E start goal nodes2D width height).nodes2D
      (cellIndex width start.cell)
      = ((start.updateH E.sqrt goal).markOpen).setIdx width := by
    simp only [aStarInit, hidx, Function.update_same]
  have hother : ∀ k, 0 ≤ k → k < width * height → k ≠ cellIndex width start.cell →
      ((aStarInit E start goal nodes2D width height).nodes2D k).o = false ∧
      ((aStarInit E start goal nodes2D width height).nodes2D k).c = false := by
    intro k hk0 hk1 hki
    simp only [aStarInit, hidx, Function.update_noteq hki, hk0, hk1, and_self, if_true,
      Node2D.reset]
  refine ⟨⟨rfl, ?_, ?_, ?_, ?_⟩, rfl⟩
  · intro k hk0 hk1 hk
    by_cases hki : k = cellIndex width start.cell
    · subst hki
      rw [hnode]; rfl
    · obtain ⟨h1, h2⟩ := hother k hk0 hk1 hki
      rw [h1, h2] at hk
      simp at hk
  · intro k hk0 hk1 hk
    by_cases hki : k = cellIndex width start.cell
    · subst hki
      rw [hnode]
      exact ⟨[], rfl, by simp [pathCostE, Node2D.setIdx, Node2D.markOpen, Node2D.updateH, aStarInit]⟩
    · obtain ⟨h1, h2⟩ := hother k hk0 hk1 hki
      rw [h1, h2] at hk
      simp at hk
  · intro k hk0 hk1 hk
    by_cases hki : k = cellIndex width start.cell
    · subst hki
      rw [hnode] at hk
      simp [Node2D.setIdx, Node2D.markOpen] at hk
    · obtain ⟨-, h2⟩ := hother k hk0 hk1 hki
      rw [h2] at hk
      simp at hk
  · intro hmem
    exact absurd (by simp [aStarInit]) hmem

/-- With a heap that returns a cheapest entry, non-negative move costs and a
consistent heuristic, the value `aStar` returns by its goal test is the start
`g` plus the least cost of an admissible path from the start cell to the goal
cell. -/
theorem aStar_goal_value_optimal (E : Env K) (start goal : Node2D K)
    (nodes2D : Int → Node2D K) (width height : Int)
    (hs : OnGrid width height start.cell)
    (hcons : Consistent E goal) (htop : MinTop E.top2D)
    (fuel : Nat) (r : Result2D K)
    (h : aStar E fuel start goal nodes2D width height = some r)
    (hexit : r.exit = Exit2D.goal) :
    (∃ path, walk E width height start.cell path = some goal.cell
      ∧ r.value = start.g + pathCostE E path) ∧
    ∀ path, walk E width height start.cell path = some goal.cell →
      r.value ≤ start.g + pathCostE E path := by
  obtain ⟨i1, -⟩ := aStarInit_inv E start goal nodes2D hs
  obtain ⟨i2, i3⟩ := aStarInit_explored E start goal nodes2D width height
  obtain ⟨i4, i5⟩ := aStarInit_cost E start goal nodes2D width height
  have := aStarLoop_goal_cost hcons htop fuel _ r i1 i2 i3 i4 h hexit
  rw [i5] at this
  exact this

/-! ## 2D search over the reals -/

theorem sqrt_triangle (a b c d : ℝ) :
    Real.sqrt (a * a + b * b)
      ≤ Real.sqrt (c * c + d * d) + Real.sqrt ((a + c) * (a + c) + (b + d) * (b + d)) := by
  have h1 : Complex.abs (⟨a + c, b + d⟩ + ⟨-c, -d⟩)
      ≤ Complex.abs ⟨a + c, b + d⟩ + Complex.abs ⟨-c, -d⟩ :=
    Complex.abs.add_le _ _
  have e1 : (⟨a + c, b + d⟩ + ⟨-c, -d⟩ : ℂ) = ⟨a, b⟩ := by
    apply Complex.ext <;> simp
  rw [e1] at h1
  simp only [Complex.abs_apply, Complex.normSq_mk] at h1
  have e2 : -c * -c + -d * -d = c * c + d * d := by ring
  rw [e2] at h1
  linarith

theorem consistent_real (E : Env ℝ) (hsqrt : E.sqrt = Real.sqrt) (goal : Node2D ℝ) :
    Consistent E goal := by
  constructor
  · intro i
    simp only [stepCost, hsqrt]
    exact Real.sqrt_nonneg _
  · intro c i
    simp only [heuristic, stepCost, hsqrt, moveCell]
    have := sqrt_triangle ((c.1 - goal.x : Int) : ℝ) ((c.2 - goal.y : Int) : ℝ)
      ((Node2D.dx i : Int) : ℝ) ((Node2D.dy i : Int) : ℝ)
    have e1 : (((c.1 + Node2D.dx i - goal.x) * (c.1 + Node2D.dx i - goal.x)
        + (c.2 + Node2D.dy i - goal.y) * (c.2 + Node2D.dy i - goal.y) : Int) : ℝ)
      = (((c.1 - goal.x : Int) : ℝ) + ((Node2D.dx i : Int) : ℝ))
          * (((c.1 - goal.x : Int) : ℝ) + ((Node2D.dx i : Int) : ℝ))
        + (((c.2 - goal.y : Int) : ℝ) + ((Node2D.dy i : Int) : ℝ))
          * (((c.2 - goal.y : Int) : ℝ) + ((Node2D.dy i : Int) : ℝ)) := by
      push_cast; ring
    rw [e1]
    push_cast at this ⊢
    linarith

theorem stepCost_real (E : Env ℝ) (hsqrt : E.sqrt = Real.sqrt) (i : Nat)
    (hi : i < Node2D.dir) : stepCost E i = moveCost (Real.sqrt 2) i := by
  simp only [Node2D.dir] at hi
  simp only [stepCost, moveCost, hsqrt]
  interval_cases i <;> simp [Node2D.dx, Node2D.dy]

theorem pathCostE_real (E : Env ℝ) (hsqrt : E.sqrt = Real.sqrt) (width height : Int) :
    ∀ (path : List Nat) (c b : Int × Int), walk E width height c path = some b →
      pathCostE E path = pathCost (Real.sqrt 2) path := by
  intro path
  induction path with
  | nil => intro c b _; rfl
  | cons i path ih =>
    intro c b hw
    simp only [walk] at hw
    split at hw
    · rename_i hadm
      simp only [pathCostE, pathCost, stepCost_real E hsqrt i hadm.1, ih _ _ hw]
    · simp at hw

/-- C1: over the reals, with `sqrt` the real square root and a heap that returns
a cheapest entry, for an on-grid start cell from which the goal cell is
reachable through on-grid, traversable, 8-connected moves, `aStar` returns by
its goal test, and the value is the `g` of the start node (0 at the call site in
`updateH`) plus the minimum, over all such move sequences from the start cell to
the goal cell, of the total cost with 1 per axis-aligned and `sqrt 2` per
diagonal move; the empty sequence, of cost 0, is among them when the start cell
is the goal cell. -/
theorem aStar_returns_min_cost (E : Env ℝ) (start goal : Node2D ℝ)
    (nodes2D : Int → Node2D ℝ) (width height : Int)
    (hsqrt : E.sqrt = Real.sqrt) (htop : MinTop E.top2D)
    (hs : OnGrid width height start.cell)
    (hreach : Reachable E width height start.cell goal.cell) :
    ∃ N : Nat, ∀ fuel, N ≤ fuel →
      ∃ (r : Result2D ℝ) (v : ℝ),
        aStar E fuel start goal nodes2D width height = some r ∧
        r.exit = Exit2D.goal ∧ r.value = start.g + v ∧
        IsMinCost E (Real.sqrt 2) width height start.cell goal.cell v ∧
        (start.cell = goal.cell → v = 0) := by
  obtain ⟨N, hN⟩ := aStar_sentinel_iff_unreachable E start goal nodes2D width height hs
  refine ⟨N, fun fuel hfuel => ?_⟩
  obtain ⟨r, hr, -, hgoal⟩ := hN fuel hfuel
  obtain ⟨hexit, -⟩ := hgoal hreach
  obtain ⟨⟨path, hp1, hp2⟩, hmin⟩ := aStar_goal_value_optimal E start goal nodes2D width height
    hs (consistent_real E hsqrt goal) htop fuel r hr hexit
  have hcost := pathCostE_real E hsqrt width height path _ _ hp1
  have hmin' : ∀ q, walk E width height start.cell q = some goal.cell →
      pathCost (Real.sqrt 2) path ≤ pathCost (Real.sqrt 2) q := by
    intro q hq
    have h1 := hmin q hq
    rw [hp2, hcost, pathCostE_real E hsqrt width height q _ _ hq] at h1
    linarith
  refine ⟨r, pathCost (Real.sqrt 2) path, hr, hexit, by rw [hp2, hcost],
    ⟨⟨path, hp1, rfl⟩, hmin'⟩, ?_⟩
  intro hsame
  have h0 := hmin' [] (by rw [hsame]; rfl)
  have hnn : 0 ≤ pathCost (Real.sqrt 2) path := by
    rw [← hcost]
    exact pathCostE_nonneg (consistent_real E hsqrt goal).1 path
  simp only [pathCost] at h0
  linarith

/-! ## 3D search: termination -/

theorem updateH_terminates (E : Env K) (start goal : Node3D K) (nodes2D : Int → Node2D K)
    {width height : Int} (hg : OnGrid width height (toInt goal.x, toInt goal.y)) (gas : Nat)
    (hgas : 1 + 8 * (width * height).toNat < gas) :
    ∃ q nodes, updateH E gas start goal nodes2D width height = some (q, nodes) := by
  obtain ⟨nodes, hn⟩ := updateH2D_terminates E start goal nodes2D hg gas hgas
  exact ⟨start.setH (max (reedsSheppCost E start goal)
    (max (dubinsCost E start goal) (twoDCost E start goal nodes width))), nodes,
    by simp only [updateH, hn]⟩

theorem candidate_pose (E : Env K) (width height : Int) (p : Ptr) (step : K) (s : Search3D K)
    (i : Nat) :
    (candidate E width height p step s i).pose = succPose E (s.deref p).pose i step := rfl

theorem Search3D.topIdx3D_lt (E : Env K) (s : Search3D K) (h : s.O ≠ []) :
    s.topIdx E < s.O.length := by
  have := topPos_lt E.top3D s.keys (by simpa [Search3D.keys] using h)
  simpa [Search3D.topIdx, Search3D.keys] using this

theorem firstMin_minTop : MinTop (firstMin : List K → Nat) := by
  intro keys
  induction keys with
  | nil => intro h; exact absurd rfl h
  | cons a l ih =>
    intro _
    simp only [firstMin]
    split
    · rename_i hall
      refine ⟨by simp, ?_⟩
      intro k hk
      simp only [List.getD_cons_zero]
      rcases List.mem_cons.mp hk with h | h
      · rw [h]
      · have := List.all_eq_true.mp hall k h
        simpa using this
    · rename_i hall
      have hl : l ≠ [] := by
        intro h
        rw [h] at hall
        simp at hall
      obtain ⟨h1, h2⟩ := ih hl
      refine ⟨by simpa using h1, ?_⟩
      intro k hk
      simp only [List.getD_cons_succ]
      rcases List.mem_cons.mp hk with h | h
      · rw [h]
        simp only [List.all_eq_true, decide_eq_true_eq, not_forall, not_le] at hall
        obtain ⟨b, hb, hba⟩ := hall
        exact le_trans (h2 b hb) (le_of_lt hba)
      · exact h2 k h

/-- Instance of C1: a corridor of two free cells over the reals, from cell 0 to
cell 1. -/
theorem aStar_returns_min_cost_witness :
    ∃ N : Nat, ∀ fuel, N ≤ fuel →
      ∃ (r : Result2D ℝ) (v : ℝ),
        aStar (corridor Real.sqrt (fun _ _ => true) 1 true 1) fuel (cellNode 0 0) (cellNode 1 0)
          fresh2D 2 1 = some r ∧
        r.exit = Exit2D.goal ∧ r.value = (cellNode (K := ℝ) 0 0).g + v ∧
        IsMinCost (corridor Real.sqrt (fun _ _ => true) 1 true 1) (Real.sqrt 2) 2 1
          (cellNode (K := ℝ) 0 0).cell (cellNode (K := ℝ) 1 0).cell v ∧
        ((cellNode (K := ℝ) 0 0).cell = (cellNode (K := ℝ) 1 0).cell → v = 0) :=
  aStar_returns_min_cost (corridor Real.sqrt (fun _ _ => true) 1 true 1) (cellNode 0 0)
    (cellNode 1 0) fresh2D 2 1 rfl firstMin_minTop (by unfold OnGrid; decide) ⟨[4], by decide⟩

/-- Instance of C2: the walled corridor, from cell 0 to the cell 3 behind the
wall. -/
theorem aStar_sentinel_iff_unreachable_witness :
    ∃ N : Nat, ∀ fuel, N ≤ fuel →
      ∃ r, aStar walledEnv fuel (cellNode 0 0) (cellNode 3 0) fresh2D 4 1 = some r ∧
        (¬ Reachable walledEnv 4 1 (cellNode (K := ℚ) 0 0).cell (cellNode (K := ℚ) 3 0).cell →
          r.exit = Exit2D.sentinel ∧ r.value = 1000 ∧
          ∃ n s', aStarRun walledEnv 4 1 (cellNode 3 0) n
              (aStarInit walledEnv (cellNode 0 0) (cellNode 3 0) fresh2D 4 1) = some s'
            ∧ s'.O = [] ∧ r.nodes2D = s'.nodes2D) ∧
        (Reachable walledEnv 4 1 (cellNode (K := ℚ) 0 0).cell (cellNode (K := ℚ) 3 0).cell →
          r.exit = Exit2D.goal ∧
          r.value = (r.nodes2D (cellIndex 4 (cellNode (K := ℚ) 3 0).cell)).g ∧
          (r.nodes2D (cellIndex 4 (cellNode (K := ℚ) 3 0).cell)).cell
            = (cellNode (K := ℚ) 3 0).cell ∧
          (r.nodes2D (cellIndex 4 (cellNode (K := ℚ) 3 0).cell)).c = true ∧
          (r.nodes2D (cellIndex 4 (cellNode (K := ℚ) 3 0).cell)).d = true) :=
  aStar_sentinel_iff_unreachable walledEnv (cellNode 0 0) (cellNode 3 0) fresh2D 4 1
    (by unfold OnGrid; decide)

/-- Instance of C3: the query at cell 3 of the walled corridor, the goal at
cell 0. -/
theorem updateH_sets_max_of_three_witness :
    ∃ N : Nat, ∀ fuel, N ≤ fuel →
      ∃ (q : Node3D ℚ) (nodes : Int → Node2D ℚ),
        updateH walledEnv fuel (poseNode 3) (poseNode 0) fresh2D 4 1 = some (q, nodes) ∧
        q = (poseNode 3).setH
          (max (if walledEnv.reverse = true ∧ walledEnv.dubins = false
                  then walledEnv.reedsSheppDistance (poseNode 3).pose (poseNode 0).pose else 0)
            (max (if walledEnv.dubins = true
                    then walledEnv.dubinsDistance (poseNode 3).pose (poseNode 0).pose else 0)
              (if walledEnv.twoD = true
                then (nodes (toInt (poseNode (3 : ℚ)).y * 4 + toInt (poseNode (3 : ℚ)).x)).g
                      - twoDoffset walledEnv (poseNode 3) (poseNode 0)
                else 0))) ∧
        (reedsSheppCost walledEnv (poseNode 3) (poseNode 0) = 0
          ∨ dubinsCost walledEnv (poseNode 3) (poseNode 0) = 0) :=
  updateH_sets_max_of_three walledEnv (poseNode 3) (poseNode 0) fresh2D 4 1
    (by unfold OnGrid; decide)

/-- Instance of C4: a query at cell 3 on a grid whose slots are all discovered. -/
theorem updateH_discovered_is_memoised_witness :
    runs2D walledEnv (poseNode 3) discovered2D 4 = false ∧
    ∀ fuel fuel2 : Nat, ∃ q q2 : Node3D ℚ,
      updateH walledEnv fuel (poseNode 3) (poseNode 0) discovered2D 4 1
        = some (q, discovered2D) ∧
      updateH walledEnv fuel2 (poseNode 3) (poseNode 0) discovered2D 4 1
        = some (q2, discovered2D) ∧
      twoDCost walledEnv (poseNode 3) (poseNode 0) discovered2D 4
        = twoDCost walledEnv (poseNode 3) (poseNode 0) discovered2D 4 ∧
      q2.h = q.h :=
  updateH_discovered_is_memoised walledEnv (poseNode 3) (poseNode 3) (poseNode 0)
    discovered2D 4 1 rfl rfl

/-- C5, at the query cell 3 of the walled corridor with the goal at cell 0: the
2D search from the goal's cell ends by the sentinel, `updateH` stores 1000 in
the slot of the query's cell and leaves it not discovered, so that the next
`updateH` on that cell runs the 2D search again. -/
theorem updateH_unreached_cell_not_discovered :
    (aStar walledEnv 40 (cellNode 0 0) (cellNode 3 0) fresh2D 4 1).map
        (fun r => (r.exit, r.value)) = some (Exit2D.sentinel, 1000)
    ∧ (updateH walledEnv 40 (poseNode 3) (poseNode 0) fresh2D 4 1).map
        (fun r => ((r.2 3).g, (r.2 3).d, runs2D walledEnv (poseNode 3) r.2 4))
      = some (1000, false, true) := by
  decide!

/-- Instance of C9: the walled corridor, whose start node has a null
predecessor. -/
theorem hybridAStar_no_self_predecessor_witness :
    (∀ (r : Result3D ℚ) (k : Int),
        hybridAStar walledEnv 40 (poseNode 0) (poseNode 3) fresh3D fresh2D 4 1 = some r →
        (r.final.nodes3D k).pred = Ptr.slot k → (fresh3D (K := ℚ) k).pred = Ptr.slot k)
    ∧ (∀ (s0 s : Search3D ℚ) (n : Nat),
        hybridInit walledEnv 40 (poseNode 0) (poseNode 3) fresh3D fresh2D 4 1 = some s0 →
        hybridRun walledEnv 40 4 1 (poseNode 3) n s0 = some s →
        (∀ k : Int, (s.nodes3D k).pred = Ptr.slot k → (fresh3D (K := ℚ) k).pred = Ptr.slot k)
        ∧ ∀ (j i : Nat) (sj sj' : Search3D ℚ) (k : Int),
            hybridExpand walledEnv 40 4 1 (poseNode 3) (s.top walledEnv)
              (hybridIPred walledEnv 4 1 s)
              (stepSize walledEnv ((hybridClose walledEnv 4 1 s).deref (s.top walledEnv)).pose) j
              (hybridClose walledEnv 4 1 s) = some sj →
            hybridSucc walledEnv 40 4 1 (poseNode 3) (s.top walledEnv)
              (hybridIPred walledEnv 4 1 s)
              (stepSize walledEnv ((hybridClose walledEnv 4 1 s).deref (s.top walledEnv)).pose)
              sj i = some sj' →
            sj'.nodes3D k ≠ sj.nodes3D k → (sj'.nodes3D k).pred ≠ Ptr.slot k) :=
  hybridAStar_no_self_predecessor walledEnv 40 (poseNode 0) (poseNode 3) fresh3D fresh2D 4 1
    (fun _ h => Ptr.noConfusion h)

theorem hybridIter_goal_or_budget {E : Env K} (gas : Nat) {width height : Int}
    (goal : Node3D K) {s : Search3D K}
    (hc : ((hybridEnter E width height s).nodes3D (hybridIPred E width height s)).c = false)
    (ho : ((hybridEnter E width height s).nodes3D (hybridIPred E width height s)).o = true)
    (hcond : E.equals3D ((hybridClose E width height s).deref (s.top E)).pose goal.pose = true
      ∨ E.iterations < s.iterations + 1) :
    hybridIter E gas width height goal s
      = some (Step.done { ret := Return3D.node (s.top E),
                          final := hybridClose E width height s }) := by
  unfold hybridIter
  simp only
  rw [if_neg (by rw [hc]; simp), if_pos ho, if_pos]
  rcases hcond with h1 | h1
  · rw [h1]; rfl
  · rw [hybridClose_iterations]
    simp [h1]

/-- Instance of C6: the pass that returns the start node of the walled corridor
when the budget is exceeded does not return `nullptr`. -/
theorem hybridAStar_null_iff_heap_empty_witness :
    ({ ret := Return3D.node (budgetState.top walledEnv),
       final := hybridClose walledEnv 4 1 budgetState } : Result3D ℚ).ret ≠ Return3D.null :=
  (hybridAStar_null_iff_heap_empty walledEnv 40 (poseNode 0) (poseNode 3) fresh3D fresh2D 4 1
    budgetState).2 budgetState _
    (hybridIter_goal_or_budget 40 (poseNode 3) (by decide!) (by decide!)
      (Or.inr (by decide!)))

/-- Instance of C7: with the loop counter at the budget, the pass that pops the
start node of the walled corridor returns it, with the memory left by `close()`
and `pop()`. -/
theorem hybridAStar_returns_closed_goal_or_budget_witness :
    hybridIter walledEnv 40 4 1 (poseNode 3) budgetState
      = some (Step.done { ret := Return3D.node (budgetState.top walledEnv),
                          final := hybridClose walledEnv 4 1 budgetState }) :=
  (hybridAStar_returns_closed_goal_or_budget walledEnv 40 (poseNode 0) (poseNode 3) fresh3D
    fresh2D 4 1).2.2 budgetState (by decide!) (by decide!) (Or.inr (by decide!))

theorem reopenedState_eq :
    hybridSucc halfEnv 40 4 1 (poseNode 3) Ptr.start 0 0 closedState 0 = some reopenedState := by
  have h : (hybridSucc halfEnv 40 4 1 (poseNode 3) Ptr.start 0 0 closedState 0).isSome = true := by
    decide!
  obtain ⟨s', hs'⟩ := Option.isSome_iff_exists.mp h
  simp only [reopenedState, hs', Option.getD_some]

theorem reopenedState_ne : reopenedState.nodes3D 0 ≠ closedState.nodes3D 0 := by
  intro h
  have h1 : (reopenedState.nodes3D 0).o = (closedState.nodes3D 0).o := by rw [h]
  revert h1
  decide!

/-- Instance of C10: with half-cell primitives the forward successor of the
start node falls into the start cell, whose slot was just closed; the slot is
rewritten by that same-cell successor and is open again. -/
theorem closed_slot_rewritten_only_by_same_cell_witness :
    (0 : Int) = 0 ∧ (candidate halfEnv 4 1 Ptr.start 0 closedState 0).idx = 0 ∧
      (reopenedState.nodes3D 0).o = true ∧ (reopenedState.nodes3D 0).c = false :=
  (closed_slot_rewritten_only_by_same_cell halfEnv 40 4 1 (poseNode 3)).1 Ptr.start 0 0
    closedState reopenedState 0 0 reopenedState_eq (by decide!) reopenedState_ne

/-! ## Dubins shot: the sampling loop -/

theorem arcLength_exact (E : Env K) :
    ∀ k : Nat, arcLength E exactOps k = (k : K) * E.dubinsStepSize := by
  intro k
  induction k with
  | zero => simp [arcLength]
  | succ k ih =>
    show arcLength E exactOps k + E.dubinsStepSize = _
    rw [ih]
    push_cast
    ring

theorem sampled_exact_iff {E : Env K} {q0 q1 : K × K × K} (hs : 0 ≤ E.dubinsStepSize)
    (k : Nat) :
    Sampled E exactOps q0 q1 k ↔ (k : K) * E.dubinsStepSize < E.dubins_path_length q0 q1 := by
  unfold Sampled
  constructor
  · intro h
    have := h k (le_refl k)
    rwa [arcLength_exact] at this
  · intro h j hj
    rw [arcLength_exact]
    exact lt_of_le_of_lt (mul_le_mul_of_nonneg_right (by exact_mod_cast hj) hs) h

theorem sampled_iff_lt_ceil {E : Env K} {q0 q1 : K × K × K} (hs : 0 < E.dubinsStepSize)
    (k : Nat) : Sampled E exactOps q0 q1 k ↔ k < shotCount E q0 q1 := by
  rw [sampled_exact_iff hs.le]
  unfold shotCount
  rw [Nat.lt_ceil, lt_div_iff₀ hs]

theorem ends_exact {E : Env K} (q0 q1 : K × K × K) (hs : 0 < E.dubinsStepSize) :
    Ends E exactOps q0 q1 (shotCount E q0 q1) := by
  constructor
  · intro j hj
    exact (sampled_iff_lt_ceil hs j).2 hj j (le_refl j)
  · intro h
    have h1 : Sampled E exactOps q0 q1 (shotCount E q0 q1) := by
      rw [sampled_exact_iff hs.le]
      rwa [arcLength_exact] at h
    exact absurd ((sampled_iff_lt_ceil hs _).1 h1) (lt_irrefl _)

theorem ends_unique {E : Env K} {ops : FloatOps K} {q0 q1 : K × K × K} {n m : Nat}
    (hn : Ends E ops q0 q1 n) (hm : Ends E ops q0 q1 m) : n = m := by
  rcases Nat.lt_trichotomy n m with h | h | h
  · exact absurd (hm.1 n h) hn.2
  · exact h
  · exact absurd (hn.1 m h) hm.2

theorem rejected_lt_ends {E : Env K} {ops : FloatOps K} {q0 q1 : K × K × K} {n k : Nat}
    (hn : Ends E ops q0 q1 n) (hk : Rejected E ops q0 q1 k) : k < n := by
  by_contra h
  exact hn.2 (hk.1 n (by omega))

theorem dubinsShotLoop_null_iff {E : Env K} (ops : FloatOps K) (startPtr : Ptr)
    (q0 q1 : K × K × K) :
    ∀ (fuel k : Nat) (nodes : Int → Node3D K) (r : Option (Int × (Int → Node3D K))),
      (∀ j, j < k → arcLength E ops j < E.dubins_path_length q0 q1) →
      dubinsShotLoop E ops startPtr q0 q1 (E.dubins_path_length q0 q1) fuel (k : Int)
        (arcLength E ops k) nodes = some r →
      (r = none ↔ ∃ j, k ≤ j ∧ Rejected E ops q0 q1 j) := by
  intro fuel
  induction fuel with
  | zero => intro k nodes r _ h; simp [dubinsShotLoop] at h
  | succ fuel ih =>
    intro k nodes r hprev h
    unfold dubinsShotLoop at h
    by_cases hx : arcLength E ops k < E.dubins_path_length q0 q1
    · rw [if_pos hx] at h
      dsimp only at h
      have hsk : Sampled E ops q0 q1 k := by
        intro j hj
        rcases Nat.eq_or_lt_of_le hj with e | e
        · rw [e]; exact hx
        · exact hprev j e
      by_cases ht : E.isTraversable3D (shotSample E ops q0 q1 k).1 (shotSample E ops q0 q1 k).2.1
          (shotSample E ops q0 q1 k).2.2 = true
      · have ht' := ht
        unfold shotSample at ht'
        rw [if_pos ht'] at h
        have hk' : (k : Int) + 1 = ((k + 1 : Nat) : Int) := by push_cast; rfl
        rw [hk'] at h
        rw [ih (k + 1) _ r (fun j hj => hsk j (by omega)) h]
        constructor
        · rintro ⟨j, hj, hr⟩
          exact ⟨j, by omega, hr⟩
        · rintro ⟨j, hj, hr⟩
          refine ⟨j, ?_, hr⟩
          rcases Nat.eq_or_lt_of_le hj with e | e
          · subst e
            rw [hr.2] at ht
            exact absurd ht (by simp)
          · exact e
      · have ht' := ht
        unfold shotSample at ht'
        rw [if_neg ht'] at h
        have hr : r = none := by
          have := Option.some.inj h
          exact this.symm
        refine ⟨fun _ => ⟨k, le_refl k, hsk, by simpa using ht⟩, fun _ => hr⟩
    · rw [if_neg hx] at h
      have hr : r = some ((k : Int), nodes) := (Option.some.inj h).symm
      constructor
      · intro hn; rw [hn] at hr; exact absurd hr (by simp)
      · rintro ⟨j, hj, hr1, _⟩
        exact absurd (hr1 k hj) hx

theorem dubinsShotLoop_accepts {E : Env K} (ops : FloatOps K) (startPtr : Ptr)
    (q0 q1 : K × K × K) (fuel : Nat) :
    ∀ (m k : Nat) (nodes : Int → Node3D K),
      (∀ j, k ≤ j → j < k + m → arcLength E ops j < E.dubins_path_length q0 q1 ∧
        E.isTraversable3D (shotSample E ops q0 q1 j).1 (shotSample E ops q0 q1 j).2.1
          (shotSample E ops q0 q1 j).2.2 = true) →
      ∃ nodes1 : Int → Node3D K,
        dubinsShotLoop E ops startPtr q0 q1 (E.dubins_path_length q0 q1) (fuel + m) (k : Int)
          (arcLength E ops k) nodes
        = dubinsShotLoop E ops startPtr q0 q1 (E.dubins_path_length q0 q1) fuel
          ((k + m : Nat) : Int) (arcLength E ops (k + m)) nodes1
        ∧ ∀ j : Int, nodes1 j = if (k : Int) ≤ j ∧ j < ((k + m : Nat) : Int)
            then shotNode E ops startPtr q0 q1 j.toNat (nodes j) else nodes j := by
  intro m
  induction m with
  | zero =>
    intro k nodes _
    refine ⟨nodes, rfl, fun j => ?_⟩
    rw [if_neg]
    simp only [Nat.add_zero]
    omega
  | succ m ih =>
    intro k nodes hacc
    obtain ⟨hx, ht⟩ := hacc k (le_refl k) (by omega)
    have hstep : dubinsShotLoop E ops startPtr q0 q1 (E.dubins_path_length q0 q1)
        (fuel + (m + 1)) (k : Int) (arcLength E ops k) nodes
        = dubinsShotLoop E ops startPtr q0 q1 (E.dubins_path_length q0 q1) (fuel + m)
            ((k + 1 : Nat) : Int) (arcLength E ops (k + 1))
            (Function.update nodes (k : Int) (shotNode E ops startPtr q0 q1 k (nodes k))) := by
      have e : fuel + (m + 1) = (fuel + m) + 1 := rfl
      rw [e]
      conv_lhs => unfold dubinsShotLoop
      rw [if_pos hx]
      dsimp only
      have ht' := ht
      unfold shotSample at ht'
      rw [if_pos ht']
      have hk' : (k : Int) + 1 = ((k + 1 : Nat) : Int) := by push_cast; rfl
      rw [hk']
      rfl
    obtain ⟨nodes1, h1, h2⟩ := ih (k + 1)
      (Function.update nodes (k : Int) (shotNode E ops startPtr q0 q1 k (nodes k)))
      (fun j hj1 hj2 => hacc j (by omega) (by omega))
    refine ⟨nodes1, ?_, fun j => ?_⟩
    · rw [hstep, h1]
      have e : k + 1 + m = k + (m + 1) := by omega
      rw [e]
    · rw [h2 j]
      by_cases hjk : j = (k : Int)
      · subst hjk
        rw [if_neg (by push_cast; omega), if_pos (by push_cast; omega), Function.update_same]
        simp
      · rw [Function.update_noteq hjk]
        by_cases hin : ((k + 1 : Nat) : Int) ≤ j ∧ j < ((k + 1 + m : Nat) : Int)
        · rw [if_pos hin, if_pos (by push_cast at hin ⊢; omega)]
        · rw [if_neg hin, if_neg (by push_cast at hin ⊢; omega)]

theorem dubinsShotLoop_first_rejected {E : Env K} (ops : FloatOps K) (startPtr : Ptr)
    (q0 q1 : K × K × K) (k : Nat) (hk : Rejected E ops q0 q1 k)
    (hfirst : ∀ j, j < k → ¬ Rejected E ops q0 q1 j) (nodes : Int → Node3D K) (fuel : Nat) :
    (fuel ≤ k →
      dubinsShotLoop E ops startPtr q0 q1 (E.dubins_path_length q0 q1) fuel 0 0 nodes = none)
    ∧ (k < fuel →
      dubinsShotLoop E ops startPtr q0 q1 (E.dubins_path_length q0 q1) fuel 0 0 nodes
        = some none) := by
  have hacc : ∀ m, m ≤ k → ∀ j, 0 ≤ j → j < 0 + m →
      arcLength E ops j < E.dubins_path_length q0 q1 ∧
      E.isTraversable3D (shotSample E ops q0 q1 j).1 (shotSample E ops q0 q1 j).2.1
        (shotSample E ops q0 q1 j).2.2 = true := by
    intro m hm j _ hj
    have hsj : Sampled E ops q0 q1 j := fun i hi => hk.1 i (by omega)
    refine ⟨hsj j (le_refl j), ?_⟩
    by_contra hne
    exact hfirst j (by omega) ⟨hsj, by simpa using hne⟩
  have h0 : ((0 : Nat) : Int) = 0 := rfl
  have h0K : arcLength E ops 0 = 0 := rfl
  constructor
  · intro hle
    obtain ⟨nodes1, h1, _⟩ := dubinsShotLoop_accepts ops startPtr q0 q1 0 fuel 0 nodes
      (hacc fuel hle)
    rw [h0, h0K, Nat.zero_add] at h1
    rw [h1]
    rfl
  · intro hlt
    obtain ⟨f, rfl⟩ : ∃ f, fuel = (f + 1) + k := ⟨fuel - k - 1, by omega⟩
    obtain ⟨nodes1, h1, _⟩ := dubinsShotLoop_accepts ops startPtr q0 q1 (f + 1) k 0 nodes
      (hacc k (le_refl k))
    rw [h0, h0K] at h1
    rw [h1, Nat.zero_add]
    unfold dubinsShotLoop
    rw [if_pos (hk.1 k (le_refl k))]
    dsimp only
    have ht := hk.2
    unfold shotSample at ht
    rw [if_neg (by rw [ht]; simp)]

theorem dubinsShotLoop_ends {E : Env K} (ops : FloatOps K) (startPtr : Ptr)
    (q0 q1 : K × K × K) (n : Nat) (hn : Ends E ops q0 q1 n)
    (hall : ∀ k, k < n → ¬ Rejected E ops q0 q1 k) (nodes : Int → Node3D K) :
    ∃ nodes1 : Int → Node3D K,
      (∀ fuel, n < fuel →
        dubinsShotLoop E ops startPtr q0 q1 (E.dubins_path_length q0 q1) fuel 0 0 nodes
          = some (some ((n : Int), nodes1)))
      ∧ (∀ fuel, fuel ≤ n →
        dubinsShotLoop E ops startPtr q0 q1 (E.dubins_path_length q0 q1) fuel 0 0 nodes = none)
      ∧ ∀ j : Int, nodes1 j = if 0 ≤ j ∧ j < (n : Int)
            then shotNode E ops startPtr q0 q1 j.toNat (nodes j) else nodes j := by
  have hacc : ∀ m, m ≤ n → ∀ j, 0 ≤ j → j < 0 + m →
      arcLength E ops j < E.dubins_path_length q0 q1 ∧
      E.isTraversable3D (shotSample E ops q0 q1 j).1 (shotSample E ops q0 q1 j).2.1
        (shotSample E ops q0 q1 j).2.2 = true := by
    intro m hm j _ hj
    have hsj : Sampled E ops q0 q1 j := fun i hi => hn.1 i (by omega)
    refine ⟨hsj j (le_refl j), ?_⟩
    by_contra hne
    exact hall j (by omega) ⟨hsj, by simpa using hne⟩
  have h0 : ((0 : Nat) : Int) = 0 := rfl
  have h0K : arcLength E ops 0 = 0 := rfl
  obtain ⟨nodes1, h1, h2⟩ := dubinsShotLoop_accepts ops startPtr q0 q1 1 n 0 nodes
    (hacc _ (le_refl _))
  refine ⟨nodes1, ?_, ?_, ?_⟩
  · intro fuel hlt
    obtain ⟨f, rfl⟩ : ∃ f, fuel = (f + 1) + n := ⟨fuel - n - 1, by omega⟩
    obtain ⟨nodes2, h3, h4⟩ := dubinsShotLoop_accepts ops startPtr q0 q1 (f + 1) n 0 nodes
      (hacc _ (le_refl _))
    have hnn : nodes2 = nodes1 := by
      funext j
      rw [h4 j, h2 j]
    rw [h0, h0K] at h3
    rw [h3, Nat.zero_add, hnn]
    unfold dubinsShotLoop
    rw [if_neg hn.2]
  · intro fuel hle
    obtain ⟨nodes2, h3, _⟩ := dubinsShotLoop_accepts ops startPtr q0 q1 0 fuel 0 nodes
      (hacc fuel hle)
    rw [h0, h0K, Nat.zero_add] at h3
    rw [h3]
    rfl
  · intro j
    rw [h2 j]
    simp only [Nat.zero_add, Nat.cast_zero]

theorem dubinsShot_of_loop {E : Env K} {ops : FloatOps K} {fuel : Nat} {start goal : Node3D K}
    {startPtr : Ptr} {r : Option (Int × (Int → Node3D K))}
    (h : dubinsShotLoop E ops startPtr start.pose goal.pose
      (E.dubins_path_length start.pose goal.pose) fuel 0 0 (fun _ => Node3D.blank) = some r) :
    dubinsShot E ops fuel start startPtr goal
      = some (r.map (fun a =>
          { size := toInt (ops.div (E.dubins_path_length start.pose goal.pose)
              E.dubinsStepSize) + 1,
            nodes := a.2, ret := a.1 - 1 })) := by
  unfold dubinsShot
  dsimp only
  rw [h]
  cases r with
  | none => rfl
  | some a => rfl

theorem dubinsShot_none_iff {E : Env K} {ops : FloatOps K} {fuel : Nat} {start goal : Node3D K}
    {startPtr : Ptr} :
    dubinsShot E ops fuel start startPtr goal = none ↔
      dubinsShotLoop E ops startPtr start.pose goal.pose
        (E.dubins_path_length start.pose goal.pose) fuel 0 0 (fun _ => Node3D.blank) = none := by
  constructor
  · intro h
    cases hl : dubinsShotLoop E ops startPtr start.pose goal.pose
        (E.dubins_path_length start.pose goal.pose) fuel 0 0 (fun _ => Node3D.blank) with
    | none => rfl
    | some r => rw [dubinsShot_of_loop hl] at h; exact absurd h (by simp)
  · intro h
    unfold dubinsShot
    dsimp only
    rw [h]

theorem dubinsShotLoop_mono {E : Env K} (ops : FloatOps K) (startPtr : Ptr) (q0 q1 : K × K × K)
    (length : K) :
    ∀ (fuel : Nat) (i : Int) (x : K) (nodes : Int → Node3D K)
      (r : Option (Int × (Int → Node3D K))),
      dubinsShotLoop E ops startPtr q0 q1 length fuel i x nodes = some r →
      ∀ fuel1, fuel ≤ fuel1 →
        dubinsShotLoop E ops startPtr q0 q1 length fuel1 i x nodes = some r := by
  intro fuel
  induction fuel with
  | zero => intro i x nodes r h; simp [dubinsShotLoop] at h
  | succ fuel ih =>
    intro i x nodes r h fuel1 hle
    obtain ⟨f1, rfl⟩ : ∃ f1, fuel1 = f1 + 1 := ⟨fuel1 - 1, by omega⟩
    unfold dubinsShotLoop at h ⊢
    by_cases hx : x < length
    · rw [if_pos hx] at h ⊢
      dsimp only at h ⊢
      split at h
      · rename_i ht
        rw [if_pos ht]
        exact ih _ _ _ _ h f1 (by omega)
      · rename_i ht
        rw [if_neg ht]
        exact h
    · rw [if_neg hx] at h ⊢
      exact h

theorem dubinsShot_mono {E : Env K} {ops : FloatOps K} {fuel fuel1 : Nat}
    {start goal : Node3D K} {startPtr : Ptr} {r : Option (Shot K)}
    (h : dubinsShot E ops fuel start startPtr goal = some r) (hle : fuel ≤ fuel1) :
    dubinsShot E ops fuel1 start startPtr goal = some r := by
  cases hl : dubinsShotLoop E ops startPtr start.pose goal.pose
      (E.dubins_path_length start.pose goal.pose) fuel 0 0 (fun _ => Node3D.blank) with
  | none => rw [dubinsShot_none_iff.2 hl] at h; exact absurd h (by simp)
  | some r1 =>
    rw [dubinsShot_of_loop hl] at h
    rw [dubinsShot_of_loop (dubinsShotLoop_mono ops startPtr _ _ _ fuel _ _ _ r1 hl fuel1 hle)]
    exact h

theorem ends_of_reach {E : Env K} {ops : FloatOps K} {q0 q1 : K × K × K}
    (h : ∃ n, ¬ arcLength E ops n < E.dubins_path_length q0 q1) :
    ∃ n, Ends E ops q0 q1 n := by
  classical
  refine ⟨Nat.find h, fun j hj => ?_, Nat.find_spec h⟩
  by_contra hne
  exact Nat.find_min h hj hne

theorem dubinsShot_returns_of_ends {E : Env K} (ops : FloatOps K) (start goal : Node3D K)
    (startPtr : Ptr) (n : Nat) (hn : Ends E ops start.pose goal.pose n) :
    ∃ (r : Option (Shot K)), dubinsShot E ops (n + 1) start startPtr goal = some r := by
  classical
  by_cases hex : ∃ k, Rejected E ops start.pose goal.pose k
  · have hk := Nat.find_spec hex
    have hlt : Nat.find hex < n + 1 := Nat.lt_succ_of_lt (rejected_lt_ends hn hk)
    have h := (dubinsShotLoop_first_rejected ops startPtr start.pose goal.pose (Nat.find hex) hk
      (fun j hj => Nat.find_min hex hj) (fun _ => Node3D.blank) (n + 1)).2 hlt
    exact ⟨_, dubinsShot_of_loop h⟩
  · obtain ⟨nodes1, h1, _⟩ := dubinsShotLoop_ends ops startPtr start.pose goal.pose n hn
      (fun k _ hk => hex ⟨k, hk⟩) (fun _ => Node3D.blank)
    exact ⟨_, dubinsShot_of_loop (h1 _ (Nat.lt_succ_self _))⟩

theorem dubinsShot_some {E : Env K} {ops : FloatOps K} {fuel : Nat} {start goal : Node3D K}
    {startPtr : Ptr} {sh : Shot K}
    (h : dubinsShot E ops fuel start startPtr goal = some (some sh)) :
    ∃ n : Nat, Ends E ops start.pose goal.pose n
      ∧ n < fuel
      ∧ (∀ k, ¬ Rejected E ops start.pose goal.pose k)
      ∧ sh.ret = (n : Int) - 1
      ∧ sh.size = toInt (ops.div (E.dubins_path_length start.pose goal.pose)
          E.dubinsStepSize) + 1
      ∧ ∀ j : Int, sh.nodes j = if 0 ≤ j ∧ j < (n : Int)
          then shotNode E ops startPtr start.pose goal.pose j.toNat Node3D.blank
          else Node3D.blank := by
  cases hl : dubinsShotLoop E ops startPtr start.pose goal.pose
      (E.dubins_path_length start.pose goal.pose) fuel 0 0 (fun _ => Node3D.blank) with
  | none => rw [dubinsShot_none_iff.2 hl] at h; exact absurd h (by simp)
  | some r =>
    rw [dubinsShot_of_loop hl] at h
    cases r with
    | none => exact absurd h (by simp)
    | some a =>
      have hsh := Option.some.inj (Option.some.inj h)
      have hnone : ¬ ∃ j, 0 ≤ j ∧ Rejected E ops start.pose goal.pose j := by
        have hl0 : dubinsShotLoop E ops startPtr start.pose goal.pose
            (E.dubins_path_length start.pose goal.pose) fuel ((0 : Nat) : Int)
            (arcLength E ops 0) (fun _ => Node3D.blank) = some (some a) := hl
        have := dubinsShotLoop_null_iff ops startPtr start.pose goal.pose fuel 0 _ _
          (fun j hj => absurd hj (Nat.not_lt_zero j)) hl0
        intro hex
        exact absurd (this.2 hex) (by simp)
      have hrej : ∀ k, ¬ Rejected E ops start.pose goal.pose k :=
        fun k hk => hnone ⟨k, Nat.zero_le k, hk⟩
      have hreach : ∃ n, ¬ arcLength E ops n < E.dubins_path_length start.pose goal.pose := by
        by_contra hno
        have hall : ∀ n, arcLength E ops n < E.dubins_path_length start.pose goal.pose := by
          intro n
          by_contra hn
          exact hno ⟨n, hn⟩
        obtain ⟨nodes1, h1, _⟩ := dubinsShotLoop_accepts ops startPtr start.pose goal.pose 0
          fuel 0 (fun _ => Node3D.blank) (fun j _ _ => ⟨hall j, by
            by_contra hne
            exact hrej j ⟨fun i _ => hall i, by simpa using hne⟩⟩)
        have h0 : ((0 : Nat) : Int) = 0 := rfl
        have h0K : arcLength E ops 0 = 0 := rfl
        rw [h0, h0K, Nat.zero_add] at h1
        rw [h1] at hl
        exact absurd hl (by simp [dubinsShotLoop])
      obtain ⟨n, hn⟩ := ends_of_reach hreach
      obtain ⟨nodes1, h1, h2, h3⟩ := dubinsShotLoop_ends ops startPtr start.pose goal.pose n hn
        (fun k _ => hrej k) (fun _ => Node3D.blank)
      have hfuel : n < fuel := by
        by_contra hle
        rw [h2 fuel (not_lt.mp hle)] at hl
        exact absurd hl (by simp)
      have ha : a = ((n : Int), nodes1) := by
        have := h1 fuel hfuel
        rw [hl] at this
        exact Option.some.inj (Option.some.inj this)
      subst ha
      refine ⟨n, hn, hfuel, hrej, ?_, ?_, ?_⟩
      · rw [← hsh]
      · rw [← hsh]
      · intro j
        rw [← hsh]
        exact h3 j

theorem Shot.follow_down (sh : Shot K) (startPtr : Ptr) (n : Nat)
    (hpred : ∀ k : Nat, k < n →
      (sh.nodes k).pred = if 0 < (k : Int) then Ptr.shot ((k : Int) - 1) else startPtr) :
    ∀ (j k : Nat), j ≤ k → k < n →
      sh.follow j (Ptr.shot (k : Int)) = Ptr.shot ((k : Int) - (j : Int)) := by
  intro j
  induction j with
  | zero => intro k _ _; simp [Shot.follow]
  | succ j ih =>
    intro k hjk hk
    have hk0 : 0 < (k : Int) := by omega
    show sh.follow j (sh.nodes (k : Int)).pred = _
    rw [hpred k hk, if_pos hk0]
    have e : (k : Int) - 1 = ((k - 1 : Nat) : Int) := by omega
    rw [e, ih (k - 1) (by omega) (by omega)]
    congr 1
    push_cast
    omega

theorem Shot.follow_succ (sh : Shot K) :
    ∀ (k : Nat) (p : Ptr), sh.follow (k + 1) p = sh.follow 1 (sh.follow k p) := by
  intro k
  induction k with
  | zero => intro p; rfl
  | succ k ih =>
    intro p
    cases p with
    | shot i =>
      show sh.follow (k + 1) (sh.nodes i).pred = sh.follow 1 (sh.follow k (sh.nodes i).pred)
      exact ih _
    | null => rfl
    | start => rfl
    | slot i => rfl

theorem Shot.follow_start (sh : Shot K) (startPtr : Ptr) (n : Nat)
    (hpred : ∀ k : Nat, k < n →
      (sh.nodes k).pred = if 0 < (k : Int) then Ptr.shot ((k : Int) - 1) else startPtr) :
    ∀ k : Nat, k < n → sh.follow (k + 1) (Ptr.shot (k : Int)) = startPtr := by
  intro k hk
  have h := Shot.follow_down sh startPtr n hpred k k (le_refl k) hk
  rw [Shot.follow_succ, h]
  simp only [sub_self]
  show (sh.nodes 0).pred = startPtr
  have := hpred 0 (by omega)
  simpa using this

/-- The sequence a successful shot returns, for any rounding of the arc
lengths: when the test of line 669 first fails at the head of pass `n > 0` and
the `n` samples taken are traversable, `dubinsShot` returns after exactly `n`
passes the address of element `n - 1`; element `k` holds sample `k` and points
to element `k - 1` (element 0 to the calling node), so `n` links lead from the
returned element to the calling node. -/
theorem dubinsShot_chain {E : Env K} (ops : FloatOps K) (start goal : Node3D K)
    (startPtr : Ptr) (n : Nat) (hn : Ends E ops start.pose goal.pose n) (hpos : 0 < n)
    (hall : ∀ k, k < n → ¬ Rejected E ops start.pose goal.pose k) :
    ∃ sh : Shot K,
      (∀ fuel : Nat, n < fuel → dubinsShot E ops fuel start startPtr goal = some (some sh))
      ∧ (∀ fuel : Nat, fuel ≤ n → dubinsShot E ops fuel start startPtr goal = none)
      ∧ sh.ret = (n : Int) - 1
      ∧ sh.size = toInt (ops.div (E.dubins_path_length start.pose goal.pose)
          E.dubinsStepSize) + 1
      ∧ (∀ k : Nat, k < n →
          (sh.nodes k).pose = shotSample E ops start.pose goal.pose k
          ∧ (sh.nodes k).pred = if 0 < (k : Int) then Ptr.shot ((k : Int) - 1) else startPtr)
      ∧ (∀ j : Nat, j < n →
          sh.follow j (Ptr.shot sh.ret) = Ptr.shot ((n : Int) - 1 - (j : Int)))
      ∧ sh.follow n (Ptr.shot sh.ret) = startPtr := by
  obtain ⟨nodes1, h1, h2, h3⟩ := dubinsShotLoop_ends ops startPtr start.pose goal.pose n hn
    hall (fun _ => Node3D.blank)
  have hnode : ∀ k : Nat, k < n →
      nodes1 (k : Int) = shotNode E ops startPtr start.pose goal.pose k Node3D.blank := by
    intro k hk
    rw [h3 k, if_pos ⟨by omega, by omega⟩]
    simp
  have hpred : ∀ k : Nat, k < n →
      (nodes1 (k : Int)).pred = if 0 < (k : Int) then Ptr.shot ((k : Int) - 1) else startPtr := by
    intro k hk
    rw [hnode k hk]
    rfl
  refine ⟨{ size := toInt (ops.div (E.dubins_path_length start.pose goal.pose)
              E.dubinsStepSize) + 1,
            nodes := nodes1, ret := (n : Int) - 1 },
    ?_, ?_, rfl, rfl, ?_, ?_, ?_⟩
  · intro fuel hf
    rw [dubinsShot_of_loop (h1 fuel hf)]
    rfl
  · intro fuel hf
    exact dubinsShot_none_iff.2 (h2 fuel hf)
  · intro k hk
    refine ⟨?_, hpred k hk⟩
    show (nodes1 (k : Int)).pose = _
    rw [hnode k hk]
    rfl
  · intro j hj
    show Shot.follow _ j (Ptr.shot ((n : Int) - 1)) = _
    have e : (n : Int) - 1 = ((n - 1 : Nat) : Int) := by omega
    rw [e]
    exact Shot.follow_down _ startPtr _ hpred j _ (by omega) (by omega)
  · show Shot.follow _ _ (Ptr.shot ((n : Int) - 1)) = _
    have e : (n : Int) - 1 = ((n - 1 : Nat) : Int) := by omega
    have e2 : n = (n - 1) + 1 := by omega
    rw [e]
    conv_lhs => rw [e2]
    exact Shot.follow_start _ startPtr _ hpred _ (by omega)

theorem dubinsShot_total (E : Env K) (start goal : Node3D K) (startPtr : Ptr)
    (hs : 0 < E.dubinsStepSize) :
    ∃ (fuel : Nat) (r : Option (Shot K)),
      dubinsShot E exactOps fuel start startPtr goal = some r :=
  ⟨_, dubinsShot_returns_of_ends exactOps start goal startPtr _
    (ends_exact start.pose goal.pose hs)⟩

/-- The pass counts of the sampling loop in single precision, on two inputs
where they differ from `ceil (length / s)`: with the step `0.1f`, a curve of
length `0.30000001f` is sampled in 3 passes (4 multiples of the step lie below
the length), and a curve of length `2.5f` in 26 passes, with an array of 26
elements (25 multiples). -/
theorem float32_pass_counts :
    fl32 (1 / 10) = floatEnv01.dubinsStepSize
    ∧ fl32 (30000001 / 100000000) = length03
    ∧ Ends floatEnv01 float32Ops (poseNode 0).pose (poseNode length03).pose 3
    ∧ shotCount floatEnv01 (poseNode 0).pose (poseNode length03).pose = 4
    ∧ Ends floatEnv01 float32Ops (poseNode 0).pose (poseNode (5 / 2)).pose 26
    ∧ shotCount floatEnv01 (poseNode 0).pose (poseNode (5 / 2)).pose = 25
    ∧ (dubinsShot floatEnv01 float32Ops 27 (poseNode 0) Ptr.start (poseNode (5 / 2))).map
        (Option.map (fun sh => (sh.size, sh.ret))) = some (some (26, 25)) := by
  refine ⟨by decide!, by decide!, ?_, by decide!, ?_, by decide!, by decide!⟩
  · unfold Ends; decide!
  · unfold Ends; decide!

/-- C11: whatever the rounding `ops` of the float operations, with `x_k` the
value of the float `x` after `k` additions of `s = Constants::dubinsStepSize`
(`x_k = k * s` in exact arithmetic) and sample `k` the pose at arc length `x_k`,
taken when `x_0, ..., x_k` lie strictly below the curve length: a result of
`dubinsShot` is `nullptr` exactly when some sample taken is rejected by the
traversability oracle; when `k` is the first rejected sample the sampling loop
makes exactly `k + 1` passes (it has not returned after `k` passes, and after
`k + 1` it has returned `nullptr`, which designates no node of the deleted
array); `dubinsShot` returns as soon as some `x_n` is not below the curve
length, within `n + 1` passes; and in exact arithmetic with `s > 0` that
happens. -/
theorem dubinsShot_null_iff_sample_rejected (E : Env K) (ops : FloatOps K)
    (start goal : Node3D K) (startPtr : Ptr) :
    (∀ (fuel : Nat) (r : Option (Shot K)),
        dubinsShot E ops fuel start startPtr goal = some r →
        (r = none ↔ ∃ k, Rejected E ops start.pose goal.pose k))
    ∧ (∀ k, Rejected E ops start.pose goal.pose k →
        (∀ j, j < k → ¬ Rejected E ops start.pose goal.pose j) →
        ∀ fuel : Nat,
          (fuel ≤ k → dubinsShot E ops fuel start startPtr goal = none)
          ∧ (k < fuel → dubinsShot E ops fuel start startPtr goal = some none))
    ∧ (∀ n, ¬ arcLength E ops n < E.dubins_path_length start.pose goal.pose →
        ∃ r : Option (Shot K), dubinsShot E ops (n + 1) start startPtr goal = some r)
    ∧ (0 < E.dubinsStepSize →
        (∀ k : Nat, arcLength E exactOps k = (k : K) * E.dubinsStepSize)
        ∧ ∃ (fuel : Nat) (r : Option (Shot K)),
            dubinsShot E exactOps fuel start startPtr goal = some r) := by
  refine ⟨?_, ?_, ?_, ?_⟩
  · intro fuel r h
    cases hl : dubinsShotLoop E ops startPtr start.pose goal.pose
        (E.dubins_path_length start.pose goal.pose) fuel 0 0 (fun _ => Node3D.blank) with
    | none => rw [dubinsShot_none_iff.2 hl] at h; exact absurd h (by simp)
    | some r1 =>
      rw [dubinsShot_of_loop hl] at h
      have hr : r = r1.map _ := (Option.some.inj h).symm
      have hl1 : dubinsShotLoop E ops startPtr start.pose goal.pose
          (E.dubins_path_length start.pose goal.pose) fuel ((0 : Nat) : Int)
          (arcLength E ops 0) (fun _ => Node3D.blank) = some r1 := hl
      have := dubinsShotLoop_null_iff ops startPtr start.pose goal.pose fuel 0 _ r1
        (fun j hj => absurd hj (Nat.not_lt_zero j)) hl1
      rw [hr]
      constructor
      · intro hn
        have hr1 : r1 = none := by
          cases r1 with
          | none => rfl
          | some a => simp at hn
        obtain ⟨j, _, hj⟩ := this.1 hr1
        exact ⟨j, hj⟩
      · rintro ⟨j, hj⟩
        rw [this.2 ⟨j, Nat.zero_le j, hj⟩]
        rfl
  · intro k hk hfirst fuel
    obtain ⟨a, b⟩ := dubinsShotLoop_first_rejected ops startPtr start.pose goal.pose k hk
      hfirst (fun _ => Node3D.blank) fuel
    exact ⟨fun h => dubinsShot_none_iff.2 (a h), fun h => by rw [dubinsShot_of_loop (b h)]; rfl⟩
  · intro n hn
    obtain ⟨m, hm⟩ := ends_of_reach ⟨n, hn⟩
    have hmn : m ≤ n := by
      by_contra hlt
      exact hn (hm.1 n (by omega))
    obtain ⟨r, hr⟩ := dubinsShot_returns_of_ends ops start goal startPtr m hm
    exact ⟨r, dubinsShot_mono hr (by omega)⟩
  · intro hs
    exact ⟨arcLength_exact E, dubinsShot_total E start goal startPtr hs⟩

/-- C12 (failing input): with the sampling step `0.7f` and a curve of length
`6.99999952f`, every pose traversable, `ceil (length / s)` is 10 and the tenth
multiple of the step is not below the length, but the float `x` reached by ten
additions of the step is: the loop makes 11 passes.  The array has
`(int) (length / s) + 1 = 10` elements, so the eleventh sample is written to
element 10, past its end, and the address returned is that of element 10; ten
links from it lead to element 0 and only the eleventh to the calling node.  In
exact arithmetic the same input gives 10 passes and element 9 of 10. -/
theorem dubinsShot_float_step_takes_extra_sample :
    fl32 (7 / 10) = floatEnv.dubinsStepSize
    ∧ fl32 length7 = length7
    ∧ floatEnv.dubins_path_length (poseNode 0).pose (poseNode length7).pose = length7
    ∧ (∀ k, floatEnv.isTraversable3D
        (shotSample floatEnv float32Ops (poseNode 0).pose (poseNode length7).pose k).1
        (shotSample floatEnv float32Ops (poseNode 0).pose (poseNode length7).pose k).2.1
        (shotSample floatEnv float32Ops (poseNode 0).pose (poseNode length7).pose k).2.2 = true)
    ∧ shotCount floatEnv (poseNode 0).pose (poseNode length7).pose = 10
    ∧ ¬ ((10 : ℚ) * floatEnv.dubinsStepSize < length7)
    ∧ arcLength floatEnv float32Ops 10 < length7
    ∧ Ends floatEnv float32Ops (poseNode 0).pose (poseNode length7).pose 11
    ∧ (dubinsShot floatEnv float32Ops 11 (poseNode 0) Ptr.start (poseNode length7)).isNone = true
    ∧ (dubinsShot floatEnv float32Ops 12 (poseNode 0) Ptr.start (poseNode length7)).map
        (Option.map (fun sh => (sh.size, sh.ret, sh.follow 10 (Ptr.shot sh.ret),
          sh.follow 11 (Ptr.shot sh.ret)))) = some (some (10, 10, Ptr.shot 0, Ptr.start))
    ∧ (dubinsShot floatEnv exactOps 11 (poseNode 0) Ptr.start (poseNode length7)).map
        (Option.map (fun sh => (sh.size, sh.ret, sh.follow 10 (Ptr.shot sh.ret))))
        = some (some (10, 9, Ptr.start)) := by
  refine ⟨by decide!, by decide!, by decide!, fun _ => rfl, by decide!, by decide!, by decide!,
    ?_, by decide!, by decide!, by decide!⟩
  unfold Ends
  decide!

theorem sampled_index_lt_size {E : Env K} {q0 q1 : K × K × K} (hs : 0 < E.dubinsStepSize)
    (k : Nat) (hk : Sampled E exactOps q0 q1 k) :
    (k : Int) < ⌊E.dubins_path_length q0 q1 / E.dubinsStepSize⌋ + 1 := by
  have h1 : (k : K) < E.dubins_path_length q0 q1 / E.dubinsStepSize := by
    rw [lt_div_iff₀ hs]
    exact (sampled_exact_iff hs.le k).1 hk
  have : (k : Int) ≤ ⌊E.dubins_path_length q0 q1 / E.dubinsStepSize⌋ := by
    rw [Int.le_floor]
    exact_mod_cast h1.le
  omega

theorem exact_size_eq {E : Env K} (q0 q1 : K × K × K) (hs : 0 < E.dubinsStepSize)
    (hL : 0 ≤ E.dubins_path_length q0 q1) :
    toInt (exactOps.div (E.dubins_path_length q0 q1) E.dubinsStepSize) + 1
      = ⌊E.dubins_path_length q0 q1 / E.dubinsStepSize⌋ + 1 := by
  show toInt (E.dubins_path_length q0 q1 / E.dubinsStepSize) + 1 = _
  unfold toInt
  rw [if_pos (div_nonneg hL hs.le)]

/-- C24 (counterexample): in exact arithmetic, a shot between two equal poses
has a curve of length 0; with the sampling step `1/2` the array has
`floor (0 / (1/2)) + 1 = 1` element, the loop takes no sample, and the address
returned is that of element `i - 1 = -1`, which is not an element of the
array. -/
theorem dubinsShot_zero_length_returns_before_array :
    0 < shotEnv.dubinsStepSize
    ∧ shotEnv.dubins_path_length (poseNode 0).pose (poseNode 0).pose = 0
    ∧ (dubinsShot shotEnv exactOps 1 (poseNode 0) Ptr.start (poseNode 0)).map
        (Option.map (fun sh => (sh.size, sh.ret))) = some (some (1, -1)) := by
  decide!

/-- C24 (amended): in exact arithmetic, for a positive sampling step `s` and a
positive curve length `L`, every pass `k` of the sampling loop (one whose arc
length `k * s` lies below `L`) writes the element of index `k` with
`0 ≤ k < floor (L / s) + 1`, the size of the array; `dubinsShot` returns; and a
sequence it returns has that size, the address returned is that of element
`ceil (L / s) - 1`, an element of the array, the elements up to that one hold
the samples and no index outside the array is written. -/
theorem dubinsShot_positive_length_within_array (E : Env K) (start goal : Node3D K)
    (startPtr : Ptr) (hs : 0 < E.dubinsStepSize)
    (hL : 0 < E.dubins_path_length start.pose goal.pose) :
    (∀ k : Nat, Sampled E exactOps start.pose goal.pose k →
        (0 : Int) ≤ (k : Int)
        ∧ (k : Int) < ⌊E.dubins_path_length start.pose goal.pose / E.dubinsStepSize⌋ + 1)
    ∧ (∃ (fuel : Nat) (r : Option (Shot K)),
        dubinsShot E exactOps fuel start startPtr goal = some r)
    ∧ (∀ (fuel : Nat) (sh : Shot K),
        dubinsShot E exactOps fuel start startPtr goal = some (some sh) →
        sh.size = ⌊E.dubins_path_length start.pose goal.pose / E.dubinsStepSize⌋ + 1
        ∧ sh.ret = (shotCount E start.pose goal.pose : Int) - 1
        ∧ 0 ≤ sh.ret ∧ sh.ret < sh.size
        ∧ (∀ j : Int, 0 ≤ j → j ≤ sh.ret →
            sh.nodes j = shotNode E exactOps startPtr start.pose goal.pose j.toNat Node3D.blank)
        ∧ (∀ j : Int, j < 0 ∨ sh.size ≤ j → sh.nodes j = Node3D.blank)) := by
  have hN : 0 < shotCount E start.pose goal.pose := by
    unfold shotCount
    exact Nat.ceil_pos.2 (div_pos hL hs)
  have hlt : shotCount E start.pose goal.pose - 1 < shotCount E start.pose goal.pose := by
    omega
  have hlast := sampled_index_lt_size hs (shotCount E start.pose goal.pose - 1)
    ((sampled_iff_lt_ceil hs _).2 hlt)
  refine ⟨fun k hk => ⟨by omega, sampled_index_lt_size hs k hk⟩,
    dubinsShot_total E start goal startPtr hs, ?_⟩
  intro fuel sh h
  obtain ⟨n, hn, _, _, hret, hsize, hnodes⟩ := dubinsShot_some h
  have hnN : n = shotCount E start.pose goal.pose :=
    ends_unique hn (ends_exact start.pose goal.pose hs)
  subst hnN
  rw [exact_size_eq start.pose goal.pose hs hL.le] at hsize
  refine ⟨hsize, hret, by omega, by omega, ?_, ?_⟩
  · intro j hj0 hj
    rw [hnodes j, if_pos ⟨hj0, by omega⟩]
  · intro j hj
    rw [hnodes j, if_neg]
    omega

/-- Instance of C11 in single precision: in the walled corridor, a shot from
cell 0 along a curve of length `6.99999952f` with the step `0.7f` takes its
samples at the float arc lengths `0`, `0.7f`, `1.4f`, `2.1f`; sample 3 is the
first that falls in the blocked cell 2.  After 3 passes the loop has not
returned, and the fourth pass returns `nullptr`. -/
theorem dubinsShot_null_iff_sample_rejected_witness :
    Rejected floatWallEnv float32Ops (poseNode 0).pose (poseNode length7).pose 3
    ∧ (∀ j, j < 3 → ¬ Rejected floatWallEnv float32Ops (poseNode 0).pose (poseNode length7).pose j)
    ∧ dubinsShot floatWallEnv float32Ops 3 (poseNode 0) Ptr.start (poseNode length7) = none
    ∧ dubinsShot floatWallEnv float32Ops 4 (poseNode 0) Ptr.start (poseNode length7)
        = some none :=
  have h3 : Rejected floatWallEnv float32Ops (poseNode 0).pose (poseNode length7).pose 3 := by
    unfold Rejected Sampled; decide!
  have hlt : ∀ j, j < 3 →
      ¬ Rejected floatWallEnv float32Ops (poseNode 0).pose (poseNode length7).pose j := by
    unfold Rejected Sampled; decide!
  have h := (dubinsShot_null_iff_sample_rejected floatWallEnv float32Ops (poseNode 0)
    (poseNode length7) Ptr.start).2.1 3 h3 hlt
  ⟨h3, hlt, (h 3).1 (le_refl 3), (h 4).2 (by decide)⟩

/-- Instance of C24 (amended): in the walled corridor with the step `1/2`, the
shot along a curve of length `3/2` returns a sequence of
`floor (3/2 / (1/2)) + 1 = 4` elements and the address of element
`ceil (3/2 / (1/2)) - 1 = 2`. -/
theorem dubinsShot_positive_length_within_array_witness :
    0 < shotEnv.dubinsStepSize
    ∧ 0 < shotEnv.dubins_path_length (poseNode 0).pose (poseNode (3 / 2)).pose
    ∧ ∃ sh : Shot ℚ,
        dubinsShot shotEnv exactOps 4 (poseNode 0) Ptr.start (poseNode (3 / 2)) = some (some sh)
        ∧ sh.size = 4 ∧ sh.ret = 2 ∧ 0 ≤ sh.ret ∧ sh.ret < sh.size
        ∧ ∀ j : Int, j < 0 ∨ sh.size ≤ j → sh.nodes j = Node3D.blank :=
  have hs : 0 < shotEnv.dubinsStepSize := by decide!
  have hL : 0 < shotEnv.dubins_path_length (poseNode 0).pose (poseNode (3 / 2)).pose := by
    decide!
  have hex : ∃ sh : Shot ℚ,
      dubinsShot shotEnv exactOps 4 (poseNode 0) Ptr.start (poseNode (3 / 2))
        = some (some sh) := by
    have hv : (dubinsShot shotEnv exactOps 4 (poseNode 0) Ptr.start (poseNode (3 / 2))).map
        Option.isSome = some true := by decide!
    cases h : dubinsShot shotEnv exactOps 4 (poseNode 0) Ptr.start (poseNode (3 / 2)) with
    | none => rw [h] at hv; exact absurd hv (by simp)
    | some r =>
      cases r with
      | none => rw [h] at hv; exact absurd hv (by simp)
      | some sh => exact ⟨sh, rfl⟩
  have hf : ⌊shotEnv.dubins_path_length (poseNode 0).pose (poseNode (3 / 2)).pose
      / shotEnv.dubinsStepSize⌋ + 1 = 4 := by decide!
  have hc : (shotCount shotEnv (poseNode 0).pose (poseNode (3 / 2)).pose : Int) - 1 = 2 := by
    decide!
  hex.elim fun sh hsh =>
    have h := (dubinsShot_positive_length_within_array shotEnv (poseNode 0) (poseNode (3 / 2))
      Ptr.start hs hL).2.2 4 sh hsh
    ⟨hs, hL, sh, hsh, h.1.trans hf, h.2.1.trans hc, h.2.2.1, h.2.2.2.1, h.2.2.2.2.2⟩

/-! ## Configuration block: table lengths -/

theorem deriveTables_spec (cos sin : K → K) (pi : K) (st : Statics K) (i : Nat) :
    (∀ st1, deriveTables cos sin pi st i = Except.ok st1 →
      (∀ t, i < (st.table t).length) ∧ ∀ t, (st1.table t).length = (st.table t).length)
    ∧ (∀ t j, deriveTables cos sin pi st i = Except.error (t, j) →
      j = i ∧ (st.table t).length ≤ i)
    ∧ ((∀ t, i < (st.table t).length) → ∃ st1, deriveTables cos sin pi st i = Except.ok st1) := by
  unfold deriveTables
  by_cases h1 : i < st.step_size_.length
  · by_cases h2 : i < st.delta_t_edg_.length
    · by_cases h3 : i < st.delta_t_.length
      · by_cases h4 : i < st.delta_x_.length
        · by_cases h5 : i < st.delta_y_.length
          · simp only [h1, h2, h3, h4, h5, if_true, List.length_set]
            refine ⟨?_, ?_, ?_⟩
            · intro st1 h
              have := Except.ok.inj h
              subst this
              refine ⟨fun t => ?_, fun t => ?_⟩
              · cases t <;> assumption
              · cases t <;> simp [Statics.table]
            · intro t j h
              exact absurd h (by simp)
            · intro _
              exact ⟨_, rfl⟩
          · simp only [h1, h2, h3, h4, h5, if_true, if_false, List.length_set]
            refine ⟨fun st1 h => absurd h (by simp), ?_, fun h => absurd (h Table.delta_y_) h5⟩
            intro t j h
            have := Except.error.inj h
            simp only [Prod.mk.injEq] at this
            obtain ⟨rfl, rfl⟩ := this
            exact ⟨rfl, Nat.le_of_not_lt h5⟩
        · simp only [h1, h2, h3, h4, if_true, if_false, List.length_set]
          refine ⟨fun st1 h => absurd h (by simp), ?_, fun h => absurd (h Table.delta_x_) h4⟩
          intro t j h
          have := Except.error.inj h
          simp only [Prod.mk.injEq] at this
          obtain ⟨rfl, rfl⟩ := this
          exact ⟨rfl, Nat.le_of_not_lt h4⟩
      · simp only [h1, h2, h3, if_true, if_false, List.length_set]
        refine ⟨fun st1 h => absurd h (by simp), ?_, fun h => absurd (h Table.delta_t_) h3⟩
        intro t j h
        have := Except.error.inj h
        simp only [Prod.mk.injEq] at this
        obtain ⟨rfl, rfl⟩ := this
        exact ⟨rfl, Nat.le_of_not_lt h3⟩
    · simp only [h1, h2, if_true, if_false, List.length_set]
      refine ⟨fun st1 h => absurd h (by simp), ?_, fun h => absurd (h Table.delta_t_edg_) h2⟩
      intro t j h
      have := Except.error.inj h
      simp only [Prod.mk.injEq] at this
      obtain ⟨rfl, rfl⟩ := this
      exact ⟨rfl, Nat.le_of_not_lt h2⟩
  · simp only [h1, if_false]
    refine ⟨fun st1 h => absurd h (by simp), ?_, fun h => absurd (h Table.step_size_) h1⟩
    intro t j h
    have := Except.error.inj h
    simp only [Prod.mk.injEq] at this
    obtain ⟨rfl, rfl⟩ := this
    exact ⟨rfl, Nat.le_of_not_lt h1⟩

theorem foldlM_range_succ {α ε : Type} (f : α → Nat → Except ε α) (s : α) (k : Nat) :
    (List.range (k + 1)).foldlM f s = (List.range k).foldlM f s >>= fun s1 => f s1 k := by
  rw [List.range_succ, List.foldlM_append]
  congr 1
  funext s1
  simp [List.foldlM_cons, List.foldlM_nil]

theorem loadLoop_spec (cos sin : K → K) (pi : K) (st0 : Statics K) :
    ∀ k : Nat,
      (∀ st, (List.range k).foldlM (deriveTables cos sin pi) st0 = Except.ok st →
        (∀ t, k ≤ (st0.table t).length) ∧ ∀ t, (st.table t).length = (st0.table t).length)
      ∧ (∀ t j, (List.range k).foldlM (deriveTables cos sin pi) st0 = Except.error (t, j) →
        j < k ∧ (st0.table t).length = j)
      ∧ ((∀ t, k ≤ (st0.table t).length) →
        ∃ st, (List.range k).foldlM (deriveTables cos sin pi) st0 = Except.ok st) := by
  intro k
  induction k with
  | zero =>
    refine ⟨?_, ?_, ?_⟩
    · intro st h
      have : st = st0 := (Except.ok.inj h).symm
      subst this
      exact ⟨fun t => Nat.zero_le _, fun t => rfl⟩
    · intro t j h
      exact absurd h (by simp [List.range_zero, List.foldlM_nil, pure, Except.pure])
    · intro _
      exact ⟨st0, rfl⟩
  | succ k ih =>
    obtain ⟨ih1, ih2, ih3⟩ := ih
    rw [foldlM_range_succ]
    cases hr : (List.range k).foldlM (deriveTables cos sin pi) st0 with
    | error e =>
      obtain ⟨t0, j0⟩ := e
      obtain ⟨hj, hl⟩ := ih2 t0 j0 hr
      refine ⟨?_, ?_, ?_⟩
      · intro st h
        exact absurd h (by simp [bind, Except.bind])
      · intro t j h
        have : (t0, j0) = (t, j) := by
          simpa [bind, Except.bind] using h
        simp only [Prod.mk.injEq] at this
        obtain ⟨rfl, rfl⟩ := this
        exact ⟨by omega, hl⟩
      · intro hall
        obtain ⟨st, hst⟩ := ih3 (fun t => by have := hall t; omega)
        rw [hr] at hst
        exact absurd hst (by simp)
    | ok st1 =>
      obtain ⟨hk, hlen⟩ := ih1 st1 hr
      obtain ⟨s1, s2, s3⟩ := deriveTables_spec cos sin pi st1 k
      have hb : (Except.ok st1 >>= fun s => deriveTables cos sin pi s k)
          = deriveTables cos sin pi st1 k := rfl
      rw [hb]
      refine ⟨?_, ?_, ?_⟩
      · intro st h
        obtain ⟨a, b⟩ := s1 st h
        refine ⟨fun t => ?_, fun t => ?_⟩
        · have := a t
          rw [hlen t] at this
          omega
        · rw [b t, hlen t]
      · intro t j h
        obtain ⟨rfl, hle⟩ := s2 t j h
        rw [hlen t] at hle
        have := hk t
        exact ⟨Nat.lt_succ_self _, by omega⟩
      · intro hall
        exact s3 (fun t => by rw [hlen t]; have := hall t; omega)

/-- C13 (counterexample): a configuration that declares 2 primitives and lists
1 step size is not rejected: the table derivation at the head of `hybridAStar`
indexes `step_size_` at 1, the size of the vector. -/
theorem loadConfig_short_table_counterexample :
    (shortParam.step_size.length : Int) < shortParam.pre_succ_size
    ∧ faultOf (loadConfig (fun _ => 1) (fun _ => 0) 3 shortParam)
        = some (Table.step_size_, 1) := by
  decide!

/-- C13 (amended): `hybridAStar` does not check the lengths of the primitive
tables.  The table derivation at its head (lines 112-127) completes without
indexing a vector past its end exactly for the configurations in which each of
`step_size`, `delta_t_edg`, `delta_t_rad`, `delta_x` and `delta_y` has at least
`pre_succ_size` entries, and it then keeps the length of every table; for any
other configuration it indexes a vector at an index below `pre_succ_size` that
equals the size of the vector. -/
theorem loadConfig_within_tables_iff (cos sin : K → K) (pi : K) (p : Param K) :
    ((∃ st, loadConfig cos sin pi p = Except.ok st) ↔
        ∀ t : Table, p.pre_succ_size.toNat ≤ ((readParam p).table t).length)
    ∧ (∀ st, loadConfig cos sin pi p = Except.ok st →
        ∀ t : Table, (st.table t).length = ((readParam p).table t).length)
    ∧ (∀ (t : Table) (i : Nat), loadConfig cos sin pi p = Except.error (t, i) →
        i < p.pre_succ_size.toNat ∧ ((readParam p).table t).length = i) := by
  obtain ⟨h1, h2, h3⟩ := loadLoop_spec cos sin pi (readParam p) p.pre_succ_size.toNat
  exact ⟨⟨fun ⟨st, h⟩ => (h1 st h).1, h3⟩, fun st h => (h1 st h).2, h2⟩

/-- Instance of C13 (amended): with two entries in every table the derivation
for two primitives completes. -/
theorem loadConfig_within_tables_iff_witness :
    (∀ t : Table, fullParam.pre_succ_size.toNat ≤ ((readParam fullParam).table t).length)
    ∧ ∃ st, loadConfig (fun _ => 1) (fun _ => 0) 3 fullParam = Except.ok st :=
  have h : ∀ t : Table,
      fullParam.pre_succ_size.toNat ≤ ((readParam fullParam).table t).length := by
    intro t
    cases t <;> decide
  ⟨h, (loadConfig_within_tables_iff (fun _ => 1) (fun _ => 0) 3 fullParam).1.2 h⟩

/-! ## Cost to go: the sentinel of the 2D search -/

/-- C14 (failing input): in the walled corridor with primitives two cells long,
`updateH` gives the query node at cell 1 the cost-to-go 1000 for the goal at
cell 3 (the 2D search from the goal does not reach cell 1 and returns its
sentinel), although the forward primitive leads from the query pose to the goal,
at cost 2; `hybridAStar` itself returns the goal node with a cost-so-far of 2. -/
theorem updateH_sentinel_exceeds_remaining_cost :
    (updateH jumpEnv 40 (poseNode 1) (poseNode 3) fresh2D 4 1).map (fun r => r.1.h) = some 1000
    ∧ (drive jumpEnv 4 1 (poseNode 1).pose [0]).map
        (fun q => jumpEnv.equals3D q (poseNode 3).pose) = some true
    ∧ driveCost jumpEnv [0] = 2
    ∧ (hybridAStar jumpEnv 40 (poseNode 1) (poseNode 3) fresh3D fresh2D 4 1).map
        (fun r => (r.ret.popped.map (fun p =>
          (jumpEnv.equals3D (r.final.deref p).pose (poseNode 3).pose, (r.final.deref p).g))))
        = some (some (true, 2)) := by
  decide!

/-! ## 2D search: number of passes -/

theorem aStarRun_inv {E : Env K} {width height : Int} {goal : Node2D K} {a : Int × Int} :
    ∀ (n : Nat) (s0 s : Search2D K), Inv2D E width height a s0 →
      aStarRun E width height goal n s0 = some s →
      Inv2D E width height a s ∧
        potential2D width height s + n ≤ potential2D width height s0 := by
  intro n
  induction n with
  | zero =>
    intro s0 s hinv h
    simp only [aStarRun, Option.some.injEq] at h
    subst h
    exact ⟨hinv, le_refl _⟩
  | succ n ih =>
    intro s0 s hinv h
    unfold aStarRun at h
    by_cases hO : s0.O.isEmpty = true
    · rw [if_pos hO] at h
      exact absurd h (by simp)
    · rw [if_neg hO] at h
      have hne : s0.O ≠ [] := by
        intro e
        rw [e] at hO
        exact hO rfl
      cases hit : aStarIter E width height goal s0 with
      | done r => rw [hit] at h; exact absurd h (by simp)
      | next s1 =>
        rw [hit] at h
        obtain ⟨h1, h2⟩ := aStarIter_next hinv hne hit
        obtain ⟨h3, h4⟩ := ih s1 s h1 h
        exact ⟨h3, by omega⟩

theorem aStarExpand_pushes (E : Env K) (width height : Int) (goal : Node2D K) (p : Ptr)
    (s : Search2D K) :
    ∀ n, ∃ pushed : List Ptr,
      (aStarExpand E width height goal p n s).O = s.O ++ pushed ∧ pushed.length ≤ n := by
  intro n
  induction n with
  | zero => exact ⟨[], by simp [aStarExpand], le_refl _⟩
  | succ n ih =>
    obtain ⟨pushed, h1, h2⟩ := ih
    rw [aStarExpand_succ]
    rcases aStarSucc_cases E width height goal p (aStarExpand E width height goal p n s) n
      with ⟨e, _⟩ | ⟨_, _, _, _, nd, e, _⟩
    · rw [e]
      exact ⟨pushed, h1, by omega⟩
    · rw [e]
      refine ⟨pushed ++ [Ptr.slot
        (candidate2D width p (aStarExpand E width height goal p n s) n).idx], ?_, ?_⟩
      · show (aStarExpand E width height goal p n s).O ++ _ = _
        rw [h1, List.append_assoc]
      · simp only [List.length_append, List.length_singleton]
        omega

/-- One pass of the loop of `aStar` from a consistent memory with a non-empty
heap pops exactly the top entry; a pass that continues leaves the heap without
that entry followed by at most 8 pushed entries, keeps closed slots closed, and
either finds the slot of the top entry closed and then pushes nothing and leaves
the grid as it is, or closes that slot, which was not closed. -/
theorem aStarIter_pass {E : Env K} {width height : Int} {goal : Node2D K} {a : Int × Int}
    {s : Search2D K} (hinv : Inv2D E width height a s) (hne : s.O ≠ []) :
    (s.O.eraseIdx (s.topIdx E)).length + 1 = s.O.length
    ∧ ∀ s1, aStarIter E width height goal s = Step.next s1 →
      (∃ pushed : List Ptr, s1.O = s.O.eraseIdx (s.topIdx E) ++ pushed ∧ pushed.length ≤ 8
        ∧ ((s.nodes2D (aStarIPred E width s)).c = true → pushed = [] ∧ s1.nodes2D = s.nodes2D))
      ∧ (∀ k, (s.nodes2D k).c = true → (s1.nodes2D k).c = true)
      ∧ ((s.nodes2D (aStarIPred E width s)).c = false →
          (s1.nodes2D (aStarIPred E width s)).c = true
          ∧ notClosed width height s1.nodes2D + 1 = notClosed width height s.nodes2D) := by
  obtain ⟨hent, ⟨hr0, hr1⟩, hoc, htop, hcell, hreach⟩ := aStar_top_facts hinv hne
  refine ⟨length_eraseIdx_lt s.O (s.topIdx E) (s.topIdx_lt E hne), ?_⟩
  intro s1 h
  unfold aStarIter at h
  simp only [hent] at h
  split at h
  · rename_i hc
    simp only [Step.next.injEq] at h
    subst h
    refine ⟨⟨[], by simp, by simp, fun _ => ⟨rfl, rfl⟩⟩, fun k hk => hk, fun hf => ?_⟩
    rw [hc] at hf
    exact absurd hf (by simp)
  · rename_i hc
    have hc1 : (s.nodes2D (aStarIPred E width s)).c = false := by simpa using hc
    split at h
    · split at h
      · simp at h
      · simp only [Step.next.injEq] at h
        subst h
        obtain ⟨c1, c2, c3, -, c5, c6⟩ := aStarClose_inv hinv hne hc1
        obtain ⟨e1, -, -, -, e5, e6, e7⟩ :=
          aStarExpand_inv goal c1 c2 (by rw [c3]; exact hreach) Node2D.dir (le_refl _)
        obtain ⟨pushed, p1, p2⟩ :=
          aStarExpand_pushes E width height goal (s.top E) (aStarClose E width s) Node2D.dir
        have hcl := aStarClose_eq hinv hne
        have hclO : (aStarClose E width s).O = s.O.eraseIdx (s.topIdx E) := by rw [hcl]
        have hcln : ∀ k, ((aStarClose E width s).nodes2D k).c
            = if k = aStarIPred E width s then true else (s.nodes2D k).c := by
          intro k
          rw [hcl]
          dsimp only
          by_cases hk : k = aStarIPred E width s
          · rw [if_pos hk, hk, Function.update_same]
            rfl
          · rw [if_neg hk, Function.update_noteq hk]
        refine ⟨⟨pushed, by rw [p1, hclO], p2, fun ht => ?_⟩, fun k hk => ?_, fun _ => ⟨?_, ?_⟩⟩
        · rw [hc1] at ht
          exact absurd ht (by simp)
        · rw [e5 k, hcln k]
          split
          · rfl
          · exact hk
        · rw [e5, hcln, if_pos rfl]
        · rw [notClosed_congr width height e5]
          exact c6
    · rename_i ho
      rcases hoc with h1 | h1
      · exact absurd h1 ho
      · exact absurd h1 hc

/-- C15: from an on-grid start cell `aStar` returns, and its loop body runs at
most `1 + 8 * width * height` times: after `n` passes that did not return,
`n` plus the number of heap entries is at most that bound (so a further pass,
which needs an entry, is at most pass number `1 + 8 * width * height`).  Every
pass pops exactly one entry; a pass that continues pushes at most 8 entries,
and none when the slot of the popped entry is closed; a slot is closed only by
a pass that finds it not closed, closed slots stay closed, and each such pass
lowers the number of slots that are not closed by one. -/
theorem aStar_terminates_within_bound (E : Env K) (start goal : Node2D K)
    (nodes2D : Int → Node2D K) (width height : Int) (hs : OnGrid width height start.cell) :
    (∃ r, aStar E (2 + 8 * (width * height).toNat) start goal nodes2D width height = some r)
    ∧ ∀ (n : Nat) (s : Search2D K),
        aStarRun E width height goal n (aStarInit E start goal nodes2D width height) = some s →
        n + s.O.length ≤ 1 + 8 * (width * height).toNat
        ∧ (s.O ≠ [] →
            (s.O.eraseIdx (s.topIdx E)).length + 1 = s.O.length
            ∧ ∀ s1, aStarIter E width height goal s = Step.next s1 →
              (∃ pushed : List Ptr, s1.O = s.O.eraseIdx (s.topIdx E) ++ pushed
                ∧ pushed.length ≤ 8
                ∧ ((s.nodes2D (aStarIPred E width s)).c = true →
                    pushed = [] ∧ s1.nodes2D = s.nodes2D))
              ∧ (∀ k, (s.nodes2D k).c = true → (s1.nodes2D k).c = true)
              ∧ ((s.nodes2D (aStarIPred E width s)).c = false →
                  (s1.nodes2D (aStarIPred E width s)).c = true
                  ∧ notClosed width height s1.nodes2D + 1
                      = notClosed width height s.nodes2D)) := by
  obtain ⟨hinv, hpot⟩ := aStarInit_inv E start goal nodes2D hs
  refine ⟨aStar_terminates E start goal nodes2D hs _ (by omega), ?_⟩
  intro n s hrun
  obtain ⟨h1, h2⟩ := aStarRun_inv n _ s hinv hrun
  refine ⟨?_, fun hne => aStarIter_pass h1 hne⟩
  have : s.O.length ≤ potential2D width height s := by
    unfold potential2D
    omega
  omega

/-- Instance of C15: the 2D search in the walled corridor of 4 cells, from
cell 0. -/
theorem aStar_terminates_within_bound_witness :
    OnGrid 4 1 (cellNode (K := ℚ) 0 0).cell
    ∧ ∃ r, aStar walledEnv 34 (cellNode 0 0) (cellNode 3 0) fresh2D 4 1 = some r :=
  ⟨⟨by decide, by decide, by decide, by decide⟩,
    (aStar_terminates_within_bound walledEnv (cellNode 0 0) (cellNode 3 0) fresh2D 4 1
      ⟨by decide, by decide, by decide, by decide⟩).1⟩

/-! ## 3D search: one candidate successor -/


/-- C16: a candidate that passes the test of line 332 and whose index is the
index `iPred` of the node being expanded reaches the cost comparison of lines
349-359 with the total cost `C` of the node `n` that `updateG` and `updateH`
leave (the candidate's pose, the expanded node's `g` plus `dx[0]`).  When `C`
exceeds the expanded node's `C` by more than `Constants::tieBreaker` the pass
changes neither the 3D grid nor the heap; otherwise slot `iPred` receives `n`
with status open and the expanded node's own predecessor, and one pointer to
the slot is appended to the heap. -/
theorem same_cell_successor_tie_break (E : Env K) (gas : Nat) (width height : Int)
    (goal : Node3D K) (p : Ptr) (iPred : Int) (step : K) (s : Search3D K) (i : Nat)
    (hg : OnGrid width height (toInt goal.x, toInt goal.y))
    (hgas : 1 + 8 * (width * height).toNat < gas)
    (hidx : (candidate E width height p step s i).idx = iPred)
    (hgrid : (candidate E width height p step s i).isOnGrid E width height = true)
    (htrav : E.isTraversable3D (candidate E width height p step s i).x
      (candidate E width height p step s i).y (candidate E width height p step s i).t = true) :
    ∃ (n : Node3D K) (nodes2D : Int → Node2D K),
      updateH E gas ((candidate E width height p step s i).updateG E.dx0) goal s.nodes2D
        width height = some (n, nodes2D)
      ∧ n.pose = (candidate E width height p step s i).pose
      ∧ n.g = (s.deref p).g + E.dx0
      ∧ (n.getC > (s.deref p).getC + E.tieBreaker →
          hybridSucc E gas width height goal p iPred step s i
            = some { s with nodes2D := nodes2D })
      ∧ (n.getC ≤ (s.deref p).getC + E.tieBreaker →
          hybridSucc E gas width height goal p iPred step s i
            = some { s with nodes2D := nodes2D,
                            nodes3D := Function.update s.nodes3D iPred
                              ((n.setPred (s.deref p).pred).markOpen),
                            O := s.O ++ [Ptr.slot iPred] }
          ∧ ((n.setPred (s.deref p).pred).markOpen).o = true
          ∧ ((n.setPred (s.deref p).pred).markOpen).c = false
          ∧ ((n.setPred (s.deref p).pred).markOpen).pred = (s.deref p).pred) := by
  obtain ⟨n, nodes2D, hu⟩ := updateH_terminates E
    ((candidate E width height p step s i).updateG E.dx0) goal s.nodes2D hg gas hgas
  have hn := updateH_pose hu
  refine ⟨n, nodes2D, hu, ?_, ?_, ?_, ?_⟩
  · rw [hn]; rfl
  · rw [hn]; rfl
  · intro hC
    have hc1 : (true && decide (n.getC > (s.deref p).getC + E.tieBreaker)) = true := by
      simp only [Bool.true_and, decide_eq_true_eq]
      exact hC
    unfold hybridSucc
    simp only [hgrid, htrav, hidx, Bool.and_self, if_true, decide_True, Bool.or_true, hu]
    rw [if_pos (by exact hc1)]
  · intro hC
    refine ⟨?_, rfl, rfl, rfl⟩
    have hc1 : ¬ (true && decide (n.getC > (s.deref p).getC + E.tieBreaker)) = true := by
      simp only [Bool.true_and, decide_eq_true_eq, gt_iff_lt, not_lt]
      exact hC
    have hc2 : (true && decide (n.getC ≤ (s.deref p).getC + E.tieBreaker)) = true := by
      simp only [Bool.true_and, decide_eq_true_eq]
      exact hC
    unfold hybridSucc
    simp only [hgrid, htrav, hidx, Bool.and_self, if_true, decide_True, Bool.or_true, hu]
    rw [if_neg (by exact hc1), if_pos (by exact hc2)]
    rfl

theorem Search3D.setIdx3D_node (E : Env K) (s : Search3D K) (p : Ptr) (width height : Int)
    (k : Int) :
    (s.setIdx E p width height).nodes3D k
      = { s.nodes3D k with idx := ((s.setIdx E p width height).nodes3D k).idx } := by
  cases p with
  | slot j =>
    by_cases hk : k = j
    · subst hk
      simp [Search3D.setIdx, Node3D.setIdx]
    · simp [Search3D.setIdx, Function.update_noteq hk]
  | null => simp [Search3D.setIdx]
  | start => simp [Search3D.setIdx]
  | shot j => simp [Search3D.setIdx]

theorem Search2D.setIdx2D_node (s : Search2D K) (p : Ptr) (width : Int) (k : Int) :
    (s.setIdx p width).nodes2D k
      = { s.nodes2D k with idx := ((s.setIdx p width).nodes2D k).idx } := by
  cases p with
  | slot j =>
    by_cases hk : k = j
    · subst hk
      simp [Search2D.setIdx, Node2D.setIdx]
    · simp [Search2D.setIdx, Function.update_noteq hk]
  | null => simp [Search2D.setIdx]
  | start => simp [Search2D.setIdx]
  | shot j => simp [Search2D.setIdx]

/-- C17: when the slot designated by the top entry of the heap is closed, the
pass of the loop of `hybridAStar`, and likewise of `aStar`, continues with the
heap without that one entry and generates no successor: every slot of the
canonical grid keeps its content (status, `g`, `h`, predecessor, pose), up to the
index that `setIdx` stores in the node of the top entry, and the 2D grid of
`hybridAStar` is unchanged. -/
theorem stale_entry_is_discarded (E : Env K) (gas : Nat) (width height : Int) :
    (∀ (goal : Node3D K) (s : Search3D K), s.O ≠ [] →
        (s.nodes3D (hybridIPred E width height s)).c = true →
        ∃ s1, hybridIter E gas width height goal s = some (Step.next s1)
          ∧ s1.O = s.O.eraseIdx (s.topIdx E) ∧ s1.O.length + 1 = s.O.length
          ∧ s1.nodes2D = s.nodes2D
          ∧ ∀ k, s1.nodes3D k = { s.nodes3D k with idx := (s1.nodes3D k).idx })
    ∧ (∀ (goal : Node2D K) (s : Search2D K), s.O ≠ [] →
        (s.nodes2D (aStarIPred E width s)).c = true →
        ∃ s1, aStarIter E width height goal s = Step.next s1
          ∧ s1.O = s.O.eraseIdx (s.topIdx E) ∧ s1.O.length + 1 = s.O.length
          ∧ ∀ k, s1.nodes2D k = { s.nodes2D k with idx := (s1.nodes2D k).idx }) := by
  constructor
  · intro goal s hne hc
    have hc1 : ((hybridEnter E width height s).nodes3D (hybridIPred E width height s)).c
        = true := by
      have := (Search3D.setIdx_flags E s (s.top E) width height
        (hybridIPred E width height s)).1
      rw [← hc, ← this]
      rfl
    refine ⟨{ hybridEnter E width height s with
        O := (hybridEnter E width height s).O.eraseIdx (s.topIdx E) }, ?_, ?_, ?_, ?_, ?_⟩
    · unfold hybridIter
      simp only [hc1, if_true]
    · cases hp : s.top E <;> simp [hybridEnter, Search3D.setIdx, hp]
    · have hO : (hybridEnter E width height s).O = s.O := by
        cases hp : s.top E <;> simp [hybridEnter, Search3D.setIdx, hp]
      show ((hybridEnter E width height s).O.eraseIdx (s.topIdx E)).length + 1 = _
      rw [hO]
      exact length_eraseIdx_lt s.O (s.topIdx E) (Search3D.topIdx3D_lt E s hne)
    · cases hp : s.top E <;> simp [hybridEnter, Search3D.setIdx, hp]
    · intro k
      exact Search3D.setIdx3D_node E s (s.top E) width height k
  · intro goal s hne hc
    have hn := fun k => Search2D.setIdx2D_node s (s.top E) width k
    have hc1 : ((aStarEnter E width s).nodes2D (aStarIPred E width s)).c = true := by
      have := hn (aStarIPred E width s)
      unfold aStarEnter
      rw [this]
      exact hc
    have hO : (aStarEnter E width s).O = s.O := by
      cases hp : s.top E <;> simp [aStarEnter, Search2D.setIdx, hp]
    refine ⟨{ aStarEnter E width s with
        O := (aStarEnter E width s).O.eraseIdx (s.topIdx E) }, ?_, ?_, ?_, ?_⟩
    · unfold aStarIter
      simp only [hc1, if_true]
    · show (aStarEnter E width s).O.eraseIdx (s.topIdx E) = _
      rw [hO]
    · show ((aStarEnter E width s).O.eraseIdx (s.topIdx E)).length + 1 = _
      rw [hO]
      exact length_eraseIdx_lt s.O (s.topIdx E) (Search2D.topIdx_lt E s hne)
    · intro k
      exact hn k

/-- Instance of C17: the memories `staleState3D` and `staleState2D`, whose top
entry designates a closed slot. -/
theorem stale_entry_is_discarded_witness :
    (staleState3D.O ≠ []
      ∧ (staleState3D.nodes3D (hybridIPred staleEnv 4 1 staleState3D)).c = true
      ∧ ∃ s1, hybridIter staleEnv 40 4 1 (poseNode 3) staleState3D = some (Step.next s1)
          ∧ s1.O = [Ptr.slot 1] ∧ s1.nodes2D = staleState3D.nodes2D)
    ∧ (staleState2D.O ≠ []
      ∧ (staleState2D.nodes2D (aStarIPred fifoEnv 3 staleState2D)).c = true
      ∧ ∃ s1, aStarIter fifoEnv 3 2 (cellNode 7 7) staleState2D = Step.next s1
          ∧ s1.O = []) := by
  have a1 : staleState3D.O ≠ [] := by decide!
  have a2 : (staleState3D.nodes3D (hybridIPred staleEnv 4 1 staleState3D)).c = true := by
    decide!
  have b1 : staleState2D.O ≠ [] := by decide!
  have b2 : (staleState2D.nodes2D (aStarIPred fifoEnv 3 staleState2D)).c = true := by decide!
  obtain ⟨s1, h1, h2, _, h4, _⟩ :=
    (stale_entry_is_discarded staleEnv 40 4 1).1 (poseNode 3) staleState3D a1 a2
  obtain ⟨t1, g1, g2, _, _⟩ :=
    (stale_entry_is_discarded fifoEnv 40 3 2).2 (cellNode 7 7) staleState2D b1 b2
  refine ⟨⟨a1, a2, s1, h1, ?_, h4⟩, b1, b2, t1, g1, ?_⟩
  · rw [h2]
    decide!
  · rw [g2]
    decide!

/-- Instance of C16: in the corridor with half-cell primitives the forward
successor of the start node at cell 0 stays in cell 0. -/
theorem same_cell_successor_tie_break_witness :
    (candidate halfEnv 4 1 Ptr.start 0 closedState 0).idx = 0
    ∧ (candidate halfEnv 4 1 Ptr.start 0 closedState 0).isOnGrid halfEnv 4 1 = true
    ∧ (∃ (n : Node3D ℚ) (nodes2D : Int → Node2D ℚ),
        updateH halfEnv 40 ((candidate halfEnv 4 1 Ptr.start 0 closedState 0).updateG
          halfEnv.dx0) (poseNode 3) closedState.nodes2D 4 1 = some (n, nodes2D)
        ∧ n.g = (closedState.deref Ptr.start).g + halfEnv.dx0
        ∧ (n.getC ≤ (closedState.deref Ptr.start).getC + halfEnv.tieBreaker →
            hybridSucc halfEnv 40 4 1 (poseNode 3) Ptr.start 0 0 closedState 0
              = some { closedState with
                  nodes2D := nodes2D,
                  nodes3D := Function.update closedState.nodes3D 0
                    ((n.setPred (closedState.deref Ptr.start).pred).markOpen),
                  O := closedState.O ++ [Ptr.slot 0] }))
    ∧ reopenedState.O = closedState.O ++ [Ptr.slot 0] := by
  obtain ⟨n, nodes2D, h1, _, h3, _, h5⟩ :=
    same_cell_successor_tie_break halfEnv 40 4 1 (poseNode 3) Ptr.start 0 0 closedState 0
      ⟨by decide, by decide, by decide, by decide⟩ (by decide) (by decide!) (by decide!)
      (by decide!)
  exact ⟨by decide!, by decide!, ⟨n, nodes2D, h1, h3, fun hC => (h5 hC).1⟩, by decide!⟩

theorem candidate_withSlot (E : Env K) (width height : Int) (p : Ptr) (step : K)
    (s : Search3D K) (i : Nat) (k : Int) (v : Node3D K)
    (hv : (s.withSlot k v).deref p = s.deref p) :
    candidate E width height p step (s.withSlot k v) i = candidate E width height p step s i := by
  unfold candidate
  rw [hv]

theorem hybridSucc_rejects (E : Env K) (gas : Nat) (width height : Int) (goal : Node3D K)
    (p : Ptr) (iPred : Int) (step : K) (s : Search3D K) (i : Nat)
    (h : (candidate E width height p step s i).isOnGrid E width height = false
      ∨ E.isTraversable3D (candidate E width height p step s i).x
          (candidate E width height p step s i).y
          (candidate E width height p step s i).t = false) :
    hybridSucc E gas width height goal p iPred step s i = some s := by
  unfold hybridSucc
  rcases h with h | h <;> simp [h]

theorem hybridSucc_writes {E : Env K} {gas : Nat} {width height : Int} {goal : Node3D K}
    {p : Ptr} {iPred : Int} {step : K} {s s1 : Search3D K} {i : Nat} (k : Int)
    (h : hybridSucc E gas width height goal p iPred step s i = some s1)
    (hne : s1.nodes3D k ≠ s.nodes3D k) :
    k = (candidate E width height p step s i).idx
    ∧ (s1.nodes3D k).pose = (candidate E width height p step s i).pose
    ∧ (s1.nodes3D k).isOnGrid E width height = true
    ∧ E.isTraversable3D (s1.nodes3D k).x (s1.nodes3D k).y (s1.nodes3D k).t = true := by
  obtain ⟨-, h2 | ⟨n, h3, -, -, -, -, hgrid, hx, hy, ht, -, htrav, -⟩⟩ := hybridSucc_spec h
  · exact absurd (by rw [h2.1]) hne
  · by_cases hk : k = (candidate E width height p step s i).idx
    · subst hk
      rw [h3, Function.update_same]
      refine ⟨rfl, ?_, ?_, htrav⟩
      · show (n.x, n.y, n.t) = _
        rw [hx, hy, ht]
        rfl
      · unfold Node3D.isOnGrid at hgrid ⊢
        rw [hx, hy, ht]
        exact hgrid
    · exact absurd (by rw [h3, Function.update_noteq hk]) hne

theorem hybridExpand_writes {E : Env K} {gas : Nat} {width height : Int} {goal : Node3D K}
    {p : Ptr} {iPred : Int} {step : K} {n : Nat} {s s1 : Search3D K} (k : Int)
    (h : hybridExpand E gas width height goal p iPred step n s = some s1)
    (hne : s1.nodes3D k ≠ s.nodes3D k) :
    (s1.nodes3D k).isOnGrid E width height = true
    ∧ E.isTraversable3D (s1.nodes3D k).x (s1.nodes3D k).y (s1.nodes3D k).t = true := by
  have := hybridExpand_invariant
    (fun t : Search3D K => t.nodes3D k = s.nodes3D k
      ∨ ((t.nodes3D k).isOnGrid E width height = true
        ∧ E.isTraversable3D (t.nodes3D k).x (t.nodes3D k).y (t.nodes3D k).t = true))
    (fun t i t1 ht hs => by
      by_cases hch : t1.nodes3D k = t.nodes3D k
      · show t1.nodes3D k = s.nodes3D k ∨ _
        rw [hch]
        exact ht
      · exact Or.inr (hybridSucc_writes k hs hch).2.2)
    (Or.inl rfl) h
  rcases this with e | e
  · exact absurd e hne
  · exact e

theorem hybridClose_pose (E : Env K) (width height : Int) (s : Search3D K) (k : Int) :
    ((hybridEnter E width height s).nodes3D k).pose = (s.nodes3D k).pose
    ∧ ((hybridClose E width height s).nodes3D k).pose = (s.nodes3D k).pose := by
  have hent : ((hybridEnter E width height s).nodes3D k).pose = (s.nodes3D k).pose :=
    (Search3D.setIdx_flags E s (s.top E) width height k).2.2.2.2.2
  refine ⟨hent, ?_⟩
  simp only [hybridClose]
  by_cases hk : k = hybridIPred E width height s
  · subst hk
    rw [Function.update_same, ← hent]
    rfl
  · rw [Function.update_noteq hk]
    exact hent

/-- C18: a pass of the successor loop whose candidate is off the grid or
rejected by the traversability oracle leaves the whole memory (3D grid, 2D
grid, heap) as it is, whatever the 3D grid holds at the candidate's index; a
slot that a pass changes is the slot of the candidate's index and receives a
node with the candidate's pose, which is on the grid and traversable; so does
every slot that a whole expansion changes, and every slot whose pose a pass of
the main loop changes. -/
theorem rejected_candidate_leaves_memory (E : Env K) (gas : Nat) (width height : Int)
    (goal : Node3D K) :
    (∀ (p : Ptr) (iPred : Int) (step : K) (s : Search3D K) (i : Nat),
        ((candidate E width height p step s i).isOnGrid E width height = false
          ∨ E.isTraversable3D (candidate E width height p step s i).x
              (candidate E width height p step s i).y
              (candidate E width height p step s i).t = false) →
        hybridSucc E gas width height goal p iPred step s i = some s
        ∧ ∀ v : Node3D K,
            (s.withSlot (candidate E width height p step s i).idx v).deref p = s.deref p →
            hybridSucc E gas width height goal p iPred step
              (s.withSlot (candidate E width height p step s i).idx v) i
              = some (s.withSlot (candidate E width height p step s i).idx v))
    ∧ (∀ (p : Ptr) (iPred : Int) (step : K) (s s1 : Search3D K) (i : Nat) (k : Int),
        hybridSucc E gas width height goal p iPred step s i = some s1 →
        s1.nodes3D k ≠ s.nodes3D k →
        k = (candidate E width height p step s i).idx
        ∧ (s1.nodes3D k).pose = (candidate E width height p step s i).pose
        ∧ (s1.nodes3D k).isOnGrid E width height = true
        ∧ E.isTraversable3D (s1.nodes3D k).x (s1.nodes3D k).y (s1.nodes3D k).t = true)
    ∧ (∀ (p : Ptr) (iPred : Int) (step : K) (n : Nat) (s s1 : Search3D K) (k : Int),
        hybridExpand E gas width height goal p iPred step n s = some s1 →
        s1.nodes3D k ≠ s.nodes3D k →
        (s1.nodes3D k).isOnGrid E width height = true
        ∧ E.isTraversable3D (s1.nodes3D k).x (s1.nodes3D k).y (s1.nodes3D k).t = true)
    ∧ (∀ (s : Search3D K) (st : Step (Search3D K) (Result3D K)) (k : Int),
        hybridIter E gas width height goal s = some st →
        (st.memory.nodes3D k).pose ≠ (s.nodes3D k).pose →
        (st.memory.nodes3D k).isOnGrid E width height = true
        ∧ E.isTraversable3D (st.memory.nodes3D k).x (st.memory.nodes3D k).y
            (st.memory.nodes3D k).t = true) := by
  refine ⟨fun p iPred step s i h =>
      ⟨hybridSucc_rejects E gas width height goal p iPred step s i h, fun v hv => ?_⟩,
    fun p iPred step s s1 i k h hne => hybridSucc_writes k h hne,
    fun p iPred step n s s1 k h hne => hybridExpand_writes k h hne, ?_⟩
  · apply hybridSucc_rejects
    rw [candidate_withSlot E width height p step s i _ v hv]
    exact h
  · intro s st k h hne
    obtain ⟨hent, hclose⟩ := hybridClose_pose E width height s k
    unfold hybridIter at h
    simp only at h
    split at h
    · cases h; exact absurd hent hne
    · split at h
      · split at h
        · cases h; exact absurd hclose hne
        · split at h
          · simp at h
          · cases h; exact absurd hclose hne
          · simp only [Option.map_eq_some'] at h
            obtain ⟨s1, hs1, rfl⟩ := h
            apply hybridExpand_writes k hs1
            intro e
            apply hne
            show (s1.nodes3D k).pose = _
            rw [e]
            exact hclose
      · cases h; exact absurd hent hne

/-- Instance of C18: the backward successor of the start node at cell 0 is off
the grid. -/
theorem rejected_candidate_leaves_memory_witness :
    (candidate halfEnv 4 1 Ptr.start 0 closedState 1).isOnGrid halfEnv 4 1 = false
    ∧ hybridSucc halfEnv 40 4 1 (poseNode 3) Ptr.start 0 0 closedState 1 = some closedState :=
  have h : (candidate halfEnv 4 1 Ptr.start 0 closedState 1).isOnGrid halfEnv 4 1 = false := by
    decide!
  ⟨h, ((rejected_candidate_leaves_memory halfEnv 40 4 1 (poseNode 3)).1 Ptr.start 0 0
    closedState 1 (Or.inl h)).1⟩

/-! ## Distance-adaptive mode: the step-size lookup -/


theorem distStepSize_eq (E : Env K) (q : K × K × K) :
    distStepSize E q = E.value_.getD (distIndex E q) 0 := rfl

theorem distIndex_eq_of_first (E : Env K) (q : K × K × K) (k : Nat)
    (hk : k < E.distance_.length)
    (hmeet : E.distance_.get ⟨k, hk⟩ ≤ E.getDistance q.1 q.2.1)
    (hfirst : ∀ (j : Nat) (hj : j < k),
      E.getDistance q.1 q.2.1 < E.distance_.get ⟨j, lt_trans hj hk⟩) :
    distIndex E q = k := by
  unfold distIndex
  rw [List.findIdx_eq hk]
  refine ⟨by simpa using hmeet, fun j hj => ?_⟩
  have := hfirst j hj
  simpa using this

theorem distIndex_eq_length (E : Env K) (q : K × K × K)
    (hbelow : ∀ a ∈ E.distance_, E.getDistance q.1 q.2.1 < a) :
    distIndex E q = E.distance_.length := by
  unfold distIndex
  rw [List.findIdx_eq_length]
  intro a ha
  simpa using hbelow a ha

theorem hybridIter_expands {E : Env K} {gas : Nat} {width height : Int} {goal : Node3D K}
    {s : Search3D K}
    (hc : ((hybridEnter E width height s).nodes3D (hybridIPred E width height s)).c = false)
    (ho : ((hybridEnter E width height s).nodes3D (hybridIPred E width height s)).o = true)
    (hgoal : (E.equals3D ((hybridClose E width height s).deref (s.top E)).pose goal.pose
      || decide ((hybridClose E width height s).iterations > E.iterations)) = false)
    (hshot : shotAttempt E gas goal (s.top E) (hybridClose E width height s) = some none) :
    hybridIter E gas width height goal s
      = (hybridExpand E gas width height goal (s.top E) (hybridIPred E width height s)
          (stepSize E ((hybridClose E width height s).deref (s.top E)).pose)
          E.succ_size_.toNat (hybridClose E width height s)).map Step.next := by
  unfold hybridIter
  simp only [hc, ho, hgoal, hshot, Bool.false_eq_true, if_false, if_true]

/-- C19: in distance-adaptive mode, when `k` is the first index whose threshold
`distance_[k]` the clearance at the position of the popped node meets, and
`value_` has an entry `k`, the lookup of lines 293-302 ends with `index = k`
and `step_size = value_[k]`; a pass that reaches the successor loop runs it
with that one step size, and the candidate of every primitive `i` is
`dist_createSuccessor(i, value_[k])` of the node being expanded. -/
theorem dist_mode_step_size (E : Env K) (gas : Nat) (width height : Int) (goal : Node3D K)
    (s : Search3D K) (k : Nat) (hmode : E.use_dist_mode_ = true)
    (hk : k < E.distance_.length) (hv : k < E.value_.length)
    (hmeet : E.distance_.get ⟨k, hk⟩
      ≤ E.getDistance ((hybridClose E width height s).deref (s.top E)).x
          ((hybridClose E width height s).deref (s.top E)).y)
    (hfirst : ∀ (j : Nat) (hj : j < k),
      E.getDistance ((hybridClose E width height s).deref (s.top E)).x
          ((hybridClose E width height s).deref (s.top E)).y
        < E.distance_.get ⟨j, lt_trans hj hk⟩) :
    distIndex E ((hybridClose E width height s).deref (s.top E)).pose = k
    ∧ stepSize E ((hybridClose E width height s).deref (s.top E)).pose = E.value_.get ⟨k, hv⟩
    ∧ (((hybridEnter E width height s).nodes3D (hybridIPred E width height s)).c = false →
        ((hybridEnter E width height s).nodes3D (hybridIPred E width height s)).o = true →
        (E.equals3D ((hybridClose E width height s).deref (s.top E)).pose goal.pose
          || decide ((hybridClose E width height s).iterations > E.iterations)) = false →
        shotAttempt E gas goal (s.top E) (hybridClose E width height s) = some none →
        hybridIter E gas width height goal s
          = (hybridExpand E gas width height goal (s.top E) (hybridIPred E width height s)
              (E.value_.get ⟨k, hv⟩) E.succ_size_.toNat
              (hybridClose E width height s)).map Step.next)
    ∧ (∀ (t : Search3D K) (i : Nat),
        (candidate E width height (s.top E) (E.value_.get ⟨k, hv⟩) t i).pose
          = E.dist_createSuccessor (t.deref (s.top E)).pose i (E.value_.get ⟨k, hv⟩)) := by
  have hidx := distIndex_eq_of_first E ((hybridClose E width height s).deref (s.top E)).pose k
    hk hmeet hfirst
  have hstep : stepSize E ((hybridClose E width height s).deref (s.top E)).pose
      = E.value_.get ⟨k, hv⟩ := by
    unfold stepSize
    rw [if_pos hmode, distStepSize_eq, hidx, List.getD_eq_getElem _ _ hv]
    rfl
  refine ⟨hidx, hstep, ?_, ?_⟩
  · intro hc ho hgoal hshot
    rw [hybridIter_expands hc ho hgoal hshot, hstep]
  · intro t i
    rw [candidate_pose]
    unfold succPose
    rw [if_pos hmode]

theorem shotAttempt_disabled (E : Env K) (gas : Nat) (goal : Node3D K) (p : Ptr)
    (s : Search3D K) (h : E.dubinsShot = false) :
    shotAttempt E gas goal p s = some none := by
  unfold shotAttempt
  simp [h]

/-- Instance of C19: the first pass of the search in `distEnv` from the pose
`(1, 0, 0)`, whose clearance 1 meets the second threshold. -/
theorem dist_mode_step_size_witness :
    distEnv.use_dist_mode_ = true
    ∧ distIndex distEnv
        ((hybridClose distEnv 4 1 (distState 1)).deref ((distState 1).top distEnv)).pose = 1
    ∧ stepSize distEnv
        ((hybridClose distEnv 4 1 (distState 1)).deref ((distState 1).top distEnv)).pose = 1
    ∧ hybridIter distEnv 40 4 1 (poseNode 3) (distState 1)
        = (hybridExpand distEnv 40 4 1 (poseNode 3) ((distState 1).top distEnv)
            (hybridIPred distEnv 4 1 (distState 1)) 1 distEnv.succ_size_.toNat
            (hybridClose distEnv 4 1 (distState 1))).map Step.next := by
  obtain ⟨h1, h2, h3, _⟩ := dist_mode_step_size distEnv 40 4 1 (poseNode 3) (distState 1) 1
    rfl (by decide) (by decide) (by decide!)
    (fun j hj => by
      have : j = 0 := by omega
      subst this
      show distEnv.getDistance _ _ < (3 : ℚ)
      decide!)
  exact ⟨rfl, h1, h2, h3 (by decide!) (by decide!) (by decide!)
    (shotAttempt_disabled distEnv 40 (poseNode 3) _ _ rfl)⟩

/-- C20 (failing input): in `distEnv`, whose lists `distance_` and `value_` both
have 2 entries, the first pass of the search from the pose `(0, 0, 0)`, of
clearance 0, reaches the successor loop, and the lookup that precedes it ends
with `index = 2`: line 302 reads `value_[2]`, one past the last entry. -/
theorem distIndex_reads_past_end :
    distEnv.distance_.length = distEnv.value_.length
    ∧ distIndex distEnv
        ((hybridClose distEnv 4 1 (distState 0)).deref ((distState 0).top distEnv)).pose
        = distEnv.value_.length
    ∧ hybridIter distEnv 40 4 1 (poseNode 3) (distState 0)
        = (hybridExpand distEnv 40 4 1 (poseNode 3) ((distState 0).top distEnv)
            (hybridIPred distEnv 4 1 (distState 0))
            (stepSize distEnv
              ((hybridClose distEnv 4 1 (distState 0)).deref ((distState 0).top distEnv)).pose)
            distEnv.succ_size_.toNat (hybridClose distEnv 4 1 (distState 0))).map Step.next :=
  ⟨rfl, by decide!,
    hybridIter_expands (by decide!) (by decide!) (by decide!)
      (shotAttempt_disabled distEnv 40 (poseNode 3) _ _ rfl)⟩

/-! ## Cost-so-far of a successor; bounds of the shot array -/

/-- The node that an accepting pass of the successor loop stores has the
cost-so-far of the expanded node plus `Node3D::dx[0]` (line 338), whatever the
mode and the step size of the expansion. -/
theorem hybridSucc_tentative_g {E : Env K} {gas : Nat} {width height : Int} {goal : Node3D K}
    {p : Ptr} {iPred : Int} {step : K} {s s1 : Search3D K} {i : Nat} (k : Int)
    (h : hybridSucc E gas width height goal p iPred step s i = some s1)
    (hne : s1.nodes3D k ≠ s.nodes3D k) :
    (s1.nodes3D k).g = (s.deref p).g + E.dx0 := by
  unfold hybridSucc at h
  simp only at h
  split at h
  · split at h
    · split at h
      · split at h
        · exact absurd h (by simp)
        · rename_i q nodes hq
          have hq1 := updateH_pose hq
          split at h
          · simp only [Option.some.injEq] at h
            subst h
            exact absurd rfl hne
          · simp only [Option.some.injEq] at h
            subst h
            by_cases hk : k = (candidate E width height p step s i).idx
            · subst hk
              show (Function.update s.nodes3D _ _ _).g = _
              rw [Function.update_same, hq1]
              split <;> rfl
            · exact absurd (by
                show Function.update s.nodes3D _ _ k = s.nodes3D k
                rw [Function.update_noteq hk]) hne
      · simp only [Option.some.injEq] at h
        subst h
        exact absurd rfl hne
    · simp only [Option.some.injEq] at h
      subst h
      exact absurd rfl hne
  · simp only [Option.some.injEq] at h
    subst h
    exact absurd rfl hne

/-- C21 (failing input): in distance-adaptive mode (`distEnv`, `dx[0] = 1`) the
start node at pose `(3, 0, 0)`, of clearance 3, is expanded with the step size
`value_[0] = 2`; its backward successor, generated by
`dist_createSuccessor(1, 2)` two cells back at `(1, 0, 0)`, is accepted into
slot 1 with the cost-so-far `0 + 1`, the predecessor's `g` plus `dx[0]`, and not
`0 + 2`, the predecessor's `g` plus the step length. -/
theorem successor_g_ignores_step_size :
    distEnv.use_dist_mode_ = true
    ∧ stepSize distEnv (farState.deref Ptr.start).pose = 2
    ∧ (candidate distEnv 4 1 Ptr.start 2 farState 1).pose
        = distEnv.dist_createSuccessor (farState.deref Ptr.start).pose 1 2
    ∧ (candidate distEnv 4 1 Ptr.start 2 farState 1).pose = (1, 0, 0)
    ∧ (farState.deref Ptr.start).g = 0
    ∧ (hybridSucc distEnv 40 4 1 (poseNode 0) Ptr.start 3 2 farState 1).map
        (fun s => ((s.nodes3D 1).g, (s.nodes3D 1).o, s.O)) = some (1, true, [Ptr.slot 1]) := by
  decide!

/-! ## Configuration block: the derived tables -/

theorem getD_set_eq {α : Type} (l : List α) (k i : Nat) (v d : α) :
    (l.set k v).getD i d = if i = k ∧ k < l.length then v else l.getD i d := by
  simp only [List.getD_eq_getElem?_getD, List.getElem?_set]
  by_cases hik : k = i
  · subst hik
    by_cases hk : k < l.length
    · simp [hk]
    · simp [hk, List.getElem?_eq_none (not_lt.mp hk)]
  · have : ¬ (i = k ∧ k < l.length) := fun h => hik h.1.symm
    simp [hik, this]

theorem deriveTables_ok (cos sin : K → K) (pi : K) (st : Statics K) (i : Nat)
    (h : ∀ t, i < (st.table t).length) :
    deriveTables cos sin pi st i = Except.ok
      { st with
        step_size_ := st.step_size_.set i (stepAt st i),
        delta_t_ := st.delta_t_.set i (angleAt pi st i),
        delta_x_ := st.delta_x_.set i (deltaXAt cos pi st i),
        delta_y_ := st.delta_y_.set i (deltaYAt sin pi st i) } := by
  have h1 : i < st.step_size_.length := h Table.step_size_
  have h2 : i < st.delta_t_edg_.length := h Table.delta_t_edg_
  have h3 : i < st.delta_t_.length := h Table.delta_t_
  have h4 : i < st.delta_x_.length := h Table.delta_x_
  have h5 : i < st.delta_y_.length := h Table.delta_y_
  unfold deriveTables
  simp only [h1, h2, h3, h4, h5, if_true, List.length_set]
  rfl

theorem loadLoop_tables (cos sin : K → K) (pi : K) (st0 : Statics K) :
    ∀ k : Nat, (∀ t, k ≤ (st0.table t).length) →
      ∃ st, (List.range k).foldlM (deriveTables cos sin pi) st0 = Except.ok st
        ∧ TablesUpTo cos sin pi st0 st k := by
  intro k
  induction k with
  | zero =>
    intro _
    refine ⟨st0, rfl, rfl, rfl, fun t => rfl, fun i => ?_⟩
    simp
  | succ k ih =>
    intro hlen
    obtain ⟨st, hst, hpf, hedg, hl, hval⟩ := ih (fun t => by have := hlen t; omega)
    have hk : ∀ t, k < (st.table t).length := fun t => by
      rw [hl t]
      have := hlen t
      omega
    have e1 : stepAt st k = stepAt st0 k := by
      unfold stepAt
      rw [(hval k).1, if_neg (lt_irrefl k)]
    have e2 : angleAt pi st k = angleAt pi st0 k := by
      unfold angleAt
      rw [hpf, hedg]
    have e3 : deltaXAt cos pi st k = deltaXAt cos pi st0 k := by
      unfold deltaXAt
      rw [hpf, e1, e2]
    have e4 : deltaYAt sin pi st k = deltaYAt sin pi st0 k := by
      unfold deltaYAt
      rw [hpf, e1, e2]
    rw [foldlM_range_succ, hst]
    refine ⟨_, deriveTables_ok cos sin pi st k hk, hpf, hedg, fun t => ?_, fun i => ?_⟩
    · rw [← hl t]
      cases t <;> simp [Statics.table]
    · have h1 := hk Table.step_size_
      have h3 := hk Table.delta_t_
      have h4 := hk Table.delta_x_
      have h5 := hk Table.delta_y_
      simp only [Statics.table] at h1 h3 h4 h5
      obtain ⟨v1, v2, v3, v4⟩ := hval i
      simp only [getD_set_eq, h1, h3, h4, h5, and_true, e1, e2, e3, e4]
      by_cases hik : i = k
      · subst hik
        simp
      · have hlt : i < k + 1 ↔ i < k := by omega
        simp only [hik, if_false, hlt]
        exact ⟨v1, v2, v3, v4⟩

theorem loadConfig_values (cos sin : K → K) (pi : K) (p : Param K)
    (hlen : ∀ t : Table, p.pre_succ_size.toNat ≤ ((readParam p).table t).length) :
    ∃ st, loadConfig cos sin pi p = Except.ok st ∧
      ∀ i : Nat, i < p.pre_succ_size.toNat →
        st.step_size_.getD i 0 = p.step_size.getD i 0 * (1178097 / 10000000)
        ∧ st.delta_t_.getD i 0 = p.delta_t_edg.getD i 0 * pi / 180
        ∧ ((i : Int) < p.pre_forward_size →
            st.delta_x_.getD i 0 = st.step_size_.getD i 0 * |cos (st.delta_t_.getD i 0)|
            ∧ st.delta_y_.getD i 0 = -(st.step_size_.getD i 0 * sin (st.delta_t_.getD i 0)))
        ∧ (p.pre_forward_size ≤ (i : Int) →
            st.delta_x_.getD i 0 = -(st.step_size_.getD i 0 * |cos (st.delta_t_.getD i 0)|)
            ∧ st.delta_y_.getD i 0 = st.step_size_.getD i 0 * sin (st.delta_t_.getD i 0)) := by
  obtain ⟨st, hst, -, -, -, hval⟩ :=
    loadLoop_tables cos sin pi (readParam p) p.pre_succ_size.toNat hlen
  refine ⟨st, hst, fun i hi => ?_⟩
  obtain ⟨v1, v2, v3, v4⟩ := hval i
  rw [if_pos hi] at v1 v2 v3 v4
  have ha : angleAt pi (readParam p) i = p.delta_t_edg.getD i 0 * pi / 180 := by
    unfold angleAt
    split
    · rfl
    · show p.delta_t_edg.getD i 0 / 180 * pi = _
      ring
  refine ⟨v1, by rw [v2, ha], fun hf => ?_, fun hr => ?_⟩
  · have hf1 : (i : Int) < (readParam p).pre_forward_size_ := hf
    rw [v3, v4, v1, v2]
    unfold deltaXAt deltaYAt
    rw [if_pos hf1, if_pos hf1]
    exact ⟨rfl, by ring⟩
  · have hr1 : ¬ (i : Int) < (readParam p).pre_forward_size_ := not_lt.mpr hr
    rw [v3, v4, v1, v2]
    unfold deltaXAt deltaYAt
    rw [if_neg hr1, if_neg hr1]
    exact ⟨by ring, rfl⟩

/-- C22 (counterexample): over the reals, for the configuration `mirrorParam`
whose primitive 1 is a reverse primitive with `delta_t_edg[1] = 90`, the loaded
heading delta `delta_t[1]` is `90 * pi / 180`, the value `t[1]` of the forward
formula, which is positive; it is not its mirror image `-t[1]`. -/
theorem loadConfig_reverse_heading_counterexample :
    ∃ st : Statics ℝ,
      loadConfig Real.cos Real.sin Real.pi (mirrorParam : Param ℝ) = Except.ok st
      ∧ (mirrorParam : Param ℝ).pre_forward_size ≤ 1
      ∧ (1 : Int) < (mirrorParam : Param ℝ).pre_succ_size
      ∧ st.delta_t_.getD 1 0 = 90 * Real.pi / 180
      ∧ 0 < st.delta_t_.getD 1 0
      ∧ st.delta_t_.getD 1 0 ≠ -(90 * Real.pi / 180) := by
  have hlen : ∀ t : Table, (mirrorParam : Param ℝ).pre_succ_size.toNat
      ≤ ((readParam (mirrorParam : Param ℝ)).table t).length := by
    intro t
    cases t <;> decide
  obtain ⟨st, hst, hval⟩ := loadConfig_values Real.cos Real.sin Real.pi mirrorParam hlen
  obtain ⟨-, h2, -, -⟩ := hval 1 (by decide)
  have h90 : (mirrorParam : Param ℝ).delta_t_edg.getD 1 0 = 90 := rfl
  rw [h90] at h2
  have hpos : (0 : ℝ) < 90 * Real.pi / 180 := by
    have := Real.pi_pos
    positivity
  refine ⟨st, hst, by decide, by decide, h2, by rw [h2]; exact hpos, ?_⟩
  rw [h2]
  intro h
  linarith

/-- C22 (amended): for a configuration whose five tables have at least
`pre_succ_size` entries the configuration block completes, and for every index
`i` below `pre_succ_size`: `step_size_[i]` is the loaded step size times
`0.1178097`; `delta_t_[i]` is `t[i] = delta_t_edg[i] * pi / 180`, for forward and
reverse primitives alike; for `i < pre_forward_size`,
`delta_x_[i] = step[i] * |cos t[i]|` and `delta_y_[i] = -step[i] * sin t[i]`; for
the other indices `delta_x_[i] = -step[i] * |cos t[i]|` and
`delta_y_[i] = step[i] * sin t[i]`.  The arithmetic is that of any ordered
field, with `cos`, `sin` and `pi` the functions and constant of cmath; the real
numbers with the real cosine, sine and pi are one instance. -/
theorem loadConfig_derived_tables (cos sin : K → K) (pi : K) (p : Param K)
    (hlen : ∀ t : Table, p.pre_succ_size.toNat ≤ ((readParam p).table t).length) :
    ∃ st, loadConfig cos sin pi p = Except.ok st ∧
      ∀ i : Nat, i < p.pre_succ_size.toNat →
        st.step_size_.getD i 0 = p.step_size.getD i 0 * (1178097 / 10000000)
        ∧ st.delta_t_.getD i 0 = p.delta_t_edg.getD i 0 * pi / 180
        ∧ ((i : Int) < p.pre_forward_size →
            st.delta_x_.getD i 0 = st.step_size_.getD i 0 * |cos (st.delta_t_.getD i 0)|
            ∧ st.delta_y_.getD i 0 = -(st.step_size_.getD i 0 * sin (st.delta_t_.getD i 0)))
        ∧ (p.pre_forward_size ≤ (i : Int) →
            st.delta_x_.getD i 0 = -(st.step_size_.getD i 0 * |cos (st.delta_t_.getD i 0)|)
            ∧ st.delta_y_.getD i 0 = st.step_size_.getD i 0 * sin (st.delta_t_.getD i 0)) :=
  loadConfig_values cos sin pi p hlen

/-- Instance of C22 (amended): the configuration `mirrorParam` over the reals. -/
theorem loadConfig_derived_tables_witness :
    (∀ t : Table, (mirrorParam : Param ℝ).pre_succ_size.toNat
      ≤ ((readParam (mirrorParam : Param ℝ)).table t).length)
    ∧ ∃ st : Statics ℝ,
        loadConfig Real.cos Real.sin Real.pi (mirrorParam : Param ℝ) = Except.ok st
        ∧ st.step_size_.getD 1 0 = 6 * (1178097 / 10000000)
        ∧ st.delta_t_.getD 1 0 = 90 * Real.pi / 180
        ∧ st.delta_x_.getD 1 0
            = -(st.step_size_.getD 1 0 * |Real.cos (st.delta_t_.getD 1 0)|)
        ∧ st.delta_y_.getD 1 0 = st.step_size_.getD 1 0 * Real.sin (st.delta_t_.getD 1 0) := by
  have hlen : ∀ t : Table, (mirrorParam : Param ℝ).pre_succ_size.toNat
      ≤ ((readParam (mirrorParam : Param ℝ)).table t).length := by
    intro t
    cases t <;> decide
  obtain ⟨st, hst, hval⟩ :=
    loadConfig_derived_tables Real.cos Real.sin Real.pi (mirrorParam : Param ℝ) hlen
  obtain ⟨h1, h2, -, h4⟩ := hval 1 (by decide)
  exact ⟨hlen, st, hst, h1, h2, (h4 (by decide)).1, (h4 (by decide)).2⟩

/-! ## 3D search: a same-cell successor of a slot node -/

/-- C25: while the node at the address `&nodes3D[iPred]` is being expanded, a
candidate that passes the test of line 332 with the index `iPred` and a total
cost within `Constants::tieBreaker` of the expanded node's is accepted into
slot `iPred`: the slot then holds the candidate's pose, the expanded node's
`g` plus `dx[0]`, the `h` of `updateH`, the predecessor the expanded node had,
status open, and a pointer to the slot is in the heap; the candidate of every
primitive `j` generated from that memory starts from the accepted successor's
pose and `g`, since `nPred` designates the slot. -/
theorem same_cell_successor_moves_expanded_node (E : Env K) (gas : Nat) (width height : Int)
    (goal : Node3D K) (iPred : Int) (step : K) (s : Search3D K) (i : Nat)
    (hg : OnGrid width height (toInt goal.x, toInt goal.y))
    (hgas : 1 + 8 * (width * height).toNat < gas)
    (hidx : (candidate E width height (Ptr.slot iPred) step s i).idx = iPred)
    (hgrid : (candidate E width height (Ptr.slot iPred) step s i).isOnGrid E width height
      = true)
    (htrav : E.isTraversable3D (candidate E width height (Ptr.slot iPred) step s i).x
      (candidate E width height (Ptr.slot iPred) step s i).y
      (candidate E width height (Ptr.slot iPred) step s i).t = true) :
    ∃ (n : Node3D K) (nodes2D : Int → Node2D K),
      updateH E gas ((candidate E width height (Ptr.slot iPred) step s i).updateG E.dx0) goal
        s.nodes2D width height = some (n, nodes2D)
      ∧ (n.getC ≤ (s.nodes3D iPred).getC + E.tieBreaker →
          ∃ s1, hybridSucc E gas width height goal (Ptr.slot iPred) iPred step s i = some s1
            ∧ (s1.nodes3D iPred).pose
                = (candidate E width height (Ptr.slot iPred) step s i).pose
            ∧ (s1.nodes3D iPred).g = (s.nodes3D iPred).g + E.dx0
            ∧ (s1.nodes3D iPred).h = n.h
            ∧ (s1.nodes3D iPred).pred = (s.nodes3D iPred).pred
            ∧ (s1.nodes3D iPred).o = true ∧ (s1.nodes3D iPred).c = false
            ∧ s1.O = s.O ++ [Ptr.slot iPred]
            ∧ ∀ (j : Nat) (step1 : K),
                (candidate E width height (Ptr.slot iPred) step1 s1 j).pose
                  = succPose E (candidate E width height (Ptr.slot iPred) step s i).pose
                      j step1
                ∧ (candidate E width height (Ptr.slot iPred) step1 s1 j).g
                  = (s.nodes3D iPred).g + E.dx0) := by
  obtain ⟨n, nodes2D, hu⟩ := updateH_terminates E
    ((candidate E width height (Ptr.slot iPred) step s i).updateG E.dx0) goal s.nodes2D hg gas
    hgas
  have hn := updateH_pose hu
  refine ⟨n, nodes2D, hu, fun hC => ?_⟩
  have hc1 : ¬ (true && decide (n.getC > (s.nodes3D iPred).getC + E.tieBreaker)) = true := by
    simp only [Bool.true_and, decide_eq_true_eq, gt_iff_lt, not_lt]
    exact hC
  have hc2 : (true && decide (n.getC ≤ (s.nodes3D iPred).getC + E.tieBreaker)) = true := by
    simp only [Bool.true_and, decide_eq_true_eq]
    exact hC
  have hs1 : hybridSucc E gas width height goal (Ptr.slot iPred) iPred step s i
      = some { s with nodes2D := nodes2D,
                      nodes3D := Function.update s.nodes3D iPred
                        ((n.setPred (s.nodes3D iPred).pred).markOpen),
                      O := s.O ++ [Ptr.slot iPred] } := by
    unfold hybridSucc
    simp only [hgrid, htrav, hidx, Bool.and_self, if_true, decide_True, Bool.or_true, hu]
    rw [if_neg (by exact hc1), if_pos (by exact hc2)]
    rfl
  have hslot : (Function.update s.nodes3D iPred ((n.setPred (s.nodes3D iPred).pred).markOpen))
      iPred = (n.setPred (s.nodes3D iPred).pred).markOpen := Function.update_same _ _ _
  have hpose : ((n.setPred (s.nodes3D iPred).pred).markOpen).pose
      = (candidate E width height (Ptr.slot iPred) step s i).pose := by
    rw [hn]
    rfl
  have hgv : ((n.setPred (s.nodes3D iPred).pred).markOpen).g = (s.nodes3D iPred).g + E.dx0 := by
    rw [hn]
    rfl
  refine ⟨_, hs1, ?_, ?_, ?_, ?_, ?_, ?_, rfl, fun j step1 => ⟨?_, ?_⟩⟩
  · show (Function.update s.nodes3D iPred _ iPred).pose = _
    rw [hslot, hpose]
  · show (Function.update s.nodes3D iPred _ iPred).g = _
    rw [hslot, hgv]
  · show (Function.update s.nodes3D iPred _ iPred).h = _
    rw [hslot]
    rfl
  · show (Function.update s.nodes3D iPred _ iPred).pred = _
    rw [hslot]
    rfl
  · show (Function.update s.nodes3D iPred _ iPred).o = _
    rw [hslot]
    rfl
  · show (Function.update s.nodes3D iPred _ iPred).c = _
    rw [hslot]
    rfl
  · rw [candidate_pose]
    show succPose E (Function.update s.nodes3D iPred _ iPred).pose j step1 = _
    rw [hslot, hpose]
  · show (Function.update s.nodes3D iPred _ iPred).g = _
    rw [hslot, hgv]

/-- Instance of C25: in `slotState` the node being expanded is slot 0 at pose
`(0, 0, 0)`; its forward successor at `(1/4, 0, 0)` stays in cell 0 and is
accepted, after which the backward primitive is generated from `(1/4, 0, 0)`
and lands on `(0, 0, 0)`, whereas from the pose of the popped node it would have
landed on `(-1/4, 0, 0)`. -/
theorem same_cell_successor_moves_expanded_node_witness :
    (candidate quarterEnv 4 1 (Ptr.slot 0) 0 slotState 0).idx = 0
    ∧ (slotState.nodes3D 0).pose = (0, 0, 0)
    ∧ (candidate quarterEnv 4 1 (Ptr.slot 0) 0 slotState 1).pose = (-1 / 4, 0, 0)
    ∧ ∃ s1, hybridSucc quarterEnv 40 4 1 (poseNode 3) (Ptr.slot 0) 0 0 slotState 0 = some s1
        ∧ (s1.nodes3D 0).pose = (1 / 4, 0, 0)
        ∧ (s1.nodes3D 0).o = true
        ∧ s1.O = slotState.O ++ [Ptr.slot 0]
        ∧ (candidate quarterEnv 4 1 (Ptr.slot 0) 0 s1 1).pose = (0, 0, 0) := by
  obtain ⟨n, nodes2D, hu, h⟩ :=
    same_cell_successor_moves_expanded_node quarterEnv 40 4 1 (poseNode 3) 0 0 slotState 0
      ⟨by decide, by decide, by decide, by decide⟩ (by decide) (by decide!) (by decide!)
      (by decide!)
  have hC : n.getC ≤ (slotState.nodes3D 0).getC + quarterEnv.tieBreaker := by
    have e : (updateH quarterEnv 40
        ((candidate quarterEnv 4 1 (Ptr.slot 0) 0 slotState 0).updateG quarterEnv.dx0)
        (poseNode 3) slotState.nodes2D 4 1).map (fun r => decide
          (r.1.getC ≤ (slotState.nodes3D 0).getC + quarterEnv.tieBreaker)) = some true := by
      decide!
    rw [hu] at e
    simpa using e
  obtain ⟨s1, h1, h2, _, _, _, h6, _, h8, h9⟩ := h hC
  refine ⟨by decide!, by decide!, by decide!, s1, h1, ?_, h6, h8, ?_⟩
  · rw [h2]
    decide!
  · rw [(h9 1 0).1]
    decide!

/-! ## 3D search: termination for any goal on the grid -/

theorem aStarLoop_mono {E : Env K} {width height : Int} {goal : Node2D K} :
    ∀ (fuel : Nat) (s : Search2D K) (r : Result2D K),
      aStarLoop E width height goal fuel s = some r →
      ∀ fuel1, fuel ≤ fuel1 → aStarLoop E width height goal fuel1 s = some r := by
  intro fuel
  induction fuel with
  | zero => intro s r h; simp [aStarLoop] at h
  | succ fuel ih =>
    intro s r h fuel1 hle
    obtain ⟨f1, rfl⟩ : ∃ f1, fuel1 = f1 + 1 := ⟨fuel1 - 1, by omega⟩
    unfold aStarLoop at h ⊢
    by_cases hO : s.O.isEmpty = true
    · rw [if_pos hO] at h ⊢
      exact h
    · rw [if_neg hO] at h ⊢
      cases hit : aStarIter E width height goal s with
      | done r1 =>
        rw [hit] at h
        exact h
      | next s1 =>
        rw [hit] at h
        exact ih s1 r h f1 (by omega)

theorem updateH_mono {E : Env K} {gas gas1 : Nat} {start goal : Node3D K}
    {nodes2D : Int → Node2D K} {width height : Int} {r : Node3D K × (Int → Node2D K)}
    (h : updateH E gas start goal nodes2D width height = some r) (hle : gas ≤ gas1) :
    updateH E gas1 start goal nodes2D width height = some r := by
  unfold updateH updateH2D at h ⊢
  by_cases hr : runs2D E start nodes2D width = true
  · simp only [hr, if_true] at h ⊢
    cases ha : aStar E gas (node2DAt goal.x goal.y) (node2DAt start.x start.y) nodes2D width
        height with
    | none => rw [ha] at h; simp at h
    | some r2 =>
      have := aStarLoop_mono gas _ r2 ha gas1 hle
      have ha1 : aStar E gas1 (node2DAt goal.x goal.y) (node2DAt start.x start.y) nodes2D
          width height = some r2 := this
      rw [ha] at h
      rw [ha1]
      exact h
  · simp only [hr, if_false] at h ⊢
    exact h

theorem shotAttempt_mono {E : Env K} {gas gas1 : Nat} {goal : Node3D K} {p : Ptr}
    {s : Search3D K} {r : Option (Shot K)}
    (h : shotAttempt E gas goal p s = some r) (hle : gas ≤ gas1) :
    shotAttempt E gas1 goal p s = some r := by
  unfold shotAttempt at h ⊢
  split at h
  · rename_i hgate
    rw [if_pos hgate]
    exact dubinsShot_mono h hle
  · rename_i hgate
    rw [if_neg hgate]
    exact h

theorem hybridSucc_mono {E : Env K} {gas gas1 : Nat} {width height : Int} {goal : Node3D K}
    {p : Ptr} {iPred : Int} {step : K} {s s1 : Search3D K} {i : Nat}
    (h : hybridSucc E gas width height goal p iPred step s i = some s1) (hle : gas ≤ gas1) :
    hybridSucc E gas1 width height goal p iPred step s i = some s1 := by
  unfold hybridSucc at h ⊢
  simp only at h ⊢
  split at h
  · rename_i h1
    rw [if_pos h1]
    split at h
    · rename_i h2
      rw [if_pos h2]
      split at h
      · rename_i h3
        rw [if_pos h3]
        split at h
        · exact absurd h (by simp)
        · rename_i q nodes hq
          rw [updateH_mono hq hle]
          exact h
      · rename_i h3
        rw [if_neg h3]
        exact h
    · rename_i h2
      rw [if_neg h2]
      exact h
  · rename_i h1
    rw [if_neg h1]
    exact h

theorem foldlM_option_mono {σ α : Type} (f g : σ → α → Option σ)
    (hfg : ∀ s a s1, f s a = some s1 → g s a = some s1) :
    ∀ (l : List α) (s s1 : σ), l.foldlM f s = some s1 → l.foldlM g s = some s1 := by
  intro l
  induction l with
  | nil => intro s s1 h; exact h
  | cons a l ih =>
    intro s s1 h
    rw [List.foldlM_cons] at h ⊢
    cases hf : f s a with
    | none => rw [hf] at h; exact absurd h (by simp)
    | some s2 =>
      rw [hf] at h
      rw [hfg s a s2 hf]
      exact ih s2 s1 h

theorem hybridExpand_mono {E : Env K} {gas gas1 : Nat} {width height : Int} {goal : Node3D K}
    {p : Ptr} {iPred : Int} {step : K} {n : Nat} {s s1 : Search3D K}
    (h : hybridExpand E gas width height goal p iPred step n s = some s1) (hle : gas ≤ gas1) :
    hybridExpand E gas1 width height goal p iPred step n s = some s1 :=
  foldlM_option_mono _ _ (fun _ _ _ hs => hybridSucc_mono hs hle) _ _ _ h

theorem hybridIter_mono {E : Env K} {gas gas1 : Nat} {width height : Int} {goal : Node3D K}
    {s : Search3D K} {st : Step (Search3D K) (Result3D K)}
    (h : hybridIter E gas width height goal s = some st) (hle : gas ≤ gas1) :
    hybridIter E gas1 width height goal s = some st := by
  unfold hybridIter at h ⊢
  simp only at h ⊢
  split at h
  · rename_i h1
    rw [if_pos h1]
    exact h
  · rename_i h1
    rw [if_neg h1]
    split at h
    · rename_i h2
      rw [if_pos h2]
      split at h
      · rename_i h3
        rw [if_pos h3]
        exact h
      · rename_i h3
        rw [if_neg h3]
        split at h
        · exact absurd h (by simp)
        · rename_i sh hsa
          rw [shotAttempt_mono hsa hle]
          exact h
        · rename_i hsa
          rw [shotAttempt_mono hsa hle]
          simp only [Option.map_eq_some'] at h ⊢
          obtain ⟨s1, hs1, e⟩ := h
          exact ⟨s1, hybridExpand_mono hs1 hle, e⟩
    · rename_i h2
      rw [if_neg h2]
      exact h

theorem hybridLoop_mono {E : Env K} {gas gas1 : Nat} {width height : Int} {goal : Node3D K}
    (hle : gas ≤ gas1) :
    ∀ (fuel : Nat) (s : Search3D K) (r : Result3D K),
      hybridLoop E gas width height goal fuel s = some r →
      ∀ fuel1, fuel ≤ fuel1 → hybridLoop E gas1 width height goal fuel1 s = some r := by
  intro fuel
  induction fuel with
  | zero => intro s r h; simp [hybridLoop] at h
  | succ fuel ih =>
    intro s r h fuel1 hf
    obtain ⟨f1, rfl⟩ : ∃ f1, fuel1 = f1 + 1 := ⟨fuel1 - 1, by omega⟩
    unfold hybridLoop at h ⊢
    by_cases hO : s.O.isEmpty = true
    · rw [if_pos hO] at h ⊢
      exact h
    · rw [if_neg hO] at h ⊢
      cases hit : hybridIter E gas width height goal s with
      | none => rw [hit] at h; exact absurd h (by simp)
      | some st =>
        rw [hit] at h
        rw [hybridIter_mono hit hle]
        cases st with
        | next s1 => exact ih s1 r h f1 (by omega)
        | done r1 => exact h

end HybridAStar
